import Mathlib

/-!
# Order book (`orderbook.go`): shallow embedding and verification

The Go package keeps two slices of resting orders (`buyOrders`, `sellOrders`)
and offers `Add`, `Cancel`, `Get` and `Match`.

Modelling choices.

* `float64` is the type `F64`: NaN, the two infinities, and finite values
  given by a sign and a magnitude counted in units of `2^-1074`, the smallest
  subnormal, so that every finite `float64` (both zeros included) is a value
  `fin neg mag`.  Comparison, `min` and subtraction follow IEEE 754 and the Go
  specification: comparisons with NaN are false, `-0 == +0`, `Inf - Inf` is
  NaN, and a difference is rounded to nearest, ties to even, overflowing to
  an infinity.  A magnitude that no `float64` has is not excluded by the
  type; where rounding matters a theorem asks for `F64.Valid` amounts.
* A Go slice held by the book is modelled by the `List` of its elements; a
  method with pointer receiver becomes a function returning the new book
  together with the Go return values.
* `sort.Slice` belongs to the Go standard library.  Its documented contract
  (the result is a rearrangement of the slice; it is ordered by `less` when
  `less` is a strict weak ordering of the elements; ties in unspecified
  order) is the structure `SliceSorter`; `Add` takes a sorter as a
  parameter.  `goSorter` is the concrete routine the library runs on slices
  of at most twelve elements (`insertionSortLessFunc`).
* The `for` loop of `Match` is a fuel-indexed function `matchLoop`.  The loop
  of the source need not exit (two heads with amount NaN are never sliced
  off).  `Match` supplies `len(buyOrders) + len(sellOrders) + 1` units of
  fuel: this is enough for every run that exits (`Match_adequate`), so
  `Match ob = none` says that the call does not return.
-/

set_option exponentiation.threshold 5000

namespace Orderbook

/-! ## `float64` -/

/-- A `float64` value.  `fin neg mag` is the finite value
`(-1)^neg * mag * 2^-1074`. -/
inductive F64 where
  | nan : F64
  | inf (neg : Bool) : F64
  | fin (neg : Bool) (mag : Nat) : F64
  deriving DecidableEq, Repr

namespace F64

/-- Magnitude of the largest finite `float64`, `(2^53 - 1) * 2^971`. -/
def maxMag : Nat := (2 ^ 53 - 1) * 2 ^ 2045

/-- Rounds `d` to a multiple of `2^e`, to nearest, ties to the even multiple. -/
def roundAt (e d : Nat) : Nat :=
  let q := d / 2 ^ e
  let r := d % 2 ^ e
  if 2 * r < 2 ^ e then q * 2 ^ e
  else if 2 * r = 2 ^ e then (if q % 2 = 0 then q else q + 1) * 2 ^ e
  else (q + 1) * 2 ^ e

/-- Binary logarithm by bisection on the exponent: `ilog i d` is
`floor (log2 d)` for `1 ≤ d < 2^(2^i)`. -/
def ilog : Nat → Nat → Nat
  | 0, _ => 0
  | i + 1, d => if 2 ^ 2 ^ i ≤ d then ilog i (d / 2 ^ 2 ^ i) + 2 ^ i else ilog i d

/-- The spacing of the `float64` values around magnitude `d` is `2^(expOf d)`
units: 53 significant bits, and spacing one unit in the subnormal range. -/
def expOf (d : Nat) : Nat := ilog 12 d - 52

/-- Magnitude `d` rounded to 53 significant bits. -/
def roundMag (d : Nat) : Nat := roundAt (expOf d) d

/-- The `float64` nearest to the exact magnitude `d` with the given sign; an
infinity when the rounded magnitude exceeds the largest finite one. -/
def roundFin (neg : Bool) (d : Nat) : F64 :=
  if roundMag d ≤ maxMag then fin neg (roundMag d) else inf neg

/-- Conversion of a natural-number constant to `float64`. -/
def ofNat (n : Nat) : F64 := roundFin false (n * 2 ^ 1074)

instance (n : Nat) : OfNat F64 n := ⟨ofNat n⟩

/-- Exact value of a finite `float64`, in units of `2^-1074`. -/
def signed (neg : Bool) (mag : Nat) : Int := if neg then -(mag : Int) else (mag : Int)

/-- Exact value in units of `2^-1074`; `0` for NaN and the infinities. -/
def exact : F64 → Int
  | fin s m => signed s m
  | _ => 0

/-- Go: `x != x`. -/
def isNaN : F64 → Bool
  | nan => true
  | _ => false

/-- Neither NaN nor an infinity. -/
def isFinite : F64 → Bool
  | fin _ _ => true
  | _ => false

/-- The sign bit. -/
def signBit : F64 → Bool
  | nan => false
  | inf s => s
  | fin s _ => s

/-- Go: `x < y` on `float64`. -/
def lt : F64 → F64 → Bool
  | fin s m, fin t n => decide (signed s m < signed t n)
  | fin _ _, inf t => !t
  | inf s, fin _ _ => s
  | inf s, inf t => s && !t
  | _, _ => false

/-- Go: `x == y` on `float64`. -/
def eq : F64 → F64 → Bool
  | fin s m, fin t n => decide (signed s m = signed t n)
  | inf s, inf t => s == t
  | _, _ => false

/-- Go: `x <= y` on `float64`. -/
def le (x y : F64) : Bool := lt x y || eq x y

/-- Go: `x - y` on `float64`. -/
def sub : F64 → F64 → F64
  | fin s m, fin t n =>
    let d := signed s m - signed t n
    if d = 0 then fin (s && !t) 0 else roundFin (decide (d < 0)) d.natAbs
  | fin _ _, inf t => inf (!t)
  | inf s, fin _ _ => inf s
  | inf s, inf t => if s = t then nan else inf s
  | _, _ => nan

/-- Go: the built-in `min(x, y)` on `float64` (`fmin` of the runtime):
`if y != y || y < x { return y }`,
`if x != x || x < y || x != 0 { return x }`, and for two zeros the zero whose
sign bit is the disjunction of the two sign bits. -/
def min (x y : F64) : F64 :=
  if y.isNaN || lt y x then y
  else if x.isNaN || lt x y || !(eq x (fin false 0)) then x
  else fin (x.signBit || y.signBit) 0

instance : LT F64 := ⟨fun x y => lt x y = true⟩

instance : LE F64 := ⟨fun x y => le x y = true⟩

instance (x y : F64) : Decidable (x < y) := inferInstanceAs (Decidable (lt x y = true))

instance (x y : F64) : Decidable (x ≤ y) := inferInstanceAs (Decidable (le x y = true))

instance : Min F64 := ⟨min⟩

instance : Sub F64 := ⟨sub⟩

/-- A value that a `float64` can hold: a finite magnitude is at most `maxMag`
and has at most 53 significant bits. -/
def Valid : F64 → Prop
  | fin _ m => m ≤ maxMag ∧ roundMag m = m
  | _ => True

instance : (x : F64) → Decidable x.Valid
  | fin _ m => inferInstanceAs (Decidable (m ≤ maxMag ∧ roundMag m = m))
  | nan => isTrue trivial
  | inf _ => isTrue trivial

end F64

/-- Go: `type OrderType string`. -/
abbrev OrderType := String

/-- Go: `Buy OrderType = "buy"`. -/
def Buy : OrderType := "buy"

/-- Go: `Sell OrderType = "sell"`. -/
def Sell : OrderType := "sell"

/-- Go: `type Order struct`.  The field `Type` is written `Typ`, `Type` being
reserved. -/
structure Order where
  ID : String
  Typ : OrderType
  Price : F64
  Amount : F64
  deriving DecidableEq, Repr

/-- Go: `type Trade struct`. -/
structure Trade where
  BuyOrderID : String
  SellOrderID : String
  Price : F64
  Amount : F64
  deriving DecidableEq, Repr

/-- Go: `type OrderError struct`. -/
structure OrderError where
  ID : String
  Reason : String
  deriving DecidableEq, Repr

/-- Go: `func (o *OrderError) Error() string`, the format `"Order(id=%s) %s"`. -/
def OrderError.Error (e : OrderError) : String :=
  "Order(id=" ++ e.ID ++ ") " ++ e.Reason

/-- Go: `type OrderBook struct`. -/
structure OrderBook where
  buyOrders : List Order
  sellOrders : List Order
  deriving DecidableEq, Repr

/-- Go: `func New() *OrderBook`, both slices nil. -/
def New : OrderBook := { buyOrders := [], sellOrders := [] }

/-- Go: `func (ob *OrderBook) Get() (buys []Order, sells []Order)`. -/
def OrderBook.Get (ob : OrderBook) : List Order × List Order :=
  (ob.buyOrders, ob.sellOrders)

/-! ## `sort.Slice` -/

/-- The comparison function is a strict weak ordering of the elements of the
slice: asymmetric, and incomparability is transitive.  This is what
`sort.Slice` asks of `less`, which it only calls on elements of the slice. -/
def StrictWeakOn {α : Type} (less : α → α → Bool) (l : List α) : Prop :=
  (∀ a ∈ l, ∀ b ∈ l, less a b = true → less b a = false) ∧
  (∀ a ∈ l, ∀ b ∈ l, ∀ c ∈ l, less a b = false → less b c = false → less a c = false)

/-- The contract of the library routine `sort.Slice(x, less)`: it only swaps
elements, and when `less` is a strict weak ordering of the elements no element
is `less` than one that precedes it in the result.  Nothing is promised about
ties, nor about the order when `less` is not such an ordering. -/
structure SliceSorter where
  sort : (Order → Order → Bool) → List Order → List Order
  perm : ∀ less l, (sort less l).Perm l
  sorted : ∀ less l, StrictWeakOn less l →
    (sort less l).Pairwise (fun a b => less b a = false)

/-- Inner loop of the library's `insertionSortLessFunc`:
`for j := i; j > a && less(j, j-1); j-- { swap(j, j-1) }`.
The already sorted prefix is passed reversed (its last element first). -/
def insertionInner {α : Type} (less : α → α → Bool) (x : α) : List α → List α
  | [] => [x]
  | p :: r => if less x p then p :: insertionInner less x r else x :: p :: r

/-- Outer loop of `insertionSortLessFunc`, `for i := a + 1; i < b; i++`. -/
def insertionSortLessFunc {α : Type} (less : α → α → Bool) (l : List α) : List α :=
  (l.foldl (fun r x => insertionInner less x r) []).reverse

/-- The sorter that `sort.Slice` runs on slices of at most twelve elements,
with the proof that it meets the contract. -/
def goSorter : SliceSorter where
  sort := fun less l => insertionSortLessFunc less l
  perm := by
    intro less l
    have inner : ∀ (x : Order) (r : List Order),
        (insertionInner less x r).Perm (x :: r) := by
      intro x r
      induction r with
      | nil => exact List.Perm.refl _
      | cons p r ih =>
        unfold insertionInner
        split
        · exact ((List.Perm.cons p ih).trans (List.Perm.swap x p r))
        · exact List.Perm.refl _
    have fold : ∀ (l acc : List Order),
        (l.foldl (fun r x => insertionInner less x r) acc).Perm (acc ++ l) := by
      intro l
      induction l with
      | nil => intro acc; simp
      | cons x l ih =>
        intro acc
        rw [List.foldl_cons]
        refine (ih _).trans ?_
        refine ((inner x acc).append_right l).trans ?_
        simpa using (@List.perm_middle _ x acc l).symm
    unfold insertionSortLessFunc
    refine (List.reverse_perm _).trans ?_
    simpa using fold l []
  sorted := by
    intro less l0 hw
    have inner : ∀ (x : Order) (r : List Order),
        (insertionInner less x r).Perm (x :: r) := by
      intro x r
      induction r with
      | nil => exact List.Perm.refl _
      | cons p r ih =>
        unfold insertionInner
        split
        · exact ((List.Perm.cons p ih).trans (List.Perm.swap x p r))
        · exact List.Perm.refl _
    have innerSorted : ∀ (x : Order) (r : List Order), x ∈ l0 → (∀ y ∈ r, y ∈ l0) →
        r.Pairwise (fun a b => less a b = false) →
        (insertionInner less x r).Pairwise (fun a b => less a b = false) := by
      intro x r hx
      induction r with
      | nil => intro _ _; simp [insertionInner]
      | cons p r ih =>
        intro hmem hr
        rw [List.pairwise_cons] at hr
        have hp : p ∈ l0 := hmem p (List.mem_cons_self _ _)
        have hrm : ∀ y ∈ r, y ∈ l0 := fun y hy => hmem y (List.mem_cons_of_mem _ hy)
        unfold insertionInner
        split
        · rename_i hlt
          rw [List.pairwise_cons]
          refine ⟨?_, ih hrm hr.2⟩
          intro y hy
          have hy2 : y ∈ x :: r := (inner x r).subset hy
          rcases List.mem_cons.mp hy2 with h | h
          · subst h; exact hw.1 _ hx _ hp hlt
          · exact hr.1 y h
        · rename_i hlt
          have hxp : less x p = false := by simpa using hlt
          rw [List.pairwise_cons]
          refine ⟨?_, List.pairwise_cons.mpr hr⟩
          intro y hy
          rcases List.mem_cons.mp hy with h | h
          · subst h; exact hxp
          · exact hw.2 _ hx _ hp _ (hrm y h) hxp (hr.1 y h)
    have foldSorted : ∀ (l acc : List Order), (∀ y ∈ l, y ∈ l0) → (∀ y ∈ acc, y ∈ l0) →
        acc.Pairwise (fun a b => less a b = false) →
        (l.foldl (fun r x => insertionInner less x r) acc).Pairwise
          (fun a b => less a b = false) := by
      intro l
      induction l with
      | nil => intro acc _ _ hacc; simpa using hacc
      | cons x l ih =>
        intro acc hl hm hacc
        rw [List.foldl_cons]
        have hx : x ∈ l0 := hl x (List.mem_cons_self _ _)
        refine ih _ (fun y hy => hl y (List.mem_cons_of_mem _ hy)) ?_
          (innerSorted x acc hx hm hacc)
        intro y hy
        rcases List.mem_cons.mp ((inner x acc).subset hy) with h | h
        · rw [h]; exact hx
        · exact hm y h
    unfold insertionSortLessFunc
    rw [List.pairwise_reverse]
    exact foldSorted l0 [] (fun y hy => hy) (fun y hy => by simp at hy) List.Pairwise.nil

/-! ## Operations -/

/-- Go: `func (ob *OrderBook) Add(o Order) error`.  Returns the book after the
call and the returned error (`none` for `nil`). -/
def OrderBook.Add (S : SliceSorter) (ob : OrderBook) (o : Order) :
    OrderBook × Option OrderError :=
  if o.Typ = Buy then
    let buyOrders := S.sort (fun a b => decide (a.Price > b.Price)) (ob.buyOrders ++ [o])
    ({ ob with buyOrders := buyOrders }, none)
  else if o.Typ = Sell then
    let sellOrders := S.sort (fun a b => decide (a.Price < b.Price)) (ob.sellOrders ++ [o])
    ({ ob with sellOrders := sellOrders }, none)
  else
    (ob, some { ID := o.ID, Reason := "invalid order type: " ++ o.Typ })

/-- Go: `func (ob *OrderBook) Cancel(orderID string) error`.  Each `range`
loop stops at the first index whose order carries the ID and deletes that
index with `slices.Delete(s, i, i+1)`. -/
def OrderBook.Cancel (ob : OrderBook) (orderID : String) :
    OrderBook × Option OrderError :=
  match ob.sellOrders.findIdx? (fun o => o.ID == orderID) with
  | some i => ({ ob with sellOrders := ob.sellOrders.eraseIdx i }, none)
  | none =>
    match ob.buyOrders.findIdx? (fun o => o.ID == orderID) with
    | some i => ({ ob with buyOrders := ob.buyOrders.eraseIdx i }, none)
    | none => (ob, some { ID := orderID, Reason := "not found" })

/-- The trade appended by one pass through the loop body of `Match`
(`amount := min(buy.Amount, sell.Amount)` and the `append`). -/
def tradeOf (buy sell : Order) : Trade :=
  let amount := min buy.Amount sell.Amount
  { BuyOrderID := buy.ID, SellOrderID := sell.ID, Price := sell.Price, Amount := amount }

/-- The book after one pass through the loop body of `Match`: both heads are
decremented in place by `amount`, then each head whose `Amount == 0` is sliced
off (`ob.buyOrders[1:]`, `ob.sellOrders[1:]`). -/
def fill (buy : Order) (buys : List Order) (sell : Order) (sells : List Order) :
    OrderBook :=
  let amount := min buy.Amount sell.Amount
  let buy0 : Order := { buy with Amount := buy.Amount - amount }
  let sell0 : Order := { sell with Amount := sell.Amount - amount }
  { buyOrders := if F64.eq buy0.Amount 0 then buys else buy0 :: buys,
    sellOrders := if F64.eq sell0.Amount 0 then sells else sell0 :: sells }

/-- The `for` loop of `Match`, one unit of fuel per evaluation of the loop
condition.  Returns the trades appended from this point on and the book at
loop exit; `none` when the fuel runs out before the loop exits. -/
def matchLoop : Nat → OrderBook → Option (List Trade × OrderBook)
  | 0, _ => none
  | fuel + 1, ob =>
    match ob.buyOrders, ob.sellOrders with
    | buy :: buys, sell :: sells =>
      if buy.Price < sell.Price then
        some ([], ob)
      else
        (matchLoop fuel (fill buy buys sell sells)).map
          (fun r => (tradeOf buy sell :: r.1, r.2))
    | _, _ => some ([], ob)

/-- What a call of `Match` leaves behind: the two return values and the book. -/
structure MatchResult where
  trades : List Trade
  err : Option OrderError
  book : OrderBook
  deriving DecidableEq, Repr

/-- Go: `func (ob *OrderBook) Match() (trades []Trade, err error)`.  The named
result `err` is never assigned, so it keeps its zero value `nil`. -/
def OrderBook.Match (ob : OrderBook) : Option MatchResult :=
  (matchLoop (ob.buyOrders.length + ob.sellOrders.length + 1) ob).map
    (fun r => { trades := r.1, err := none, book := r.2 })

/-! ## Predicates and drivers used to state the claims -/

/-- A buy collection in price priority: prices never increase along it. -/
def BuysSorted (l : List Order) : Prop := l.Pairwise (fun a b => a.Price ≥ b.Price)

/-- A sell collection in price priority: prices never decrease along it. -/
def SellsSorted (l : List Order) : Prop := l.Pairwise (fun a b => a.Price ≤ b.Price)

/-- Books reachable from `New()` by a finite sequence of `Add`, `Cancel` and
`Match` calls, whether the calls succeed or fail. -/
inductive Reachable (S : SliceSorter) : OrderBook → Prop where
  | new : Reachable S New
  | add (ob : OrderBook) (o : Order) : Reachable S ob → Reachable S (ob.Add S o).1
  | cancel (ob : OrderBook) (orderID : String) :
      Reachable S ob → Reachable S (ob.Cancel orderID).1
  | doMatch (ob : OrderBook) (r : MatchResult) :
      Reachable S ob → ob.Match = some r → Reachable S r.book

/-- Books reachable as in `Reachable`, by calls in which no order passed to
`Add` has a NaN price. -/
inductive ReachableNoNaN (S : SliceSorter) : OrderBook → Prop where
  | new : ReachableNoNaN S New
  | add (ob : OrderBook) (o : Order) :
      ReachableNoNaN S ob → o.Price.isNaN = false → ReachableNoNaN S (ob.Add S o).1
  | cancel (ob : OrderBook) (orderID : String) :
      ReachableNoNaN S ob → ReachableNoNaN S (ob.Cancel orderID).1
  | doMatch (ob : OrderBook) (r : MatchResult) :
      ReachableNoNaN S ob → ob.Match = some r → ReachableNoNaN S r.book

/-- A client adding the orders of a list one by one; returns the final book
and the error value of every `Add`, in call order. -/
def addAll (S : SliceSorter) : OrderBook → List Order → OrderBook × List (Option OrderError)
  | ob, [] => (ob, [])
  | ob, o :: os =>
    let r := ob.Add S o
    let rest := addAll S r.1 os
    (rest.1, r.2 :: rest.2)

/-- Every order of the collection has a finite amount. -/
def AllFinite (l : List Order) : Prop := ∀ x ∈ l, x.Amount.isFinite = true

/-- An amount that is finite or `+Inf`. -/
def FiniteOrPosInf (x : F64) : Prop := x.isFinite = true ∨ x = F64.inf false

/-- Every order of the collection has a finite amount, except possibly the
first one, whose amount may be `+Inf`. -/
def AlmostFinite : List Order → Prop
  | [] => True
  | x :: rest => FiniteOrPosInf x.Amount ∧ AllFinite rest

/-- A book all of whose amounts are finite, except possibly for one `+Inf` at
the head of one collection. -/
def Tame (ob : OrderBook) : Prop :=
  (AllFinite ob.buyOrders ∧ AlmostFinite ob.sellOrders) ∨
    (AlmostFinite ob.buyOrders ∧ AllFinite ob.sellOrders)

/-- The amount is a non-negative multiple `k * 2^u` (in units of `2^-1074`)
of the power of two `2^u`, with `k < 2^53`.  With `u = 1074` these are the
whole numbers below `2^53`. -/
def OnGrid (u : Nat) (x : F64) : Prop := ∃ k, k < 2 ^ 53 ∧ x = F64.fin false (k * 2 ^ u)

/-- Exact sum of the amounts of a collection of orders, in units of
`2^-1074` (an amount that is not finite counts as `0`). -/
def sumAmounts (l : List Order) : Int := (l.map (fun o => o.Amount.exact)).sum

/-- Exact sum of the amounts of a sequence of trades, in units of `2^-1074`. -/
def sumTrades (l : List Trade) : Int := (l.map (fun t => t.Amount.exact)).sum

/-- The collection `after` is a suffix of the collection `before` whose orders
are as they were, except possibly the first one, which keeps its ID, type and
price and has an amount not above its earlier amount. -/
def FilledSuffix (before after : List Order) : Prop :=
  ∃ n, after = before.drop n ∨
    ∃ x y rest, before.drop n = x :: rest ∧ after = y :: rest ∧
      y.ID = x.ID ∧ y.Typ = x.Typ ∧ y.Price = x.Price ∧ y.Amount ≤ x.Amount

/-! ## Order and arithmetic of `float64` -/

namespace F64

section Order

set_option linter.unusedTactic false

set_option linter.unreachableTactic false

theorem lt_asymm (x y : F64) (h : lt x y = true) : lt y x = false := by
  rcases x with _ | s | ⟨s, m⟩ <;> rcases y with _ | t | ⟨t, n⟩ <;>
    simp only [lt, decide_eq_true_eq, decide_eq_false_iff_not, Bool.and_eq_true,
      Bool.not_eq_true', Bool.and_eq_false_imp, Bool.not_eq_false'] at h ⊢ <;>
    first
      | omega
      | (cases s <;> cases t <;> simp_all)
      | (cases s <;> simp_all)
      | (cases t <;> simp_all)
      | simp_all

theorem lt_negtrans (x y z : F64) (hy : y.isNaN = false)
    (h1 : lt x y = false) (h2 : lt y z = false) : lt x z = false := by
  rcases x with _ | s | ⟨s, m⟩ <;> rcases y with _ | t | ⟨t, n⟩ <;>
    rcases z with _ | u | ⟨u, k⟩ <;>
    simp only [lt, isNaN, decide_eq_true_eq, decide_eq_false_iff_not, Bool.and_eq_true,
      Bool.not_eq_true', Bool.and_eq_false_imp, Bool.not_eq_false'] at hy h1 h2 ⊢ <;>
    first
      | omega
      | (cases s <;> cases t <;> cases u <;> simp_all)
      | (cases s <;> cases t <;> simp_all)
      | (cases s <;> cases u <;> simp_all)
      | (cases t <;> cases u <;> simp_all)
      | (cases s <;> simp_all)
      | (cases t <;> simp_all)
      | (cases u <;> simp_all)
      | simp_all

theorem le_of_not_lt (x y : F64) (hx : x.isNaN = false) (hy : y.isNaN = false)
    (h : lt x y = false) : le y x = true := by
  rcases x with _ | s | ⟨s, m⟩ <;> rcases y with _ | t | ⟨t, n⟩ <;>
    simp only [le, lt, eq, isNaN, decide_eq_true_eq, decide_eq_false_iff_not, Bool.and_eq_true,
      Bool.not_eq_true', Bool.and_eq_false_imp, Bool.not_eq_false', Bool.or_eq_true,
      beq_iff_eq] at hx hy h ⊢ <;>
    first
      | omega
      | (cases s <;> cases t <;> simp_all)
      | (cases s <;> simp_all)
      | (cases t <;> simp_all)
      | simp_all

theorem not_lt_of_le (x y : F64) (h : le x y = true) : lt y x = false := by
  rcases x with _ | s | ⟨s, m⟩ <;> rcases y with _ | t | ⟨t, n⟩ <;>
    simp only [le, lt, eq, decide_eq_true_eq, decide_eq_false_iff_not, Bool.and_eq_true,
      Bool.not_eq_true', Bool.and_eq_false_imp, Bool.not_eq_false', Bool.or_eq_true,
      beq_iff_eq] at h ⊢ <;>
    first
      | omega
      | (cases s <;> cases t <;> simp_all)
      | (cases s <;> simp_all)
      | (cases t <;> simp_all)
      | simp_all

theorem lt_of_le_of_lt (x y z : F64) (h1 : le x y = true) (h2 : lt y z = true) :
    lt x z = true := by
  rcases x with _ | s | ⟨s, m⟩ <;> rcases y with _ | t | ⟨t, n⟩ <;>
    rcases z with _ | u | ⟨u, k⟩ <;>
    simp only [le, lt, eq, decide_eq_true_eq, decide_eq_false_iff_not, Bool.and_eq_true,
      Bool.not_eq_true', Bool.and_eq_false_imp, Bool.not_eq_false', Bool.or_eq_true,
      beq_iff_eq] at h1 h2 ⊢ <;>
    first
      | omega
      | (cases s <;> cases t <;> cases u <;> simp_all)
      | (cases s <;> cases t <;> simp_all)
      | (cases s <;> cases u <;> simp_all)
      | (cases t <;> cases u <;> simp_all)
      | (cases s <;> simp_all)
      | (cases t <;> simp_all)
      | (cases u <;> simp_all)
      | simp_all

theorem lt_of_lt_of_le (x y z : F64) (h1 : lt x y = true) (h2 : le y z = true) :
    lt x z = true := by
  rcases x with _ | s | ⟨s, m⟩ <;> rcases y with _ | t | ⟨t, n⟩ <;>
    rcases z with _ | u | ⟨u, k⟩ <;>
    simp only [le, lt, eq, decide_eq_true_eq, decide_eq_false_iff_not, Bool.and_eq_true,
      Bool.not_eq_true', Bool.and_eq_false_imp, Bool.not_eq_false', Bool.or_eq_true,
      beq_iff_eq] at h1 h2 ⊢ <;>
    first
      | omega
      | (cases s <;> cases t <;> cases u <;> simp_all)
      | (cases s <;> cases t <;> simp_all)
      | (cases s <;> cases u <;> simp_all)
      | (cases t <;> cases u <;> simp_all)
      | (cases s <;> simp_all)
      | (cases t <;> simp_all)
      | (cases u <;> simp_all)
      | simp_all

theorem lt_of_le_of_ne (x y : F64) (h1 : le x y = true) (h2 : eq x y = false) :
    lt x y = true := by
  unfold le at h1
  rw [h2] at h1
  simpa using h1

theorem eq_comm (x y : F64) : eq x y = eq y x := by
  rcases x with _ | s | ⟨s, m⟩ <;> rcases y with _ | t | ⟨t, n⟩ <;>
    simp only [eq] <;> first | rfl | (cases s <;> cases t <;> rfl) | skip
  rw [Bool.eq_iff_iff]
  simp only [decide_eq_true_eq]
  exact ⟨fun h => h.symm, fun h => h.symm⟩

theorem isNaN_false_of_le_left (x y : F64) (h : le x y = true) : x.isNaN = false := by
  rcases x with _ | s | ⟨s, m⟩ <;> simp_all [le, lt, eq, isNaN]

theorem isNaN_false_of_le_right (x y : F64) (h : le x y = true) : y.isNaN = false := by
  rcases x with _ | s | ⟨s, m⟩ <;> rcases y with _ | t | ⟨t, n⟩ <;>
    simp_all [le, lt, eq, isNaN]

end Order

/-! ### Rounding -/

theorem ilog_le (i d : Nat) (hd : 1 ≤ d) : 2 ^ ilog i d ≤ d := by
  induction i generalizing d with
  | zero => simpa [ilog] using hd
  | succ i ih =>
    unfold ilog
    split
    · rename_i h
      have hpos : 0 < 2 ^ 2 ^ i := Nat.two_pow_pos _
      have h1 : 1 ≤ d / 2 ^ 2 ^ i := (Nat.one_le_div_iff hpos).mpr h
      have h2 := ih (d / 2 ^ 2 ^ i) h1
      calc 2 ^ (ilog i (d / 2 ^ 2 ^ i) + 2 ^ i)
          = 2 ^ ilog i (d / 2 ^ 2 ^ i) * 2 ^ 2 ^ i := by rw [Nat.pow_add]
        _ ≤ d / 2 ^ 2 ^ i * 2 ^ 2 ^ i := Nat.mul_le_mul_right _ h2
        _ ≤ d := Nat.div_mul_le_self _ _
    · exact ih d hd

theorem ilog_lt (i d : Nat) (hd : d < 2 ^ 2 ^ i) : d < 2 ^ (ilog i d + 1) := by
  induction i generalizing d with
  | zero => simpa [ilog] using hd
  | succ i ih =>
    unfold ilog
    split
    · have hpos : 0 < 2 ^ 2 ^ i := Nat.two_pow_pos _
      have h1 : d / 2 ^ 2 ^ i < 2 ^ 2 ^ i := by
        rw [Nat.div_lt_iff_lt_mul hpos, ← Nat.pow_add]
        have : 2 ^ i + 2 ^ i = 2 ^ (i + 1) := by rw [Nat.pow_succ]; omega
        rw [this]
        exact hd
      have h2 := ih (d / 2 ^ 2 ^ i) h1
      have h3 : d < (d / 2 ^ 2 ^ i + 1) * 2 ^ 2 ^ i := by
        have := Nat.lt_div_mul_add hpos (a := d)
        rw [Nat.add_mul, Nat.one_mul]
        exact this
      calc d < (d / 2 ^ 2 ^ i + 1) * 2 ^ 2 ^ i := h3
        _ ≤ 2 ^ (ilog i (d / 2 ^ 2 ^ i) + 1) * 2 ^ 2 ^ i := Nat.mul_le_mul_right _ h2
        _ = 2 ^ (ilog i (d / 2 ^ 2 ^ i) + 2 ^ i + 1) := by
          rw [← Nat.pow_add]; congr 1; omega
    · rename_i h
      exact ih d (Nat.lt_of_not_le h)

theorem expOf_le (d : Nat) (hd : 1 ≤ d) : 2 ^ expOf d ≤ d :=
  Nat.le_trans (Nat.pow_le_pow_right (by decide) (Nat.sub_le _ _)) (ilog_le 12 d hd)

theorem roundAt_of_dvd (e d : Nat) (h : 2 ^ e ∣ d) : roundAt e d = d := by
  have hpos : 0 < 2 ^ e := Nat.two_pow_pos _
  have hr : d % 2 ^ e = 0 := Nat.mod_eq_zero_of_dvd h
  unfold roundAt
  simp only [hr, Nat.mul_zero, hpos, if_true]
  exact Nat.div_mul_cancel h

theorem roundAt_ge (e d : Nat) : d / 2 ^ e * 2 ^ e ≤ roundAt e d := by
  unfold roundAt
  dsimp only
  split
  · exact Nat.le_refl _
  · split
    · split
      · exact Nat.le_refl _
      · exact Nat.mul_le_mul_right _ (Nat.le_succ _)
    · exact Nat.mul_le_mul_right _ (Nat.le_succ _)

theorem roundAt_le (e d : Nat) : roundAt e d ≤ (d / 2 ^ e + 1) * 2 ^ e := by
  unfold roundAt
  dsimp only
  split
  · exact Nat.mul_le_mul_right _ (Nat.le_succ _)
  · split
    · split
      · exact Nat.mul_le_mul_right _ (Nat.le_succ _)
      · exact Nat.le_refl _
    · exact Nat.le_refl _

theorem roundMag_pos (d : Nat) (hd : 1 ≤ d) : 1 ≤ roundMag d := by
  have hpos : 0 < 2 ^ expOf d := Nat.two_pow_pos _
  have h1 : 1 ≤ d / 2 ^ expOf d := (Nat.one_le_div_iff hpos).mpr (expOf_le d hd)
  have h2 := roundAt_ge (expOf d) d
  have h3 : 1 ≤ d / 2 ^ expOf d * 2 ^ expOf d := Nat.mul_pos h1 hpos
  exact Nat.le_trans h3 h2

theorem roundMag_exact (k u : Nat) (hk : k < 2 ^ 53) : roundMag (k * 2 ^ u) = k * 2 ^ u := by
  rcases Nat.eq_zero_or_pos k with h0 | hkpos
  · subst h0
    simp [roundMag, roundAt]
  · apply roundAt_of_dvd
    have hupos : 0 < 2 ^ u := Nat.two_pow_pos _
    have hd : 1 ≤ k * 2 ^ u := Nat.mul_pos hkpos hupos
    have h1 := ilog_le 12 (k * 2 ^ u) hd
    have h2 : k * 2 ^ u < 2 ^ (53 + u) := by
      rw [Nat.pow_add]; exact Nat.mul_lt_mul_of_pos_right hk hupos
    have h3 : ilog 12 (k * 2 ^ u) < 53 + u :=
      (Nat.pow_lt_pow_iff_right (by decide)).mp (Nat.lt_of_le_of_lt h1 h2)
    have h4 : expOf (k * 2 ^ u) ≤ u := by unfold expOf; omega
    exact Dvd.dvd.mul_left (Nat.pow_dvd_pow 2 h4) k

theorem expOf_mono (d a : Nat) (hd : 1 ≤ d) (hda : d ≤ a) (ha : a < 2 ^ 2 ^ 12) :
    expOf d ≤ expOf a := by
  have h1 := ilog_le 12 d hd
  have h2 := ilog_lt 12 a ha
  have h3 : ilog 12 d < ilog 12 a + 1 :=
    (Nat.pow_lt_pow_iff_right (by decide)).mp
      (Nat.lt_of_le_of_lt h1 (Nat.lt_of_le_of_lt hda h2))
  unfold expOf
  omega

/-- Rounding does not pass a representable magnitude: a difference that is at
most `a` exactly is at most `a` after rounding. -/
theorem roundMag_le_of_le (d a : Nat) (hrep : roundMag a = a) (ha : a < 2 ^ 2 ^ 12)
    (hda : d ≤ a) : roundMag d ≤ a := by
  rcases Nat.eq_zero_or_pos d with h0 | hdpos
  · subst h0
    simp [roundMag, roundAt]
  · have he := expOf_mono d a hdpos hda ha
    have hpos : 0 < 2 ^ expOf d := Nat.two_pow_pos _
    have hdiva : 2 ^ expOf d ∣ a := by
      have h1 : 2 ^ expOf a ∣ roundAt (expOf a) a := by
        unfold roundAt
        dsimp only
        split
        · exact Nat.dvd_mul_left _ _
        · split
          · exact Nat.dvd_mul_left _ _
          · exact Nat.dvd_mul_left _ _
      have h2 : 2 ^ expOf a ∣ a := by
        unfold roundMag at hrep
        rw [hrep] at h1
        exact h1
      exact Nat.dvd_trans (Nat.pow_dvd_pow 2 he) h2
    by_cases hdvd : 2 ^ expOf d ∣ d
    · unfold roundMag
      rw [roundAt_of_dvd _ _ hdvd]
      exact hda
    · have hne : d ≠ a := by
        intro e
        have h5 := hdiva
        rw [← e] at h5
        exact hdvd h5
      obtain ⟨c, hc⟩ := hdiva
      have hlt : d < 2 ^ expOf d * c := by rw [← hc]; omega
      have hq : d / 2 ^ expOf d < c := (Nat.div_lt_iff_lt_mul hpos).mpr (by
        rw [Nat.mul_comm]; exact hlt)
      have h3 := roundAt_le (expOf d) d
      have h4 : (d / 2 ^ expOf d + 1) * 2 ^ expOf d ≤ c * 2 ^ expOf d :=
        Nat.mul_le_mul_right _ hq
      unfold roundMag
      rw [hc, Nat.mul_comm (2 ^ expOf d) c]
      exact Nat.le_trans h3 h4

/-- The rounded magnitude is representable. -/
theorem roundMag_idem (d : Nat) (hd : d < 2 ^ 2 ^ 12) : roundMag (roundMag d) = roundMag d := by
  have hpos : 0 < 2 ^ expOf d := Nat.two_pow_pos _
  have hq : d / 2 ^ expOf d < 2 ^ 53 := by
    rw [Nat.div_lt_iff_lt_mul hpos, ← Nat.pow_add]
    have h2 := ilog_lt 12 d hd
    refine Nat.lt_of_lt_of_le h2 (Nat.pow_le_pow_right (by decide) ?_)
    unfold expOf
    omega
  have key : ∀ q, q ≤ 2 ^ 53 → roundMag (q * 2 ^ expOf d) = q * 2 ^ expOf d := by
    intro q hq2
    rcases Nat.lt_or_ge q (2 ^ 53) with h | h
    · exact roundMag_exact q _ h
    · have e : q = 2 ^ 53 := Nat.le_antisymm hq2 h
      rw [e, ← Nat.pow_add]
      have := roundMag_exact 1 (53 + expOf d) (by decide)
      simpa using this
  have hform : ∃ q, q ≤ 2 ^ 53 ∧ roundMag d = q * 2 ^ expOf d := by
    unfold roundMag roundAt
    dsimp only
    split
    · exact ⟨_, Nat.le_of_lt hq, rfl⟩
    · split
      · split
        · exact ⟨_, Nat.le_of_lt hq, rfl⟩
        · exact ⟨_, hq, rfl⟩
      · exact ⟨_, hq, rfl⟩
  obtain ⟨q, hq2, e⟩ := hform
  rw [e]
  exact key q hq2

/-! ### `min`, subtraction and the test `== 0` -/

theorem sub_def (x y : F64) : x - y = sub x y := rfl

theorem min_def (x y : F64) : Min.min x y = F64.min x y := rfl

theorem lt_def (x y : F64) : (x < y) = (lt x y = true) := rfl

theorem le_def (x y : F64) : (x ≤ y) = (le x y = true) := rfl

theorem zero_def : (0 : F64) = fin false 0 := by decide

theorem eq_zero_fin (z : Bool) : eq (fin z 0) 0 = true := by
  rw [zero_def]; cases z <;> decide

theorem eq_zero_iff (x : F64) : eq x 0 = true ↔ ∃ z, x = fin z 0 := by
  rw [zero_def]
  rcases x with _ | s | ⟨s, m⟩
  · simp [eq]
  · simp [eq]
  · simp only [eq, signed, decide_eq_true_eq, fin.injEq]
    constructor
    · intro h
      refine ⟨s, rfl, ?_⟩
      cases s <;> simp at h <;> omega
    · rintro ⟨z, _, h⟩
      subst h
      cases s <;> simp

theorem roundFin_cases (neg : Bool) (d : Nat) (hd : 1 ≤ d) :
    (∃ m, 1 ≤ m ∧ roundFin neg d = fin neg m) ∨ roundFin neg d = inf neg := by
  unfold roundFin
  split
  · exact Or.inl ⟨_, roundMag_pos d hd, rfl⟩
  · exact Or.inr rfl

theorem eq_zero_roundFin (neg : Bool) (d : Nat) (hd : 1 ≤ d) :
    eq (roundFin neg d) 0 = false := by
  rw [zero_def]
  rcases roundFin_cases neg d hd with ⟨m, hm, e⟩ | e
  · rw [e]
    cases neg <;> simp [eq, signed] <;> omega
  · rw [e]; rfl

theorem isNaN_roundFin (neg : Bool) (d : Nat) : (roundFin neg d).isNaN = false := by
  unfold roundFin
  split <;> rfl

theorem min_finite (a s : F64) (ha : a.isFinite = true) (hs : s.isFinite = true) :
    (F64.min a s).isFinite = true ∧ (F64.min a s).exact = Min.min a.exact s.exact ∧
      (s.exact < a.exact → F64.min a s = s) ∧
      (a.exact < s.exact → F64.min a s = a) := by
  rcases a with _ | sa | ⟨sa, ma⟩
  · simp [isFinite] at ha
  · simp [isFinite] at ha
  rcases s with _ | ss | ⟨ss, ms⟩
  · simp [isFinite] at hs
  · simp [isFinite] at hs
  simp only [exact]
  by_cases h1 : signed ss ms < signed sa ma
  · have e : F64.min (fin sa ma) (fin ss ms) = fin ss ms := by
      simp [F64.min, isNaN, lt, h1]
    rw [e]
    refine ⟨rfl, ?_, fun _ => rfl, fun h => ?_⟩
    · simp only [exact]; omega
    · omega
  · by_cases h2 : signed sa ma < signed ss ms
    · have e : F64.min (fin sa ma) (fin ss ms) = fin sa ma := by
        simp [F64.min, isNaN, lt, h1, h2]
      rw [e]
      refine ⟨rfl, ?_, fun h => ?_, fun _ => rfl⟩
      · simp only [exact]; omega
      · omega
    · have l1 : lt (fin ss ms) (fin sa ma) = false := by simp [lt, h1]
      have l2 : lt (fin sa ma) (fin ss ms) = false := by simp [lt, h2]
      by_cases h3 : signed sa ma = 0
      · have ez : eq (fin sa ma) (fin false 0) = true := by
          simp only [eq, h3, decide_eq_true_eq]; rfl
        have e : F64.min (fin sa ma) (fin ss ms) = fin (sa || ss) 0 := by
          simp [F64.min, isNaN, l1, l2, ez, signBit]
        rw [e]
        refine ⟨rfl, ?_, fun h => absurd h h1, fun h => absurd h h2⟩
        simp only [exact]
        have : signed (sa || ss) 0 = 0 := by cases sa <;> cases ss <;> simp [signed]
        omega
      · have ez : eq (fin sa ma) (fin false 0) = false := by
          simp only [eq, decide_eq_false_iff_not]
          intro h
          apply h3
          rw [h]; rfl
        have e : F64.min (fin sa ma) (fin ss ms) = fin sa ma := by
          simp [F64.min, isNaN, l1, l2, ez]
        rw [e]
        refine ⟨rfl, ?_, fun h => absurd h h1, fun h => absurd h h2⟩
        simp only [exact]; omega

theorem sub_finite_eq (a m : F64) (ha : a.isFinite = true) (hm : m.isFinite = true)
    (h : a.exact = m.exact) : ∃ z, a - m = fin z 0 := by
  rcases a with _ | sa | ⟨sa, ma⟩
  · simp [isFinite] at ha
  · simp [isFinite] at ha
  rcases m with _ | sm | ⟨sm, mm⟩
  · simp [isFinite] at hm
  · simp [isFinite] at hm
  simp only [exact] at h
  refine ⟨sa && !sm, ?_⟩
  simp [sub_def, sub, h]

theorem sub_finite_gt (a m : F64) (ha : a.isFinite = true) (hm : m.isFinite = true)
    (h : m.exact < a.exact) : a - m = roundFin false (a.exact - m.exact).toNat ∧
      1 ≤ (a.exact - m.exact).toNat := by
  rcases a with _ | sa | ⟨sa, ma⟩
  · simp [isFinite] at ha
  · simp [isFinite] at ha
  rcases m with _ | sm | ⟨sm, mm⟩
  · simp [isFinite] at hm
  · simp [isFinite] at hm
  simp only [exact] at h ⊢
  have h1 : ¬ signed sa ma - signed sm mm = 0 := by omega
  have h2 : ¬ signed sa ma - signed sm mm < 0 := by omega
  have h3 : (signed sa ma - signed sm mm).natAbs = (signed sa ma - signed sm mm).toNat := by
    omega
  refine ⟨?_, by omega⟩
  simp only [sub_def, sub, h1, h2, if_false, decide_False, h3]

theorem sub_self_finite (a : F64) (ha : a.isFinite = true) : eq (a - a) 0 = true := by
  obtain ⟨z, e⟩ := sub_finite_eq a a ha ha rfl
  rw [e]; exact eq_zero_fin z

theorem min_nan (a s : F64) (h : a.isNaN = true ∨ s.isNaN = true) : F64.min a s = nan := by
  rcases a with _ | sa | ⟨sa, ma⟩ <;> rcases s with _ | ss | ⟨ss, ms⟩ <;>
    simp [isNaN] at h <;> simp [F64.min, isNaN, lt]

theorem sub_nan_right (x : F64) : x - nan = nan := by
  rcases x with _ | s | ⟨s, m⟩ <;> rfl

theorem eq_nan_zero : eq nan 0 = false := by
  rw [zero_def]; rfl

/-- One pass of the loop on two amounts: an amount comes down to zero, or a
NaN appears. -/
theorem sub_min_progress (a s : F64) :
    eq (a - Min.min a s) 0 = true ∨ eq (s - Min.min a s) 0 = true ∨
      (a - Min.min a s).isNaN = true ∨ (s - Min.min a s).isNaN = true := by
  rcases a with _ | sa | ⟨sa, ma⟩
  · right; right; left
    rw [min_def, min_nan nan s (Or.inl rfl)]; rfl
  · rcases s with _ | ss | ⟨ss, ms⟩
    · right; right; left
      rw [min_def, min_nan (inf sa) nan (Or.inr rfl)]; rfl
    · cases sa <;> cases ss <;>
        simp [min_def, sub_def, F64.min, sub, lt, eq, isNaN, zero_def]
    · cases sa
      · right; left
        have e : Min.min (inf false) (fin ss ms) = fin ss ms := by
          simp [min_def, F64.min, isNaN, lt]
        rw [e]; exact sub_self_finite _ rfl
      · right; right; left
        have e : Min.min (inf true) (fin ss ms) = inf true := by
          simp [min_def, F64.min, isNaN, lt, eq]
        rw [e]; rfl
  · rcases s with _ | ss | ⟨ss, ms⟩
    · right; right; left
      rw [min_def, min_nan (fin sa ma) nan (Or.inr rfl)]; rfl
    · cases ss
      · left
        have e : Min.min (fin sa ma) (inf false) = fin sa ma := by
          simp [min_def, F64.min, isNaN, lt]
        rw [e]; exact sub_self_finite _ rfl
      · right; right; right
        have e : Min.min (fin sa ma) (inf true) = inf true := by
          simp [min_def, F64.min, isNaN, lt]
        rw [e]; rfl
    · obtain ⟨h1, h2, h3, _⟩ := min_finite (fin sa ma) (fin ss ms) rfl rfl
      rw [min_def]
      by_cases h : (fin sa ma).exact ≤ (fin ss ms).exact
      · left
        have h4 : (fin sa ma).exact = (F64.min (fin sa ma) (fin ss ms)).exact := by
          rw [h2]; omega
        obtain ⟨z, e⟩ := sub_finite_eq (fin sa ma) _ rfl h1 h4
        rw [e]; exact eq_zero_fin z
      · right; left
        rw [h3 (by omega)]
        exact sub_self_finite _ rfl

end F64

/-! ## The loop of `Match` -/

theorem matchLoop_stop_buy (k : Nat) (sells : List Order) :
    matchLoop (k + 1) { buyOrders := [], sellOrders := sells } =
      some ([], { buyOrders := [], sellOrders := sells }) := by
  simp [matchLoop]

theorem matchLoop_stop_sell (k : Nat) (buys : List Order) :
    matchLoop (k + 1) { buyOrders := buys, sellOrders := [] } =
      some ([], { buyOrders := buys, sellOrders := [] }) := by
  cases buys <;> simp [matchLoop]

theorem matchLoop_break (k : Nat) (b : Order) (bs : List Order) (s : Order) (ss : List Order)
    (h : b.Price < s.Price) :
    matchLoop (k + 1) { buyOrders := b :: bs, sellOrders := s :: ss } =
      some ([], { buyOrders := b :: bs, sellOrders := s :: ss }) := by
  simp [matchLoop, h]

theorem matchLoop_cross (k : Nat) (b : Order) (bs : List Order) (s : Order) (ss : List Order)
    (h : ¬ b.Price < s.Price) :
    matchLoop (k + 1) { buyOrders := b :: bs, sellOrders := s :: ss } =
      (matchLoop k (fill b bs s ss)).map (fun r => (tradeOf b s :: r.1, r.2)) := by
  simp [matchLoop, h]

/-- The buy collection after one pass: the head is gone when its amount came
down to zero, and otherwise stays with the lowered amount. -/
theorem fill_buys_cases (b : Order) (bs : List Order) (s : Order) (ss : List Order) :
    ((fill b bs s ss).buyOrders = bs ∧
      F64.eq (b.Amount - min b.Amount s.Amount) 0 = true) ∨
    ((fill b bs s ss).buyOrders =
        { b with Amount := b.Amount - min b.Amount s.Amount } :: bs ∧
      F64.eq (b.Amount - min b.Amount s.Amount) 0 = false) := by
  unfold fill
  dsimp only
  cases h : F64.eq (b.Amount - min b.Amount s.Amount) 0
  · exact Or.inr ⟨by simp, rfl⟩
  · exact Or.inl ⟨by simp, rfl⟩

/-- The sell collection after one pass. -/
theorem fill_sells_cases (b : Order) (bs : List Order) (s : Order) (ss : List Order) :
    ((fill b bs s ss).sellOrders = ss ∧
      F64.eq (s.Amount - min b.Amount s.Amount) 0 = true) ∨
    ((fill b bs s ss).sellOrders =
        { s with Amount := s.Amount - min b.Amount s.Amount } :: ss ∧
      F64.eq (s.Amount - min b.Amount s.Amount) 0 = false) := by
  unfold fill
  dsimp only
  cases h : F64.eq (s.Amount - min b.Amount s.Amount) 0
  · exact Or.inr ⟨by simp, rfl⟩
  · exact Or.inl ⟨by simp, rfl⟩

/-- Induction along the passes of a run of the loop that exits. -/
theorem matchLoop_induct (P : OrderBook → List Trade × OrderBook → Prop)
    (hempty : ∀ ob : OrderBook, ob.buyOrders = [] ∨ ob.sellOrders = [] → P ob ([], ob))
    (hbreak : ∀ b bs s ss, b.Price < s.Price →
      P { buyOrders := b :: bs, sellOrders := s :: ss }
        ([], { buyOrders := b :: bs, sellOrders := s :: ss }))
    (hstep : ∀ b bs s ss r k, ¬ b.Price < s.Price →
      matchLoop k (fill b bs s ss) = some r → P (fill b bs s ss) r →
      P { buyOrders := b :: bs, sellOrders := s :: ss } (tradeOf b s :: r.1, r.2)) :
    ∀ (k : Nat) (ob : OrderBook) (r : List Trade × OrderBook),
      matchLoop k ob = some r → P ob r := by
  intro k
  induction k with
  | zero => intro ob r h; simp [matchLoop] at h
  | succ k ih =>
    intro ob r h
    obtain ⟨buys, sells⟩ := ob
    cases buys with
    | nil =>
      rw [matchLoop_stop_buy] at h
      cases h
      exact hempty _ (Or.inl rfl)
    | cons b bs =>
      cases sells with
      | nil =>
        rw [matchLoop_stop_sell] at h
        cases h
        exact hempty _ (Or.inr rfl)
      | cons s ss =>
        by_cases hp : b.Price < s.Price
        · rw [matchLoop_break k b bs s ss hp] at h
          cases h
          exact hbreak b bs s ss hp
        · rw [matchLoop_cross k b bs s ss hp] at h
          cases hr : matchLoop k (fill b bs s ss) with
          | none => rw [hr] at h; simp at h
          | some r0 =>
            rw [hr] at h
            simp only [Option.map_some'] at h
            cases h
            exact hstep b bs s ss r0 k hp hr (ih _ _ hr)

/-- Two crossing heads one of which has amount NaN: the loop never exits. -/
theorem matchLoop_nan_none (k : Nat) (b : Order) (bs : List Order) (s : Order)
    (ss : List Order) (hp : ¬ b.Price < s.Price)
    (hn : b.Amount.isNaN = true ∨ s.Amount.isNaN = true) :
    matchLoop k { buyOrders := b :: bs, sellOrders := s :: ss } = none := by
  induction k generalizing b s with
  | zero => rfl
  | succ k ih =>
    rw [matchLoop_cross k b bs s ss hp]
    have hm : min b.Amount s.Amount = F64.nan := F64.min_nan _ _ hn
    have hf : fill b bs s ss =
        { buyOrders := { b with Amount := F64.nan } :: bs,
          sellOrders := { s with Amount := F64.nan } :: ss } := by
      unfold fill
      simp only [hm, F64.sub_nan_right, F64.eq_nan_zero]
      rfl
    rw [hf, ih { b with Amount := F64.nan } { s with Amount := F64.nan } hp (Or.inl rfl)]
    rfl

/-- In a run that exits, every pass that emits a trade slices off a head. -/
theorem fill_removes (k : Nat) (b : Order) (bs : List Order) (s : Order) (ss : List Order)
    (r : List Trade × OrderBook) (hp : ¬ b.Price < s.Price)
    (h : matchLoop k (fill b bs s ss) = some r) :
    (fill b bs s ss).buyOrders = bs ∨ (fill b bs s ss).sellOrders = ss := by
  rcases fill_buys_cases b bs s ss with ⟨e, _⟩ | ⟨e1, z1⟩
  · exact Or.inl e
  rcases fill_sells_cases b bs s ss with ⟨e, _⟩ | ⟨e2, z2⟩
  · exact Or.inr e
  exfalso
  have hf : fill b bs s ss =
      { buyOrders := { b with Amount := b.Amount - min b.Amount s.Amount } :: bs,
        sellOrders := { s with Amount := s.Amount - min b.Amount s.Amount } :: ss } := by
    rw [← e1, ← e2]
  have hn : (b.Amount - min b.Amount s.Amount).isNaN = true ∨
      (s.Amount - min b.Amount s.Amount).isNaN = true := by
    rcases F64.sub_min_progress b.Amount s.Amount with h1 | h1 | h1 | h1
    · rw [h1] at z1; cases z1
    · rw [h1] at z2; cases z2
    · exact Or.inl h1
    · exact Or.inr h1
  rw [hf, matchLoop_nan_none k { b with Amount := b.Amount - min b.Amount s.Amount } bs
    { s with Amount := s.Amount - min b.Amount s.Amount } ss hp hn] at h
  cases h

theorem fill_length_le (b : Order) (bs : List Order) (s : Order) (ss : List Order)
    (h : (fill b bs s ss).buyOrders = bs ∨ (fill b bs s ss).sellOrders = ss) :
    (fill b bs s ss).buyOrders.length + (fill b bs s ss).sellOrders.length
      ≤ bs.length + ss.length + 1 := by
  have h1 : (fill b bs s ss).buyOrders.length ≤ bs.length + 1 := by
    rcases fill_buys_cases b bs s ss with ⟨e, _⟩ | ⟨e, _⟩ <;> rw [e] <;> simp
  have h2 : (fill b bs s ss).sellOrders.length ≤ ss.length + 1 := by
    rcases fill_sells_cases b bs s ss with ⟨e, _⟩ | ⟨e, _⟩ <;> rw [e] <;> simp
  rcases h with e | e
  · rw [e]; omega
  · rw [e]; omega

/-- A run that exits with some fuel exits, with the same result, with any
fuel above the number of resting orders. -/
theorem matchLoop_fuel_enough (k : Nat) (ob : OrderBook) (r : List Trade × OrderBook)
    (h : matchLoop k ob = some r) :
    ∀ k2, ob.buyOrders.length + ob.sellOrders.length < k2 → matchLoop k2 ob = some r := by
  induction k generalizing ob r with
  | zero => simp [matchLoop] at h
  | succ k ih =>
    intro k2 hk
    obtain ⟨k3, rfl⟩ : ∃ k3, k2 = k3 + 1 := ⟨k2 - 1, by omega⟩
    obtain ⟨buys, sells⟩ := ob
    cases buys with
    | nil => rw [matchLoop_stop_buy] at h ⊢; exact h
    | cons b bs =>
      cases sells with
      | nil => rw [matchLoop_stop_sell] at h ⊢; exact h
      | cons s ss =>
        by_cases hp : b.Price < s.Price
        · rw [matchLoop_break _ b bs s ss hp] at h ⊢; exact h
        · rw [matchLoop_cross _ b bs s ss hp] at h ⊢
          cases hr : matchLoop k (fill b bs s ss) with
          | none => rw [hr] at h; simp at h
          | some r0 =>
            rw [hr] at h
            have hl := fill_length_le b bs s ss (fill_removes k b bs s ss r0 hp hr)
            simp only [List.length_cons] at hk
            rw [ih _ _ hr k3 (by omega)]
            exact h

/-- The fuel that `Match` supplies is enough for every run that exits: if the
loop exits with any amount of fuel, `Match` returns that result. -/
theorem Match_adequate (k : Nat) (ob : OrderBook) (r : List Trade × OrderBook)
    (h : matchLoop k ob = some r) :
    ob.Match = some { trades := r.1, err := none, book := r.2 } := by
  unfold OrderBook.Match
  rw [matchLoop_fuel_enough k ob r h _ (Nat.lt_succ_self _)]
  rfl

/-- What `Match` returns is what the loop computes, with a `nil` error. -/
theorem Match_some (ob : OrderBook) (r : MatchResult) (h : ob.Match = some r) :
    matchLoop (ob.buyOrders.length + ob.sellOrders.length + 1) ob = some (r.trades, r.book)
      ∧ r.err = none := by
  unfold OrderBook.Match at h
  cases hr : matchLoop (ob.buyOrders.length + ob.sellOrders.length + 1) ob with
  | none => rw [hr] at h; simp at h
  | some r0 =>
    rw [hr] at h
    simp only [Option.map_some', Option.some.injEq] at h
    subst h
    exact ⟨rfl, rfl⟩

/-- When the loop never exits, `Match` does not return. -/
theorem Match_none (ob : OrderBook) (h : ∀ k, matchLoop k ob = none) : ob.Match = none := by
  unfold OrderBook.Match
  rw [h]
  rfl

/-- A crossing pass leading to a book on which the loop never exits. -/
theorem matchLoop_none_of_fill (b : Order) (bs : List Order) (s : Order) (ss : List Order)
    (hp : ¬ b.Price < s.Price) (h : ∀ k, matchLoop k (fill b bs s ss) = none) :
    ∀ k, matchLoop k { buyOrders := b :: bs, sellOrders := s :: ss } = none := by
  intro k
  cases k with
  | zero => rfl
  | succ k => rw [matchLoop_cross k b bs s ss hp, h k]; rfl

/-! ## Books with finite amounts: the loop exits -/

theorem finiteOrPosInf_roundFin (d : Nat) : FiniteOrPosInf (F64.roundFin false d) := by
  unfold F64.roundFin
  split
  · exact Or.inl rfl
  · exact Or.inr rfl

theorem sub_finite_ge (a m : F64) (ha : a.isFinite = true) (hm : m.isFinite = true)
    (h : m.exact ≤ a.exact) :
    FiniteOrPosInf (a - m) ∧ (a.exact = m.exact → F64.eq (a - m) 0 = true) := by
  by_cases he : a.exact = m.exact
  · obtain ⟨z, e⟩ := F64.sub_finite_eq a m ha hm he
    rw [e]
    exact ⟨Or.inl rfl, fun _ => F64.eq_zero_fin z⟩
  · obtain ⟨e, _⟩ := F64.sub_finite_gt a m ha hm (by omega)
    rw [e]
    exact ⟨finiteOrPosInf_roundFin _, fun h => absurd h he⟩

theorem step_finite_left (a s : F64) (ha : a.isFinite = true) (hs : FiniteOrPosInf s) :
    FiniteOrPosInf (a - min a s) ∧ FiniteOrPosInf (s - min a s) ∧
      (F64.eq (a - min a s) 0 = true ∨
        (F64.eq (s - min a s) 0 = true ∧ s.isFinite = true)) := by
  rcases hs with hs | hs
  · obtain ⟨h1, h2, h3, h4⟩ := F64.min_finite a s ha hs
    rw [F64.min_def]
    have ha2 := sub_finite_ge a (F64.min a s) ha h1 (by rw [h2]; omega)
    have hs2 := sub_finite_ge s (F64.min a s) hs h1 (by rw [h2]; omega)
    refine ⟨ha2.1, hs2.1, ?_⟩
    by_cases h : a.exact ≤ s.exact
    · exact Or.inl (ha2.2 (by rw [h2]; omega))
    · exact Or.inr ⟨hs2.2 (by rw [h2]; omega), hs⟩
  · subst hs
    rcases a with _ | sa | ⟨sa, ma⟩
    · simp [F64.isFinite] at ha
    · simp [F64.isFinite] at ha
    have e : min (F64.fin sa ma) (F64.inf false) = F64.fin sa ma := by
      simp [F64.min_def, F64.min, F64.isNaN, F64.lt]
    rw [e]
    obtain ⟨z, e2⟩ := F64.sub_finite_eq (F64.fin sa ma) (F64.fin sa ma) rfl rfl rfl
    rw [e2]
    exact ⟨Or.inl rfl, Or.inr rfl, Or.inl (F64.eq_zero_fin z)⟩

theorem step_finite_right (a s : F64) (ha : FiniteOrPosInf a) (hs : s.isFinite = true) :
    FiniteOrPosInf (a - min a s) ∧ FiniteOrPosInf (s - min a s) ∧
      (F64.eq (s - min a s) 0 = true ∨
        (F64.eq (a - min a s) 0 = true ∧ a.isFinite = true)) := by
  rcases ha with ha | ha
  · obtain ⟨h1, h2, h3⟩ := step_finite_left a s ha (Or.inl hs)
    refine ⟨h1, h2, ?_⟩
    rcases h3 with h | ⟨h, _⟩
    · exact Or.inr ⟨h, ha⟩
    · exact Or.inl h
  · subst ha
    rcases s with _ | ss | ⟨ss, ms⟩
    · simp [F64.isFinite] at hs
    · simp [F64.isFinite] at hs
    have e : min (F64.inf false) (F64.fin ss ms) = F64.fin ss ms := by
      simp [F64.min_def, F64.min, F64.isNaN, F64.lt]
    rw [e]
    obtain ⟨z, e2⟩ := F64.sub_finite_eq (F64.fin ss ms) (F64.fin ss ms) rfl rfl rfl
    rw [e2]
    exact ⟨Or.inr rfl, Or.inl rfl, Or.inl (F64.eq_zero_fin z)⟩

theorem almostFinite_of_allFinite (l : List Order) (h : AllFinite l) : AlmostFinite l := by
  cases l with
  | nil => trivial
  | cons x rest =>
    exact ⟨Or.inl (h x (List.mem_cons_self _ _)),
      fun y hy => h y (List.mem_cons_of_mem _ hy)⟩

/-- One pass on a tame book slices off a head and leaves a tame book. -/
theorem fill_tame (b : Order) (bs : List Order) (s : Order) (ss : List Order)
    (h : Tame { buyOrders := b :: bs, sellOrders := s :: ss }) :
    Tame (fill b bs s ss) ∧
      ((fill b bs s ss).buyOrders = bs ∨ (fill b bs s ss).sellOrders = ss) := by
  have hstep : AllFinite bs ∧ AllFinite ss ∧
      FiniteOrPosInf (b.Amount - min b.Amount s.Amount) ∧
      FiniteOrPosInf (s.Amount - min b.Amount s.Amount) ∧
      ((F64.eq (b.Amount - min b.Amount s.Amount) 0 = true) ∨
        (F64.eq (s.Amount - min b.Amount s.Amount) 0 = true)) := by
    rcases h with ⟨hb, hs1, hs2⟩ | ⟨⟨hb1, hb2⟩, hs⟩
    · obtain ⟨h1, h2, h3⟩ := step_finite_left b.Amount s.Amount
        (hb b (List.mem_cons_self _ _)) hs1
      refine ⟨fun y hy => hb y (List.mem_cons_of_mem _ hy), hs2, h1, h2, ?_⟩
      rcases h3 with h | ⟨h, _⟩
      · exact Or.inl h
      · exact Or.inr h
    · obtain ⟨h1, h2, h3⟩ := step_finite_right b.Amount s.Amount hb1
        (hs s (List.mem_cons_self _ _))
      refine ⟨hb2, fun y hy => hs y (List.mem_cons_of_mem _ hy), h1, h2, ?_⟩
      rcases h3 with h | ⟨h, _⟩
      · exact Or.inr h
      · exact Or.inl h
  obtain ⟨hbs, hss, h1, h2, h3⟩ := hstep
  rcases fill_buys_cases b bs s ss with ⟨e1, z1⟩ | ⟨e1, z1⟩
  · rcases fill_sells_cases b bs s ss with ⟨e2, _⟩ | ⟨e2, _⟩
    · refine ⟨Or.inl ?_, Or.inl e1⟩
      rw [e1, e2]
      exact ⟨hbs, almostFinite_of_allFinite ss hss⟩
    · refine ⟨Or.inl ?_, Or.inl e1⟩
      rw [e1, e2]
      exact ⟨hbs, h2, hss⟩
  · rcases fill_sells_cases b bs s ss with ⟨e2, _⟩ | ⟨e2, z2⟩
    · refine ⟨Or.inr ?_, Or.inr e2⟩
      rw [e1, e2]
      exact ⟨⟨h1, hbs⟩, hss⟩
    · rcases h3 with h | h
      · rw [h] at z1; cases z1
      · rw [h] at z2; cases z2

theorem matchLoop_total_of_tame (k : Nat) (ob : OrderBook) (ht : Tame ob)
    (h : ob.buyOrders.length + ob.sellOrders.length < k) :
    ∃ r, matchLoop k ob = some r := by
  induction k generalizing ob with
  | zero => omega
  | succ k ih =>
    obtain ⟨buys, sells⟩ := ob
    cases buys with
    | nil => exact ⟨_, matchLoop_stop_buy k sells⟩
    | cons b bs =>
      cases sells with
      | nil => exact ⟨_, matchLoop_stop_sell k _⟩
      | cons s ss =>
        by_cases hp : b.Price < s.Price
        · exact ⟨_, matchLoop_break k b bs s ss hp⟩
        · obtain ⟨ht2, hrem⟩ := fill_tame b bs s ss ht
          have hl := fill_length_le b bs s ss hrem
          simp only [List.length_cons] at h
          obtain ⟨r, hr⟩ := ih (fill b bs s ss) ht2 (by omega)
          exact ⟨_, by rw [matchLoop_cross k b bs s ss hp, hr]; rfl⟩

/-- `Match` returns on every book whose amounts are all finite. -/
theorem Match_total_of_finite (ob : OrderBook) (hb : AllFinite ob.buyOrders)
    (hs : AllFinite ob.sellOrders) : ∃ r, ob.Match = some r := by
  obtain ⟨r, hr⟩ := matchLoop_total_of_tame
    (ob.buyOrders.length + ob.sellOrders.length + 1) ob
    (Or.inl ⟨hb, almostFinite_of_allFinite _ hs⟩) (by omega)
  exact ⟨_, by unfold OrderBook.Match; rw [hr]; rfl⟩

/-! ## Price priority is kept by every operation -/

theorem strictWeakOn_gt (l : List Order) (hn : ∀ x ∈ l, x.Price.isNaN = false) :
    StrictWeakOn (fun a b : Order => decide (a.Price > b.Price)) l := by
  constructor
  · intro a _ b _ h
    simp only [gt_iff_lt, F64.lt_def, decide_eq_true_eq, decide_eq_false_iff_not,
      Bool.not_eq_true] at h ⊢
    exact F64.lt_asymm _ _ h
  · intro a _ b hb c _ h1 h2
    simp only [gt_iff_lt, F64.lt_def, decide_eq_false_iff_not, Bool.not_eq_true] at h1 h2 ⊢
    exact F64.lt_negtrans _ _ _ (hn b hb) h2 h1

theorem strictWeakOn_lt (l : List Order) (hn : ∀ x ∈ l, x.Price.isNaN = false) :
    StrictWeakOn (fun a b : Order => decide (a.Price < b.Price)) l := by
  constructor
  · intro a _ b _ h
    simp only [F64.lt_def, decide_eq_true_eq, decide_eq_false_iff_not,
      Bool.not_eq_true] at h ⊢
    exact F64.lt_asymm _ _ h
  · intro a _ b hb c _ h1 h2
    simp only [F64.lt_def, decide_eq_false_iff_not, Bool.not_eq_true] at h1 h2 ⊢
    exact F64.lt_negtrans _ _ _ (hn b hb) h1 h2

theorem sort_gt_sorted (S : SliceSorter) (l : List Order)
    (hn : ∀ x ∈ l, x.Price.isNaN = false) :
    BuysSorted (S.sort (fun a b => decide (a.Price > b.Price)) l) := by
  have h := S.sorted (fun a b => decide (a.Price > b.Price)) l (strictWeakOn_gt l hn)
  have hp := S.perm (fun a b => decide (a.Price > b.Price)) l
  refine List.Pairwise.imp_of_mem ?_ h
  intro a b ha hb hab
  simp only [gt_iff_lt, F64.lt_def, decide_eq_false_iff_not, Bool.not_eq_true] at hab
  exact F64.le_of_not_lt _ _ (hn a (hp.subset ha)) (hn b (hp.subset hb)) hab

theorem sort_lt_sorted (S : SliceSorter) (l : List Order)
    (hn : ∀ x ∈ l, x.Price.isNaN = false) :
    SellsSorted (S.sort (fun a b => decide (a.Price < b.Price)) l) := by
  have h := S.sorted (fun a b => decide (a.Price < b.Price)) l (strictWeakOn_lt l hn)
  have hp := S.perm (fun a b => decide (a.Price < b.Price)) l
  refine List.Pairwise.imp_of_mem ?_ h
  intro a b ha hb hab
  simp only [F64.lt_def, decide_eq_false_iff_not, Bool.not_eq_true] at hab
  exact F64.le_of_not_lt _ _ (hn b (hp.subset hb)) (hn a (hp.subset ha)) hab

theorem fill_buys_sorted (b : Order) (bs : List Order) (s : Order) (ss : List Order)
    (hb : BuysSorted (b :: bs)) : BuysSorted (fill b bs s ss).buyOrders := by
  unfold BuysSorted at hb ⊢
  rw [List.pairwise_cons] at hb
  rcases fill_buys_cases b bs s ss with ⟨e, _⟩ | ⟨e, _⟩
  · rw [e]; exact hb.2
  · rw [e]; exact List.pairwise_cons.mpr ⟨hb.1, hb.2⟩

theorem fill_sells_sorted (b : Order) (bs : List Order) (s : Order) (ss : List Order)
    (hs : SellsSorted (s :: ss)) : SellsSorted (fill b bs s ss).sellOrders := by
  unfold SellsSorted at hs ⊢
  rw [List.pairwise_cons] at hs
  rcases fill_sells_cases b bs s ss with ⟨e, _⟩ | ⟨e, _⟩
  · rw [e]; exact hs.2
  · rw [e]; exact List.pairwise_cons.mpr ⟨hs.1, hs.2⟩

theorem matchLoop_sorted (k : Nat) (ob : OrderBook) (r : List Trade × OrderBook)
    (h : matchLoop k ob = some r) :
    BuysSorted ob.buyOrders → SellsSorted ob.sellOrders →
      BuysSorted r.2.buyOrders ∧ SellsSorted r.2.sellOrders := by
  refine matchLoop_induct
    (fun ob r => BuysSorted ob.buyOrders → SellsSorted ob.sellOrders →
      BuysSorted r.2.buyOrders ∧ SellsSorted r.2.sellOrders) ?_ ?_ ?_ k ob r h
  · intro ob _ hb hs; exact ⟨hb, hs⟩
  · intro b bs s ss _ hb hs; exact ⟨hb, hs⟩
  · intro b bs s ss r _ _ _ ih hb hs
    exact ih (fill_buys_sorted b bs s ss hb) (fill_sells_sorted b bs s ss hs)

/-! ## What resting orders the loop touches -/

theorem fill_buys_origin (b : Order) (bs : List Order) (s : Order) (ss : List Order) :
    ∀ x ∈ (fill b bs s ss).buyOrders, ∃ y ∈ b :: bs, y.ID = x.ID ∧ y.Price = x.Price := by
  intro x hx
  rcases fill_buys_cases b bs s ss with ⟨e, _⟩ | ⟨e, _⟩
  · rw [e] at hx; exact ⟨x, List.mem_cons_of_mem _ hx, rfl, rfl⟩
  · rw [e] at hx
    rcases List.mem_cons.mp hx with h | h
    · exact ⟨b, List.mem_cons_self _ _, by rw [h], by rw [h]⟩
    · exact ⟨x, List.mem_cons_of_mem _ h, rfl, rfl⟩

theorem fill_sells_origin (b : Order) (bs : List Order) (s : Order) (ss : List Order) :
    ∀ x ∈ (fill b bs s ss).sellOrders, ∃ y ∈ s :: ss, y.ID = x.ID ∧ y.Price = x.Price := by
  intro x hx
  rcases fill_sells_cases b bs s ss with ⟨e, _⟩ | ⟨e, _⟩
  · rw [e] at hx; exact ⟨x, List.mem_cons_of_mem _ hx, rfl, rfl⟩
  · rw [e] at hx
    rcases List.mem_cons.mp hx with h | h
    · exact ⟨s, List.mem_cons_self _ _, by rw [h], by rw [h]⟩
    · exact ⟨x, List.mem_cons_of_mem _ h, rfl, rfl⟩

/-- Every order resting after the loop has the ID and price of an order that
was resting before. -/
theorem matchLoop_book_origin (k : Nat) (ob : OrderBook) (r : List Trade × OrderBook)
    (h : matchLoop k ob = some r) :
    (∀ x ∈ r.2.buyOrders, ∃ y ∈ ob.buyOrders, y.ID = x.ID ∧ y.Price = x.Price) ∧
      (∀ x ∈ r.2.sellOrders, ∃ y ∈ ob.sellOrders, y.ID = x.ID ∧ y.Price = x.Price) := by
  refine matchLoop_induct
    (fun ob r =>
      (∀ x ∈ r.2.buyOrders, ∃ y ∈ ob.buyOrders, y.ID = x.ID ∧ y.Price = x.Price) ∧
      (∀ x ∈ r.2.sellOrders, ∃ y ∈ ob.sellOrders, y.ID = x.ID ∧ y.Price = x.Price))
    ?_ ?_ ?_ k ob r h
  · intro ob _
    exact ⟨fun x hx => ⟨x, hx, rfl, rfl⟩, fun x hx => ⟨x, hx, rfl, rfl⟩⟩
  · intro b bs s ss _
    exact ⟨fun x hx => ⟨x, hx, rfl, rfl⟩, fun x hx => ⟨x, hx, rfl, rfl⟩⟩
  · intro b bs s ss r _ _ _ ih
    constructor
    · intro x hx
      obtain ⟨y, hy, e1, e2⟩ := ih.1 x hx
      obtain ⟨z, hz, e3, e4⟩ := fill_buys_origin b bs s ss y hy
      exact ⟨z, hz, e3.trans e1, e4.trans e2⟩
    · intro x hx
      obtain ⟨y, hy, e1, e2⟩ := ih.2 x hx
      obtain ⟨z, hz, e3, e4⟩ := fill_sells_origin b bs s ss y hy
      exact ⟨z, hz, e3.trans e1, e4.trans e2⟩

/-- Every trade of the loop joins a buy order and a sell order that were
resting before, at the sell order's price, which the buy order's price is not
below. -/
theorem matchLoop_trade_origin (k : Nat) (ob : OrderBook) (r : List Trade × OrderBook)
    (h : matchLoop k ob = some r) :
    ∀ t ∈ r.1, ∃ b ∈ ob.buyOrders, ∃ s ∈ ob.sellOrders,
      b.ID = t.BuyOrderID ∧ s.ID = t.SellOrderID ∧ t.Price = s.Price ∧
        ¬ b.Price < t.Price := by
  refine matchLoop_induct
    (fun ob r => ∀ t ∈ r.1, ∃ b ∈ ob.buyOrders, ∃ s ∈ ob.sellOrders,
      b.ID = t.BuyOrderID ∧ s.ID = t.SellOrderID ∧ t.Price = s.Price ∧
        ¬ b.Price < t.Price)
    ?_ ?_ ?_ k ob r h
  · intro ob _ t ht; simp at ht
  · intro b bs s ss _ t ht; simp at ht
  · intro b bs s ss r _ hp _ ih t ht
    rcases List.mem_cons.mp ht with h | h
    · subst h
      exact ⟨b, List.mem_cons_self _ _, s, List.mem_cons_self _ _, rfl, rfl, rfl, hp⟩
    · obtain ⟨b1, hb1, s1, hs1, h1, h2, h3, h4⟩ := ih t h
      obtain ⟨b2, hb2, hid, hpr⟩ := fill_buys_origin b bs s ss b1 hb1
      obtain ⟨s2, hs2, hsid, hspr⟩ := fill_sells_origin b bs s ss s1 hs1
      exact ⟨b2, hb2, s2, hs2, by rw [hid, h1], by rw [hsid, h2], by rw [hspr, h3],
        by rw [hpr]; exact h4⟩

theorem matchLoop_no_cross_left (k : Nat) (ob : OrderBook) (r : List Trade × OrderBook)
    (h : matchLoop k ob = some r) :
    BuysSorted ob.buyOrders → SellsSorted ob.sellOrders →
      (r.2.buyOrders = [] ∨ r.2.sellOrders = [] ∨
        ∀ b ∈ r.2.buyOrders, ∀ s ∈ r.2.sellOrders, b.Price < s.Price) := by
  refine matchLoop_induct
    (fun ob r => BuysSorted ob.buyOrders → SellsSorted ob.sellOrders →
      (r.2.buyOrders = [] ∨ r.2.sellOrders = [] ∨
        ∀ b ∈ r.2.buyOrders, ∀ s ∈ r.2.sellOrders, b.Price < s.Price)) ?_ ?_ ?_ k ob r h
  · intro ob he _ _
    rcases he with he | he
    · exact Or.inl he
    · exact Or.inr (Or.inl he)
  · intro b bs s ss hp hb hs
    refine Or.inr (Or.inr ?_)
    unfold BuysSorted at hb
    unfold SellsSorted at hs
    rw [List.pairwise_cons] at hb hs
    intro x hx y hy
    rcases List.mem_cons.mp hx with e | e
    · rcases List.mem_cons.mp hy with e2 | e2
      · rw [e, e2]; exact hp
      · rw [e]; exact F64.lt_of_lt_of_le _ _ _ hp (hs.1 y e2)
    · have hxb : F64.lt x.Price s.Price = true := F64.lt_of_le_of_lt _ _ _ (hb.1 x e) hp
      rcases List.mem_cons.mp hy with e2 | e2
      · rw [e2]; exact hxb
      · exact F64.lt_of_lt_of_le _ _ _ hxb (hs.1 y e2)
  · intro b bs s ss r _ _ _ ih hb hs
    exact ih (fill_buys_sorted b bs s ss hb) (fill_sells_sorted b bs s ss hs)

/-! ## `Add` and `Cancel` -/

theorem Add_buy (S : SliceSorter) (ob : OrderBook) (o : Order) (h : o.Typ = Buy) :
    ob.Add S o =
      ({ buyOrders := S.sort (fun a b => decide (a.Price > b.Price)) (ob.buyOrders ++ [o]),
         sellOrders := ob.sellOrders }, none) := by
  simp only [OrderBook.Add, h, if_true]

theorem Add_sell (S : SliceSorter) (ob : OrderBook) (o : Order) (h : o.Typ = Sell) :
    ob.Add S o =
      ({ buyOrders := ob.buyOrders,
         sellOrders := S.sort (fun a b => decide (a.Price < b.Price)) (ob.sellOrders ++ [o]) },
       none) := by
  have hne : ¬ Sell = Buy := by decide
  simp only [OrderBook.Add, h, hne, if_true, if_false]

theorem Add_invalid (S : SliceSorter) (ob : OrderBook) (o : Order)
    (hb : o.Typ ≠ Buy) (hs : o.Typ ≠ Sell) :
    ob.Add S o = (ob, some { ID := o.ID, Reason := "invalid order type: " ++ o.Typ }) := by
  simp only [OrderBook.Add, hb, hs, if_false]

/-- `Add` of an order whose price is not NaN keeps a book without NaN prices
in price priority. -/
theorem Add_sorted (S : SliceSorter) (ob : OrderBook) (o : Order)
    (ho : o.Price.isNaN = false)
    (hnb : ∀ x ∈ ob.buyOrders, x.Price.isNaN = false)
    (hns : ∀ x ∈ ob.sellOrders, x.Price.isNaN = false)
    (hb : BuysSorted ob.buyOrders) (hs : SellsSorted ob.sellOrders) :
    (∀ x ∈ (ob.Add S o).1.buyOrders, x.Price.isNaN = false) ∧
      (∀ x ∈ (ob.Add S o).1.sellOrders, x.Price.isNaN = false) ∧
      BuysSorted (ob.Add S o).1.buyOrders ∧ SellsSorted (ob.Add S o).1.sellOrders := by
  have happ : ∀ l : List Order, (∀ x ∈ l, x.Price.isNaN = false) →
      ∀ x ∈ l ++ [o], x.Price.isNaN = false := by
    intro l hl x hx
    rcases List.mem_append.mp hx with h | h
    · exact hl x h
    · simp only [List.mem_singleton] at h; rw [h]; exact ho
  by_cases h1 : o.Typ = Buy
  · rw [Add_buy S ob o h1]
    exact ⟨fun x hx => happ _ hnb x ((S.perm _ _).subset hx), hns,
      sort_gt_sorted S _ (happ _ hnb), hs⟩
  · by_cases h2 : o.Typ = Sell
    · rw [Add_sell S ob o h2]
      exact ⟨hnb, fun x hx => happ _ hns x ((S.perm _ _).subset hx), hb,
        sort_lt_sorted S _ (happ _ hns)⟩
    · rw [Add_invalid S ob o h1 h2]
      exact ⟨hnb, hns, hb, hs⟩

theorem Cancel_sublist (ob : OrderBook) (orderID : String) :
    (ob.Cancel orderID).1.buyOrders.Sublist ob.buyOrders ∧
      (ob.Cancel orderID).1.sellOrders.Sublist ob.sellOrders := by
  unfold OrderBook.Cancel
  split
  · exact ⟨List.Sublist.refl _, List.eraseIdx_sublist _ _⟩
  · split
    · exact ⟨List.eraseIdx_sublist _ _, List.Sublist.refl _⟩
    · exact ⟨List.Sublist.refl _, List.Sublist.refl _⟩

theorem reachableNoNaN_sorted (S : SliceSorter) (ob : OrderBook)
    (h : ReachableNoNaN S ob) :
    (∀ x ∈ ob.buyOrders, x.Price.isNaN = false) ∧
      (∀ x ∈ ob.sellOrders, x.Price.isNaN = false) ∧
      BuysSorted ob.buyOrders ∧ SellsSorted ob.sellOrders := by
  induction h with
  | new =>
    exact ⟨fun x hx => by simp [New] at hx, fun x hx => by simp [New] at hx,
      List.Pairwise.nil, List.Pairwise.nil⟩
  | add ob o _ ho ih => exact Add_sorted S ob o ho ih.1 ih.2.1 ih.2.2.1 ih.2.2.2
  | cancel ob orderID _ ih =>
    obtain ⟨h1, h2⟩ := Cancel_sublist ob orderID
    exact ⟨fun x hx => ih.1 x (h1.subset hx), fun x hx => ih.2.1 x (h2.subset hx),
      List.Pairwise.sublist h1 ih.2.2.1, List.Pairwise.sublist h2 ih.2.2.2⟩
  | doMatch ob r _ hm ih =>
    have hl := (Match_some ob r hm).1
    have ho := matchLoop_book_origin _ ob _ hl
    have hsrt := matchLoop_sorted _ ob _ hl ih.2.2.1 ih.2.2.2
    refine ⟨?_, ?_, hsrt.1, hsrt.2⟩
    · intro x hx
      obtain ⟨y, hy, _, e⟩ := ho.1 x hx
      rw [← e]; exact ih.1 y hy
    · intro x hx
      obtain ⟨y, hy, _, e⟩ := ho.2 x hx
      rw [← e]; exact ih.2.1 y hy

theorem addAll_buys (S : SliceSorter) (orders : List Order)
    (hbuy : ∀ o ∈ orders, o.Typ = Buy) (ob : OrderBook) :
    (∀ e ∈ (addAll S ob orders).2, e = none) ∧
      (addAll S ob orders).2.length = orders.length ∧
      (addAll S ob orders).1.sellOrders = ob.sellOrders ∧
      (addAll S ob orders).1.buyOrders.Perm (ob.buyOrders ++ orders) ∧
      ((∀ x ∈ ob.buyOrders, x.Price.isNaN = false) →
        (∀ x ∈ orders, x.Price.isNaN = false) → BuysSorted ob.buyOrders →
        BuysSorted (addAll S ob orders).1.buyOrders) := by
  induction orders generalizing ob with
  | nil => simp [addAll]
  | cons o os ih =>
    have ho : o.Typ = Buy := hbuy o (List.mem_cons_self _ _)
    have hos : ∀ x ∈ os, x.Typ = Buy := fun x hx => hbuy x (List.mem_cons_of_mem _ hx)
    obtain ⟨h1, h2, h3, h4, h5⟩ := ih hos (ob.Add S o).1
    simp only [addAll]
    refine ⟨?_, ?_, ?_, ?_, ?_⟩
    · intro e he
      rcases List.mem_cons.mp he with h | h
      · rw [h, Add_buy S ob o ho]
      · exact h1 e h
    · simp [h2]
    · rw [h3, Add_buy S ob o ho]
    · refine h4.trans ?_
      rw [Add_buy S ob o ho]
      simpa using (S.perm _ (ob.buyOrders ++ [o])).append_right os
    · intro hn hno _
      have happ : ∀ x ∈ ob.buyOrders ++ [o], x.Price.isNaN = false := by
        intro x hx
        rcases List.mem_append.mp hx with h | h
        · exact hn x h
        · simp only [List.mem_singleton] at h
          rw [h]; exact hno o (List.mem_cons_self _ _)
      refine h5 ?_ (fun x hx => hno x (List.mem_cons_of_mem _ hx)) ?_
      · rw [Add_buy S ob o ho]
        exact fun x hx => happ x ((S.perm _ _).subset hx)
      · rw [Add_buy S ob o ho]
        exact sort_gt_sorted S _ happ

theorem Cancel_found_sell (ob : OrderBook) (orderID : String) (i : Nat)
    (h : ob.sellOrders.findIdx? (fun o => o.ID == orderID) = some i) :
    ob.Cancel orderID = ({ ob with sellOrders := ob.sellOrders.eraseIdx i }, none) := by
  simp only [OrderBook.Cancel, h]

theorem Cancel_found_buy (ob : OrderBook) (orderID : String) (i : Nat)
    (hs : ob.sellOrders.findIdx? (fun o => o.ID == orderID) = none)
    (h : ob.buyOrders.findIdx? (fun o => o.ID == orderID) = some i) :
    ob.Cancel orderID = ({ ob with buyOrders := ob.buyOrders.eraseIdx i }, none) := by
  simp only [OrderBook.Cancel, hs, h]

theorem Cancel_absent (ob : OrderBook) (orderID : String)
    (hs : ob.sellOrders.findIdx? (fun o => o.ID == orderID) = none)
    (h : ob.buyOrders.findIdx? (fun o => o.ID == orderID) = none) :
    ob.Cancel orderID = (ob, some { ID := orderID, Reason := "not found" }) := by
  simp only [OrderBook.Cancel, hs, h]

theorem findIdx_none_iff (l : List Order) (orderID : String) :
    l.findIdx? (fun o => o.ID == orderID) = none ↔ ∀ o ∈ l, o.ID ≠ orderID := by
  rw [List.findIdx?_eq_none_iff]
  constructor
  · intro h o ho; simpa using h o ho
  · intro h o ho; simpa using h o ho

/-! ## Further facts on `Cancel` -/

/-- The `range` loop of `Cancel` on a collection holding the ID: it stops at
the first order with the ID, and deleting that index joins what is before it
with what is after it. -/
theorem findIdx_split (l : List Order) (orderID : String)
    (h : ∃ x ∈ l, x.ID = orderID) :
    ∃ l1 x l2, l = l1 ++ x :: l2 ∧ x.ID = orderID ∧ (∀ y ∈ l1, y.ID ≠ orderID) ∧
      l.findIdx? (fun o => o.ID == orderID) = some l1.length ∧
      l.eraseIdx l1.length = l1 ++ l2 := by
  induction l with
  | nil => obtain ⟨x, hx, _⟩ := h; simp at hx
  | cons a l ih =>
    by_cases ha : a.ID = orderID
    · exact ⟨[], a, l, rfl, ha, by simp, by simp [ha], by simp⟩
    · have h2 : ∃ x ∈ l, x.ID = orderID := by
        obtain ⟨x, hx, hid⟩ := h
        rcases List.mem_cons.mp hx with e | e
        · subst e; exact absurd hid ha
        · exact ⟨x, e, hid⟩
      obtain ⟨l1, x, l2, e1, e2, e3, e4, e5⟩ := ih h2
      refine ⟨a :: l1, x, l2, by rw [e1]; rfl, e2, ?_, ?_, ?_⟩
      · intro y hy
        rcases List.mem_cons.mp hy with e | e
        · subst e; exact ha
        · exact e3 y e
      · rw [List.findIdx?_cons]
        simp only [beq_iff_eq, ha, if_false, Bool.false_eq_true]
        rw [List.findIdx?_succ, e4]
        rfl
      · simp only [List.length_cons, List.eraseIdx_cons_succ, e5, List.cons_append]

/-- Cancelling the ID of a freshly added order in the collection it went to:
the loop finds it, and what is left is a rearrangement of the old collection. -/
theorem erase_fresh (l old : List Order) (o : Order) (hp : l.Perm (old ++ [o]))
    (hfresh : ∀ x ∈ old, x.ID ≠ o.ID) :
    ∃ i, l.findIdx? (fun x => x.ID == o.ID) = some i ∧ (l.eraseIdx i).Perm old := by
  have hmem : ∃ x ∈ l, x.ID = o.ID := ⟨o, hp.symm.subset (by simp), rfl⟩
  obtain ⟨l1, x, l2, e1, e2, _, e4, e5⟩ := findIdx_split l o.ID hmem
  refine ⟨l1.length, e4, ?_⟩
  have hx : x ∈ old ++ [o] := hp.subset (by rw [e1]; simp)
  have hxo : x = o := by
    rcases List.mem_append.mp hx with e | e
    · exact absurd e2 (hfresh x e)
    · simpa using e
  rw [e5]
  have h1 : (x :: (l1 ++ l2)).Perm (o :: old) := by
    refine (@List.perm_middle _ x l1 l2).symm.trans ?_
    rw [← e1]
    exact hp.trans (List.perm_append_singleton o old)
  rw [hxo] at h1
  exact h1.cons_inv

/-! ## Further facts on the loop of `Match` -/

/-- A book on which the loop exits at once: `Match` returns no trade and
leaves the book alone. -/
theorem Match_stopped (ob : OrderBook)
    (h : ob.buyOrders = [] ∨ ob.sellOrders = [] ∨
      ∃ b s, ob.buyOrders.head? = some b ∧ ob.sellOrders.head? = some s ∧
        b.Price < s.Price) :
    ob.Match = some { trades := [], err := none, book := ob } := by
  obtain ⟨buys, sells⟩ := ob
  unfold OrderBook.Match
  cases buys with
  | nil => rw [matchLoop_stop_buy]; rfl
  | cons b0 bs =>
    cases sells with
    | nil => rw [matchLoop_stop_sell]; rfl
    | cons s0 ss =>
      rcases h with h | h | ⟨b, s, hb, hs, hp⟩
      · simp at h
      · simp at h
      · simp only [List.head?_cons, Option.some.injEq] at hb hs
        subst hb
        subst hs
        rw [matchLoop_break _ _ _ _ _ hp]
        rfl

/-- At loop exit a side is empty or the two heads do not cross. -/
theorem matchLoop_exit (k : Nat) (ob : OrderBook) (r : List Trade × OrderBook)
    (h : matchLoop k ob = some r) :
    r.2.buyOrders = [] ∨ r.2.sellOrders = [] ∨
      ∃ b s, r.2.buyOrders.head? = some b ∧ r.2.sellOrders.head? = some s ∧
        b.Price < s.Price := by
  refine matchLoop_induct
    (fun _ r => r.2.buyOrders = [] ∨ r.2.sellOrders = [] ∨
      ∃ b s, r.2.buyOrders.head? = some b ∧ r.2.sellOrders.head? = some s ∧
        b.Price < s.Price) ?_ ?_ ?_ k ob r h
  · intro ob he
    rcases he with he | he
    · exact Or.inl he
    · exact Or.inr (Or.inl he)
  · intro b bs s ss hp
    exact Or.inr (Or.inr ⟨b, s, rfl, rfl, hp⟩)
  · intro b bs s ss r _ _ _ ih
    exact ih

/-- An order found after the loop with an amount equal to zero was resting,
as it is, before. -/
theorem matchLoop_zero_origin (k : Nat) (ob : OrderBook) (r : List Trade × OrderBook)
    (h : matchLoop k ob = some r) :
    (∀ x ∈ r.2.buyOrders, F64.eq x.Amount 0 = true → x ∈ ob.buyOrders) ∧
      (∀ x ∈ r.2.sellOrders, F64.eq x.Amount 0 = true → x ∈ ob.sellOrders) := by
  refine matchLoop_induct
    (fun ob r => (∀ x ∈ r.2.buyOrders, F64.eq x.Amount 0 = true → x ∈ ob.buyOrders) ∧
      (∀ x ∈ r.2.sellOrders, F64.eq x.Amount 0 = true → x ∈ ob.sellOrders)) ?_ ?_ ?_ k ob r h
  · intro ob _
    exact ⟨fun x hx _ => hx, fun x hx _ => hx⟩
  · intro b bs s ss _
    exact ⟨fun x hx _ => hx, fun x hx _ => hx⟩
  · intro b bs s ss r _ _ _ ih
    constructor
    · intro x hx hz
      have hx1 := ih.1 x hx hz
      rcases fill_buys_cases b bs s ss with ⟨e, _⟩ | ⟨e, hne⟩
      · rw [e] at hx1; exact List.mem_cons_of_mem _ hx1
      · rw [e] at hx1
        rcases List.mem_cons.mp hx1 with e2 | e2
        · rw [e2] at hz; rw [hne] at hz; cases hz
        · exact List.mem_cons_of_mem _ e2
    · intro x hx hz
      have hx1 := ih.2 x hx hz
      rcases fill_sells_cases b bs s ss with ⟨e, _⟩ | ⟨e, hne⟩
      · rw [e] at hx1; exact List.mem_cons_of_mem _ hx1
      · rw [e] at hx1
        rcases List.mem_cons.mp hx1 with e2 | e2
        · rw [e2] at hz; rw [hne] at hz; cases hz
        · exact List.mem_cons_of_mem _ e2

/-- A run that exits emits no trade when a side is empty, and fewer trades
than there are resting orders otherwise. -/
theorem matchLoop_trade_bound (k : Nat) (ob : OrderBook) (r : List Trade × OrderBook)
    (h : matchLoop k ob = some r) :
    (ob.buyOrders = [] ∨ ob.sellOrders = [] → r.1 = []) ∧
      (ob.buyOrders ≠ [] → ob.sellOrders ≠ [] →
        r.1.length + 1 ≤ ob.buyOrders.length + ob.sellOrders.length) := by
  refine matchLoop_induct
    (fun ob r => (ob.buyOrders = [] ∨ ob.sellOrders = [] → r.1 = []) ∧
      (ob.buyOrders ≠ [] → ob.sellOrders ≠ [] →
        r.1.length + 1 ≤ ob.buyOrders.length + ob.sellOrders.length)) ?_ ?_ ?_ k ob r h
  · intro ob he
    refine ⟨fun _ => rfl, fun h1 h2 => ?_⟩
    rcases he with he | he
    · exact absurd he h1
    · exact absurd he h2
  · intro b bs s ss _
    refine ⟨fun _ => rfl, fun _ _ => ?_⟩
    simp only [List.length_nil, List.length_cons]
    omega
  · intro b bs s ss r k hp hr ih
    refine ⟨fun he => ?_, fun _ _ => ?_⟩
    · rcases he with he | he <;> simp at he
    · have hl := fill_length_le b bs s ss (fill_removes k b bs s ss r hp hr)
      simp only [List.length_cons]
      by_cases hne : (fill b bs s ss).buyOrders = [] ∨ (fill b bs s ss).sellOrders = []
      · rw [ih.1 hne]
        simp only [List.length_nil]
        omega
      · have h1 : (fill b bs s ss).buyOrders ≠ [] := fun e => hne (Or.inl e)
        have h2 : (fill b bs s ss).sellOrders ≠ [] := fun e => hne (Or.inr e)
        have := ih.2 h1 h2
        omega

namespace F64

/-! ### Finite amounts -/

theorem lt_finite (x y : F64) (hx : x.isFinite = true) (hy : y.isFinite = true) :
    lt x y = decide (x.exact < y.exact) := by
  rcases x with _ | s | ⟨s, m⟩
  · simp [isFinite] at hx
  · simp [isFinite] at hx
  rcases y with _ | t | ⟨t, n⟩
  · simp [isFinite] at hy
  · simp [isFinite] at hy
  rfl

theorem eq_finite (x y : F64) (hx : x.isFinite = true) (hy : y.isFinite = true) :
    eq x y = decide (x.exact = y.exact) := by
  rcases x with _ | s | ⟨s, m⟩
  · simp [isFinite] at hx
  · simp [isFinite] at hx
  rcases y with _ | t | ⟨t, n⟩
  · simp [isFinite] at hy
  · simp [isFinite] at hy
  rfl

theorem le_finite (x y : F64) (hx : x.isFinite = true) (hy : y.isFinite = true) :
    le x y = decide (x.exact ≤ y.exact) := by
  unfold le
  rw [lt_finite x y hx hy, eq_finite x y hx hy, Bool.eq_iff_iff]
  simp only [Bool.or_eq_true, decide_eq_true_eq]
  omega

theorem exact_pos (m : Nat) : (fin false m).exact = (m : Int) := by
  simp [exact, signed]

theorem exact_neg (m : Nat) : (fin true m).exact = -(m : Int) := by
  simp [exact, signed]

theorem zero_le_iff (x : F64) :
    ((0 : F64) ≤ x) ↔ (x = inf false ∨ (x.isFinite = true ∧ 0 ≤ x.exact)) := by
  rw [le_def, zero_def]
  rcases x with _ | s | ⟨s, m⟩
  · simp [le, lt, eq, isFinite]
  · cases s <;> simp [le, lt, eq, isFinite]
  · rw [le_finite (fin false 0) (fin s m) rfl rfl]
    simp [isFinite, exact, signed]

theorem zero_lt_iff (x : F64) :
    ((0 : F64) < x) ↔ (x = inf false ∨ (x.isFinite = true ∧ 0 < x.exact)) := by
  rw [lt_def, zero_def]
  rcases x with _ | s | ⟨s, m⟩
  · simp [lt, isFinite]
  · cases s <;> simp [lt, isFinite]
  · rw [lt_finite (fin false 0) (fin s m) rfl rfl]
    simp [isFinite, exact, signed]

theorem maxMag_lt : maxMag < 2 ^ 2 ^ 12 := by decide

theorem valid_zero (z : Bool) : (fin z 0).Valid :=
  ⟨Nat.zero_le _, by simpa using roundMag_exact 0 0 (by decide)⟩

theorem exact_fin_zero (z : Bool) : (fin z 0).exact = 0 := by
  cases z <;> simp [exact, signed]

/-- On valid non-negative finite amounts the decrement of the loop gives a
valid non-negative amount that is not above the old one. -/
theorem sub_good (a m : F64) (ha : a.isFinite = true) (hm : m.isFinite = true)
    (hv : a.Valid) (h0 : 0 ≤ m.exact) (h : m.exact ≤ a.exact) :
    (a - m).isFinite = true ∧ (a - m).Valid ∧ 0 ≤ (a - m).exact ∧
      (a - m).exact ≤ a.exact := by
  by_cases he : a.exact = m.exact
  · obtain ⟨z, e⟩ := sub_finite_eq a m ha hm he
    rw [e]
    refine ⟨rfl, valid_zero z, ?_, ?_⟩
    · rw [exact_fin_zero]
    · rw [exact_fin_zero]; omega
  · obtain ⟨e, hd⟩ := sub_finite_gt a m ha hm (by omega)
    rcases a with _ | sa | ⟨sa, ma⟩
    · simp [isFinite] at ha
    · simp [isFinite] at ha
    obtain ⟨hv1, hv2⟩ := hv
    have hsa : (fin sa ma).exact = (ma : Int) := by
      cases sa
      · exact exact_pos ma
      · rw [exact_neg] at h he
        omega
    have hle : ((fin sa ma).exact - m.exact).toNat ≤ ma := by omega
    have hr := roundMag_le_of_le _ ma hv2 (Nat.lt_of_le_of_lt hv1 maxMag_lt) hle
    have hfin : roundFin false ((fin sa ma).exact - m.exact).toNat =
        fin false (roundMag ((fin sa ma).exact - m.exact).toNat) := by
      unfold roundFin
      rw [if_pos (Nat.le_trans hr hv1)]
    rw [e, hfin]
    refine ⟨rfl, ⟨Nat.le_trans hr hv1, roundMag_idem _
      (Nat.lt_of_le_of_lt (Nat.le_trans hle hv1) maxMag_lt)⟩, ?_, ?_⟩
    · rw [exact_pos]; omega
    · rw [exact_pos]
      exact le_of_le_of_eq (by exact_mod_cast hr) hsa.symm

/-- The decrement of the loop on finite amounts is zero or positive. -/
theorem sub_pos (a m : F64) (ha : a.isFinite = true) (hm : m.isFinite = true)
    (h : m.exact ≤ a.exact) : eq (a - m) 0 = true ∨ (0 : F64) < a - m := by
  by_cases he : a.exact = m.exact
  · obtain ⟨z, e⟩ := sub_finite_eq a m ha hm he
    rw [e]
    exact Or.inl (eq_zero_fin z)
  · obtain ⟨e, hd⟩ := sub_finite_gt a m ha hm (by omega)
    right
    rw [e, zero_lt_iff]
    rcases roundFin_cases false _ hd with ⟨k, hk, e2⟩ | e2
    · rw [e2]
      right
      refine ⟨rfl, ?_⟩
      rw [exact_pos]
      omega
    · exact Or.inl e2

theorem min_self_nonneg (n : Nat) : F64.min (fin false n) (fin false n) = fin false n := by
  have l1 : lt (fin false n) (fin false n) = false := by simp [lt]
  by_cases h : n = 0
  · subst h
    simp [F64.min, isNaN, l1, eq, signBit]
  · have ez : eq (fin false n) (fin false 0) = false := by
      simp only [eq, signed, decide_eq_false_iff_not]
      omega
    simp [F64.min, isNaN, l1, ez]

end F64

/-! ### Amounts on a grid: exact decrements -/

theorem onGrid_sub (u : Nat) (hu : u ≤ 2045) (ka km : Nat) (hka : ka < 2 ^ 53)
    (hkm : km ≤ ka) :
    F64.fin false (ka * 2 ^ u) - F64.fin false (km * 2 ^ u) =
      F64.fin false ((ka - km) * 2 ^ u) := by
  have hupos : 0 < 2 ^ u := Nat.two_pow_pos u
  by_cases he : ka = km
  · subst he
    simp [F64.sub_def, F64.sub]
  · have hlt : km < ka := by omega
    have hmul : km * 2 ^ u < ka * 2 ^ u := Nat.mul_lt_mul_of_pos_right hlt hupos
    have hgt : (F64.fin false (km * 2 ^ u)).exact < (F64.fin false (ka * 2 ^ u)).exact := by
      rw [F64.exact_pos, F64.exact_pos]
      exact_mod_cast hmul
    obtain ⟨e, _⟩ := F64.sub_finite_gt (F64.fin false (ka * 2 ^ u))
      (F64.fin false (km * 2 ^ u)) rfl rfl hgt
    have hd : ((F64.fin false (ka * 2 ^ u)).exact -
        (F64.fin false (km * 2 ^ u)).exact).toNat = (ka - km) * 2 ^ u := by
      rw [F64.exact_pos, F64.exact_pos, Nat.sub_mul]
      omega
    rw [e, hd]
    unfold F64.roundFin
    rw [F64.roundMag_exact (ka - km) u (by omega)]
    have hb : (ka - km) * 2 ^ u ≤ F64.maxMag := by
      unfold F64.maxMag
      exact Nat.mul_le_mul (by omega) (Nat.pow_le_pow_right (by decide) hu)
    rw [if_pos hb]

/-- One pass on two grid amounts: `min` is one of them, and both decrements
are exact and stay on the grid. -/
theorem step_onGrid (u : Nat) (hu : u ≤ 2045) (a s : F64) (ha : OnGrid u a)
    (hs : OnGrid u s) :
    (min a s).exact = Min.min a.exact s.exact ∧
      OnGrid u (a - min a s) ∧ (a - min a s).exact = a.exact - (min a s).exact ∧
      OnGrid u (s - min a s) ∧ (s - min a s).exact = s.exact - (min a s).exact := by
  obtain ⟨ka, hka, rfl⟩ := ha
  obtain ⟨ks, hks, rfl⟩ := hs
  have hupos : 0 < 2 ^ u := Nat.two_pow_pos u
  have hex : ∀ k : Nat, (F64.fin false (k * 2 ^ u)).exact = ((k * 2 ^ u : Nat) : Int) := by
    intro k; exact F64.exact_pos _
  have hsub : ∀ k1 k2 : Nat, k2 ≤ k1 →
      (((k1 - k2) * 2 ^ u : Nat) : Int) = ((k1 * 2 ^ u : Nat) : Int) - ((k2 * 2 ^ u : Nat) : Int) := by
    intro k1 k2 h
    have : k2 * 2 ^ u ≤ k1 * 2 ^ u := Nat.mul_le_mul_right _ h
    rw [Nat.sub_mul]
    omega
  obtain ⟨_, h2, h3, h4⟩ := F64.min_finite (F64.fin false (ka * 2 ^ u))
    (F64.fin false (ks * 2 ^ u)) rfl rfl
  refine ⟨by rw [F64.min_def]; exact h2, ?_⟩
  rcases Nat.lt_trichotomy ka ks with h | h | h
  · have hm : min (F64.fin false (ka * 2 ^ u)) (F64.fin false (ks * 2 ^ u)) =
        F64.fin false (ka * 2 ^ u) := by
      rw [F64.min_def]
      apply h4
      rw [hex, hex]
      exact_mod_cast Nat.mul_lt_mul_of_pos_right h hupos
    rw [hm]
    refine ⟨?_, ?_, ?_, ?_⟩
    · rw [onGrid_sub u hu ka ka hka (Nat.le_refl _)]; exact ⟨_, by omega, rfl⟩
    · rw [onGrid_sub u hu ka ka hka (Nat.le_refl _), hex, hex]; simp
    · rw [onGrid_sub u hu ks ka hks (by omega)]; exact ⟨_, by omega, rfl⟩
    · rw [onGrid_sub u hu ks ka hks (by omega), hex, hex, hex]; exact hsub _ _ (by omega)
  · subst h
    have hm : min (F64.fin false (ka * 2 ^ u)) (F64.fin false (ka * 2 ^ u)) =
        F64.fin false (ka * 2 ^ u) := by
      rw [F64.min_def]; exact F64.min_self_nonneg _
    rw [hm]
    refine ⟨?_, ?_, ?_, ?_⟩
    · rw [onGrid_sub u hu ka ka hka (Nat.le_refl _)]; exact ⟨_, by omega, rfl⟩
    · rw [onGrid_sub u hu ka ka hka (Nat.le_refl _), hex, hex]; simp
    · rw [onGrid_sub u hu ka ka hka (Nat.le_refl _)]; exact ⟨_, by omega, rfl⟩
    · rw [onGrid_sub u hu ka ka hka (Nat.le_refl _), hex, hex]; simp
  · have hm : min (F64.fin false (ka * 2 ^ u)) (F64.fin false (ks * 2 ^ u)) =
        F64.fin false (ks * 2 ^ u) := by
      rw [F64.min_def]
      apply h3
      rw [hex, hex]
      exact_mod_cast Nat.mul_lt_mul_of_pos_right h hupos
    rw [hm]
    refine ⟨?_, ?_, ?_, ?_⟩
    · rw [onGrid_sub u hu ka ks hka (by omega)]; exact ⟨_, by omega, rfl⟩
    · rw [onGrid_sub u hu ka ks hka (by omega), hex, hex, hex]; exact hsub _ _ (by omega)
    · rw [onGrid_sub u hu ks ks hks (Nat.le_refl _)]; exact ⟨_, by omega, rfl⟩
    · rw [onGrid_sub u hu ks ks hks (Nat.le_refl _), hex, hex]; simp

namespace F64

section Order

set_option linter.unusedTactic false

set_option linter.unreachableTactic false

theorem le_trans (x y z : F64) (h1 : le x y = true) (h2 : le y z = true) :
    le x z = true := by
  rcases x with _ | s | ⟨s, m⟩ <;> rcases y with _ | t | ⟨t, n⟩ <;>
    rcases z with _ | u | ⟨u, k⟩ <;>
    simp only [le, lt, eq, decide_eq_true_eq, decide_eq_false_iff_not, Bool.and_eq_true,
      Bool.not_eq_true', Bool.and_eq_false_imp, Bool.not_eq_false', Bool.or_eq_true,
      beq_iff_eq] at h1 h2 ⊢ <;>
    first
      | omega
      | (cases s <;> cases t <;> cases u <;> simp_all)
      | (cases s <;> cases t <;> simp_all)
      | (cases s <;> cases u <;> simp_all)
      | (cases t <;> cases u <;> simp_all)
      | (cases s <;> simp_all)
      | (cases t <;> simp_all)
      | (cases u <;> simp_all)
      | simp_all

end Order

theorem min_finite_inf (a : F64) (ha : a.isFinite = true) : F64.min a (inf false) = a := by
  rcases a with _ | sa | ⟨sa, ma⟩
  · simp [isFinite] at ha
  · simp [isFinite] at ha
  simp [F64.min, isNaN, lt]

theorem min_inf_finite (s : F64) (hs : s.isFinite = true) : F64.min (inf false) s = s := by
  rcases s with _ | ss | ⟨ss, ms⟩
  · simp [isFinite] at hs
  · simp [isFinite] at hs
  simp [F64.min, isNaN, lt]

theorem min_inf_inf : F64.min (inf false) (inf false) = inf false := by
  simp [F64.min, isNaN, lt, eq]

theorem inf_sub_finite (s : F64) (hs : s.isFinite = true) : inf false - s = inf false := by
  rcases s with _ | ss | ⟨ss, ms⟩
  · simp [isFinite] at hs
  · simp [isFinite] at hs
  rfl

theorem inf_sub_inf : inf false - inf false = nan := rfl

/-- One pass of the loop on two valid non-negative amounts: both become NaN
(two `+Inf`), or both decrements are valid, non-negative and not above the old
amounts. -/
theorem step_good (a s : F64) (hva : a.Valid) (ha : (0 : F64) ≤ a)
    (hvs : s.Valid) (hs : (0 : F64) ≤ s) :
    (a - Min.min a s = nan ∧ s - Min.min a s = nan) ∨
      ((a - Min.min a s).Valid ∧ (0 : F64) ≤ a - Min.min a s ∧ a - Min.min a s ≤ a ∧
        (s - Min.min a s).Valid ∧ (0 : F64) ≤ s - Min.min a s ∧ s - Min.min a s ≤ s) := by
  have conv : ∀ x m : F64, x.isFinite = true → m.isFinite = true → x.Valid →
      0 ≤ m.exact → m.exact ≤ x.exact →
      (x - m).Valid ∧ (0 : F64) ≤ x - m ∧ x - m ≤ x := by
    intro x m hx hm hv h0 h
    obtain ⟨h1, h2, h3, h4⟩ := sub_good x m hx hm hv h0 h
    refine ⟨h2, (zero_le_iff _).mpr (Or.inr ⟨h1, h3⟩), ?_⟩
    rw [le_def, le_finite _ _ h1 hx]
    simpa using h4
  have hinf : (0 : F64) ≤ inf false ∧ inf false ≤ inf false :=
    ⟨(zero_le_iff _).mpr (Or.inl rfl), by rw [le_def]; rfl⟩
  rw [zero_le_iff] at ha hs
  rw [min_def]
  rcases ha with ha | ⟨ha, ha0⟩
  · subst ha
    rcases hs with hs | ⟨hs, hs0⟩
    · subst hs
      left
      rw [min_inf_inf]
      exact ⟨inf_sub_inf, inf_sub_inf⟩
    · right
      rw [min_inf_finite s hs, inf_sub_finite s hs]
      obtain ⟨c1, c2, c3⟩ := conv s s hs hs hvs hs0 (Int.le_refl _)
      exact ⟨trivial, hinf.1, hinf.2, c1, c2, c3⟩
  · rcases hs with hs | ⟨hs, hs0⟩
    · subst hs
      right
      rw [min_finite_inf a ha, inf_sub_finite a ha]
      obtain ⟨c1, c2, c3⟩ := conv a a ha ha hva ha0 (Int.le_refl _)
      exact ⟨c1, c2, c3, trivial, hinf.1, hinf.2⟩
    · right
      obtain ⟨h1, h2, _, _⟩ := min_finite a s ha hs
      obtain ⟨c1, c2, c3⟩ := conv a (F64.min a s) ha h1 hva (by rw [h2]; omega)
        (by rw [h2]; omega)
      obtain ⟨d1, d2, d3⟩ := conv s (F64.min a s) hs h1 hvs (by rw [h2]; omega)
        (by rw [h2]; omega)
      exact ⟨c1, c2, c3, d1, d2, d3⟩

/-- One pass of the loop on two strictly positive amounts: both become NaN
(two `+Inf`), or the traded amount is positive and each decrement is zero or
positive. -/
theorem step_pos (a s : F64) (ha : (0 : F64) < a) (hs : (0 : F64) < s) :
    (a - Min.min a s = nan ∧ s - Min.min a s = nan) ∨
      ((0 : F64) < Min.min a s ∧
        (eq (a - Min.min a s) 0 = true ∨ (0 : F64) < a - Min.min a s) ∧
        (eq (s - Min.min a s) 0 = true ∨ (0 : F64) < s - Min.min a s)) := by
  have hinf : (0 : F64) < inf false := (zero_lt_iff _).mpr (Or.inl rfl)
  have ha' := ha
  have hs' := hs
  rw [zero_lt_iff] at ha hs
  rw [min_def]
  rcases ha with ha | ⟨ha, ha0⟩
  · subst ha
    rcases hs with hs | ⟨hs, hs0⟩
    · subst hs
      left
      rw [min_inf_inf]
      exact ⟨inf_sub_inf, inf_sub_inf⟩
    · right
      rw [min_inf_finite s hs, inf_sub_finite s hs]
      exact ⟨hs', Or.inr hinf, sub_pos s s hs hs (Int.le_refl _)⟩
  · rcases hs with hs | ⟨hs, hs0⟩
    · subst hs
      right
      rw [min_finite_inf a ha, inf_sub_finite a ha]
      exact ⟨ha', sub_pos a a ha ha (Int.le_refl _), Or.inr hinf⟩
    · right
      obtain ⟨h1, h2, _, _⟩ := min_finite a s ha hs
      refine ⟨(zero_lt_iff _).mpr (Or.inr ⟨h1, by rw [h2]; omega⟩),
        sub_pos a _ ha h1 (by rw [h2]; omega), sub_pos s _ hs h1 (by rw [h2]; omega)⟩

end F64

/-! ## Suffixes with a filled head -/

theorem FilledSuffix.refl (l : List Order) : FilledSuffix l l :=
  ⟨0, Or.inl rfl⟩

theorem FilledSuffix.skip (b : Order) (bs after : List Order)
    (h : FilledSuffix bs after) : FilledSuffix (b :: bs) after := by
  obtain ⟨n, h⟩ := h
  exact ⟨n + 1, h⟩

theorem FilledSuffix.head (b b0 : Order) (bs after : List Order)
    (hid : b0.ID = b.ID) (hty : b0.Typ = b.Typ) (hpr : b0.Price = b.Price)
    (ham : b0.Amount ≤ b.Amount) (h : FilledSuffix (b0 :: bs) after) :
    FilledSuffix (b :: bs) after := by
  obtain ⟨n, h⟩ := h
  cases n with
  | zero =>
    refine ⟨0, Or.inr ?_⟩
    rcases h with h | ⟨x, y, rest, e1, e2, h1, h2, h3, h4⟩
    · exact ⟨b, b0, bs, rfl, h, hid, hty, hpr, ham⟩
    · simp only [List.drop_zero, List.cons.injEq] at e1
      obtain ⟨ex, er⟩ := e1
      subst ex
      subst er
      exact ⟨b, y, bs, rfl, e2, h1.trans hid, h2.trans hty, h3.trans hpr,
        F64.le_trans _ _ _ h4 ham⟩
  | succ n => exact ⟨n + 1, h⟩

/-- The book after a pass in which both decrements are NaN. -/
theorem fill_of_nan (b : Order) (bs : List Order) (s : Order) (ss : List Order)
    (h1 : b.Amount - min b.Amount s.Amount = F64.nan)
    (h2 : s.Amount - min b.Amount s.Amount = F64.nan) :
    fill b bs s ss =
      { buyOrders := { b with Amount := F64.nan } :: bs,
        sellOrders := { s with Amount := F64.nan } :: ss } := by
  unfold fill
  simp only [h1, h2, F64.eq_nan_zero]
  rfl

/-- After a pass in which both decrements are NaN the loop never exits. -/
theorem fill_nan_none (k : Nat) (b : Order) (bs : List Order) (s : Order) (ss : List Order)
    (hp : ¬ b.Price < s.Price)
    (h1 : b.Amount - min b.Amount s.Amount = F64.nan)
    (h2 : s.Amount - min b.Amount s.Amount = F64.nan) :
    matchLoop k (fill b bs s ss) = none := by
  rw [fill_of_nan b bs s ss h1 h2]
  exact matchLoop_nan_none k { b with Amount := F64.nan } bs { s with Amount := F64.nan } ss
    hp (Or.inl rfl)

theorem matchLoop_filledSuffix (k : Nat) (ob : OrderBook) (r : List Trade × OrderBook)
    (h : matchLoop k ob = some r) :
    (∀ x ∈ ob.buyOrders, x.Amount.Valid ∧ (0 : F64) ≤ x.Amount) →
    (∀ x ∈ ob.sellOrders, x.Amount.Valid ∧ (0 : F64) ≤ x.Amount) →
      FilledSuffix ob.buyOrders r.2.buyOrders ∧
        FilledSuffix ob.sellOrders r.2.sellOrders := by
  refine matchLoop_induct
    (fun ob r => (∀ x ∈ ob.buyOrders, x.Amount.Valid ∧ (0 : F64) ≤ x.Amount) →
      (∀ x ∈ ob.sellOrders, x.Amount.Valid ∧ (0 : F64) ≤ x.Amount) →
      FilledSuffix ob.buyOrders r.2.buyOrders ∧
        FilledSuffix ob.sellOrders r.2.sellOrders) ?_ ?_ ?_ k ob r h
  · intro ob _ _ _
    exact ⟨FilledSuffix.refl _, FilledSuffix.refl _⟩
  · intro b bs s ss _ _ _
    exact ⟨FilledSuffix.refl _, FilledSuffix.refl _⟩
  · intro b bs s ss r k hp hr ih hb hs
    obtain ⟨hvb, hb0⟩ := hb b (List.mem_cons_self _ _)
    obtain ⟨hvs, hs0⟩ := hs s (List.mem_cons_self _ _)
    rcases F64.step_good b.Amount s.Amount hvb hb0 hvs hs0 with ⟨n1, n2⟩ | ⟨c1, c2, c3, d1, d2, d3⟩
    · rw [fill_nan_none k b bs s ss hp n1 n2] at hr
      cases hr
    · have hb1 : ∀ x ∈ (fill b bs s ss).buyOrders, x.Amount.Valid ∧ (0 : F64) ≤ x.Amount := by
        intro x hx
        rcases fill_buys_cases b bs s ss with ⟨e, _⟩ | ⟨e, _⟩
        · rw [e] at hx; exact hb x (List.mem_cons_of_mem _ hx)
        · rw [e] at hx
          rcases List.mem_cons.mp hx with e2 | e2
          · rw [e2]; exact ⟨c1, c2⟩
          · exact hb x (List.mem_cons_of_mem _ e2)
      have hs1 : ∀ x ∈ (fill b bs s ss).sellOrders, x.Amount.Valid ∧ (0 : F64) ≤ x.Amount := by
        intro x hx
        rcases fill_sells_cases b bs s ss with ⟨e, _⟩ | ⟨e, _⟩
        · rw [e] at hx; exact hs x (List.mem_cons_of_mem _ hx)
        · rw [e] at hx
          rcases List.mem_cons.mp hx with e2 | e2
          · rw [e2]; exact ⟨d1, d2⟩
          · exact hs x (List.mem_cons_of_mem _ e2)
      obtain ⟨i1, i2⟩ := ih hb1 hs1
      constructor
      · rcases fill_buys_cases b bs s ss with ⟨e, _⟩ | ⟨e, _⟩
        · rw [e] at i1; exact FilledSuffix.skip b bs _ i1
        · rw [e] at i1
          exact FilledSuffix.head b { b with Amount := b.Amount - min b.Amount s.Amount } bs _
            rfl rfl rfl c3 i1
      · rcases fill_sells_cases b bs s ss with ⟨e, _⟩ | ⟨e, _⟩
        · rw [e] at i2; exact FilledSuffix.skip s ss _ i2
        · rw [e] at i2
          exact FilledSuffix.head s { s with Amount := s.Amount - min b.Amount s.Amount } ss _
            rfl rfl rfl d3 i2

/-! ## Positive amounts -/

theorem matchLoop_positive (k : Nat) (ob : OrderBook) (r : List Trade × OrderBook)
    (h : matchLoop k ob = some r) :
    (∀ x ∈ ob.buyOrders, (0 : F64) < x.Amount) →
    (∀ x ∈ ob.sellOrders, (0 : F64) < x.Amount) →
      (∀ t ∈ r.1, (0 : F64) < t.Amount) ∧ (∀ x ∈ r.2.buyOrders, (0 : F64) < x.Amount) ∧
        (∀ x ∈ r.2.sellOrders, (0 : F64) < x.Amount) := by
  refine matchLoop_induct
    (fun ob r => (∀ x ∈ ob.buyOrders, (0 : F64) < x.Amount) →
      (∀ x ∈ ob.sellOrders, (0 : F64) < x.Amount) →
      (∀ t ∈ r.1, (0 : F64) < t.Amount) ∧ (∀ x ∈ r.2.buyOrders, (0 : F64) < x.Amount) ∧
        (∀ x ∈ r.2.sellOrders, (0 : F64) < x.Amount)) ?_ ?_ ?_ k ob r h
  · intro ob _ hb hs
    exact ⟨fun t ht => by simp at ht, hb, hs⟩
  · intro b bs s ss _ hb hs
    exact ⟨fun t ht => by simp at ht, hb, hs⟩
  · intro b bs s ss r k hp hr ih hb hs
    have hb0 := hb b (List.mem_cons_self _ _)
    have hs0 := hs s (List.mem_cons_self _ _)
    rcases F64.step_pos b.Amount s.Amount hb0 hs0 with ⟨n1, n2⟩ | ⟨hm, c1, c2⟩
    · rw [fill_nan_none k b bs s ss hp n1 n2] at hr
      cases hr
    · have hb1 : ∀ x ∈ (fill b bs s ss).buyOrders, (0 : F64) < x.Amount := by
        intro x hx
        rcases fill_buys_cases b bs s ss with ⟨e, _⟩ | ⟨e, hne⟩
        · rw [e] at hx; exact hb x (List.mem_cons_of_mem _ hx)
        · rw [e] at hx
          rcases List.mem_cons.mp hx with e2 | e2
          · rw [e2]
            rcases c1 with c | c
            · rw [c] at hne; cases hne
            · exact c
          · exact hb x (List.mem_cons_of_mem _ e2)
      have hs1 : ∀ x ∈ (fill b bs s ss).sellOrders, (0 : F64) < x.Amount := by
        intro x hx
        rcases fill_sells_cases b bs s ss with ⟨e, _⟩ | ⟨e, hne⟩
        · rw [e] at hx; exact hs x (List.mem_cons_of_mem _ hx)
        · rw [e] at hx
          rcases List.mem_cons.mp hx with e2 | e2
          · rw [e2]
            rcases c2 with c | c
            · rw [c] at hne; cases hne
            · exact c
          · exact hs x (List.mem_cons_of_mem _ e2)
      obtain ⟨i1, i2, i3⟩ := ih hb1 hs1
      refine ⟨?_, i2, i3⟩
      intro t ht
      rcases List.mem_cons.mp ht with e | e
      · rw [e]; exact hm
      · exact i1 t e

/-! ## Quantities -/

theorem sumAmounts_cons (x : Order) (l : List Order) :
    sumAmounts (x :: l) = x.Amount.exact + sumAmounts l := by
  simp [sumAmounts]

theorem sumTrades_cons (t : Trade) (l : List Trade) :
    sumTrades (t :: l) = t.Amount.exact + sumTrades l := by
  simp [sumTrades]

theorem exact_of_eq_zero (x : F64) (h : F64.eq x 0 = true) : x.exact = 0 := by
  obtain ⟨z, e⟩ := (F64.eq_zero_iff x).mp h
  rw [e]; exact F64.exact_fin_zero z

theorem matchLoop_conservation (u : Nat) (hu : u ≤ 2045) (k : Nat) (ob : OrderBook)
    (r : List Trade × OrderBook) (h : matchLoop k ob = some r) :
    (∀ x ∈ ob.buyOrders, OnGrid u x.Amount) → (∀ x ∈ ob.sellOrders, OnGrid u x.Amount) →
      sumTrades r.1 = sumAmounts ob.buyOrders - sumAmounts r.2.buyOrders ∧
        sumTrades r.1 = sumAmounts ob.sellOrders - sumAmounts r.2.sellOrders := by
  refine matchLoop_induct
    (fun ob r => (∀ x ∈ ob.buyOrders, OnGrid u x.Amount) →
      (∀ x ∈ ob.sellOrders, OnGrid u x.Amount) →
      sumTrades r.1 = sumAmounts ob.buyOrders - sumAmounts r.2.buyOrders ∧
        sumTrades r.1 = sumAmounts ob.sellOrders - sumAmounts r.2.sellOrders) ?_ ?_ ?_ k ob r h
  · intro ob _ _ _
    simp [sumTrades]
  · intro b bs s ss _ _ _
    simp [sumTrades]
  · intro b bs s ss r _ _ _ ih hb hs
    obtain ⟨_, g1, x1, g2, x2⟩ := step_onGrid u hu b.Amount s.Amount
      (hb b (List.mem_cons_self _ _)) (hs s (List.mem_cons_self _ _))
    have hb1 : ∀ x ∈ (fill b bs s ss).buyOrders, OnGrid u x.Amount := by
      intro x hx
      rcases fill_buys_cases b bs s ss with ⟨e, _⟩ | ⟨e, _⟩
      · rw [e] at hx; exact hb x (List.mem_cons_of_mem _ hx)
      · rw [e] at hx
        rcases List.mem_cons.mp hx with e2 | e2
        · rw [e2]; exact g1
        · exact hb x (List.mem_cons_of_mem _ e2)
    have hs1 : ∀ x ∈ (fill b bs s ss).sellOrders, OnGrid u x.Amount := by
      intro x hx
      rcases fill_sells_cases b bs s ss with ⟨e, _⟩ | ⟨e, _⟩
      · rw [e] at hx; exact hs x (List.mem_cons_of_mem _ hx)
      · rw [e] at hx
        rcases List.mem_cons.mp hx with e2 | e2
        · rw [e2]; exact g2
        · exact hs x (List.mem_cons_of_mem _ e2)
    have e1 : sumAmounts (fill b bs s ss).buyOrders =
        sumAmounts (b :: bs) - (min b.Amount s.Amount).exact := by
      rcases fill_buys_cases b bs s ss with ⟨e, hz⟩ | ⟨e, _⟩
      · have := exact_of_eq_zero _ hz
        rw [e, sumAmounts_cons]; omega
      · rw [e, sumAmounts_cons, sumAmounts_cons]; simp only; omega
    have e2 : sumAmounts (fill b bs s ss).sellOrders =
        sumAmounts (s :: ss) - (min b.Amount s.Amount).exact := by
      rcases fill_sells_cases b bs s ss with ⟨e, hz⟩ | ⟨e, _⟩
      · have := exact_of_eq_zero _ hz
        rw [e, sumAmounts_cons]; omega
      · rw [e, sumAmounts_cons, sumAmounts_cons]; simp only; omega
    have et : (tradeOf b s).Amount = min b.Amount s.Amount := rfl
    obtain ⟨i1, i2⟩ := ih hb1 hs1
    simp only [sumTrades_cons, et]
    constructor
    · omega
    · omega

/-! ## One pass on finite amounts -/

theorem le_total_finite (a c : F64) (ha : a.isFinite = true) (hc : c.isFinite = true) :
    a ≤ c ∨ c ≤ a := by
  rw [F64.le_def, F64.le_def, F64.le_finite a c ha hc, F64.le_finite c a hc ha]
  simp only [decide_eq_true_eq]
  omega

/-- The book after one pass on two heads with finite amounts: the head with
the smaller amount is sliced off (both on equal amounts) and the other one
keeps the rounded difference. -/
theorem fill_finite (b : Order) (bs : List Order) (s : Order) (ss : List Order)
    (hb : b.Amount.isFinite = true) (hs : s.Amount.isFinite = true) :
    fill b bs s ss =
      { buyOrders :=
          if b.Amount ≤ s.Amount then bs
          else { b with Amount := b.Amount - s.Amount } :: bs,
        sellOrders :=
          if s.Amount ≤ b.Amount then ss
          else { s with Amount := s.Amount - b.Amount } :: ss } := by
  obtain ⟨h1, h2, h3, h4⟩ := F64.min_finite b.Amount s.Amount hb hs
  have hle1 : (b.Amount ≤ s.Amount) ↔ b.Amount.exact ≤ s.Amount.exact := by
    rw [F64.le_def, F64.le_finite _ _ hb hs]; simp
  have hle2 : (s.Amount ≤ b.Amount) ↔ s.Amount.exact ≤ b.Amount.exact := by
    rw [F64.le_def, F64.le_finite _ _ hs hb]; simp
  have hbuy : (fill b bs s ss).buyOrders =
      if b.Amount ≤ s.Amount then bs
      else { b with Amount := b.Amount - s.Amount } :: bs := by
    by_cases h : b.Amount.exact ≤ s.Amount.exact
    · rw [if_pos (hle1.mpr h)]
      obtain ⟨z, e⟩ := F64.sub_finite_eq b.Amount (F64.min b.Amount s.Amount) hb h1
        (by rw [h2]; omega)
      rcases fill_buys_cases b bs s ss with ⟨e2, _⟩ | ⟨_, hz⟩
      · exact e2
      · rw [F64.min_def, e, F64.eq_zero_fin] at hz; cases hz
    · rw [if_neg (fun hh => h (hle1.mp hh))]
      have hm : min b.Amount s.Amount = s.Amount := by
        rw [F64.min_def]; exact h3 (by omega)
      obtain ⟨e, hd⟩ := F64.sub_finite_gt b.Amount s.Amount hb hs (by omega)
      rcases fill_buys_cases b bs s ss with ⟨_, hz⟩ | ⟨e2, _⟩
      · rw [hm, e, F64.eq_zero_roundFin _ _ hd] at hz; cases hz
      · rw [e2, hm]
  have hsell : (fill b bs s ss).sellOrders =
      if s.Amount ≤ b.Amount then ss
      else { s with Amount := s.Amount - b.Amount } :: ss := by
    by_cases h : s.Amount.exact ≤ b.Amount.exact
    · rw [if_pos (hle2.mpr h)]
      obtain ⟨z, e⟩ := F64.sub_finite_eq s.Amount (F64.min b.Amount s.Amount) hs h1
        (by rw [h2]; omega)
      rcases fill_sells_cases b bs s ss with ⟨e2, _⟩ | ⟨_, hz⟩
      · exact e2
      · rw [F64.min_def, e, F64.eq_zero_fin] at hz; cases hz
    · rw [if_neg (fun hh => h (hle2.mp hh))]
      have hm : min b.Amount s.Amount = b.Amount := by
        rw [F64.min_def]; exact h4 (by omega)
      obtain ⟨e, hd⟩ := F64.sub_finite_gt s.Amount b.Amount hs hb (by omega)
      rcases fill_sells_cases b bs s ss with ⟨_, hz⟩ | ⟨e2, _⟩
      · rw [hm, e, F64.eq_zero_roundFin _ _ hd] at hz; cases hz
      · rw [e2, hm]
  calc fill b bs s ss
      = { buyOrders := (fill b bs s ss).buyOrders,
          sellOrders := (fill b bs s ss).sellOrders } := rfl
    _ = _ := by rw [hbuy, hsell]

/-! ## Claims -/

/-- C1, as stated, fails: three buy orders priced 100, NaN and 200 are added
to a new book.  No comparison with NaN holds, so the sort leaves them in the
order of arrival, and the buy collection returned by `Get()` is not sorted by
non-increasing price. -/
theorem C1_price_priority_counterexample :
    Reachable goSorter
        { buyOrders := [⟨"1", Buy, 100, 1⟩, ⟨"2", Buy, F64.nan, 1⟩, ⟨"3", Buy, 200, 1⟩],
          sellOrders := [] } ∧
      ¬ (OrderBook.Get
        { buyOrders := [⟨"1", Buy, 100, 1⟩, ⟨"2", Buy, F64.nan, 1⟩, ⟨"3", Buy, 200, 1⟩],
          sellOrders := [] }).1.Pairwise (fun a b => a.Price ≥ b.Price) := by
  have h0 : Reachable goSorter New := Reachable.new
  have h1 := Reachable.add New ⟨"1", Buy, 100, 1⟩ h0
  have h2 := Reachable.add _ ⟨"2", Buy, F64.nan, 1⟩ h1
  have h3 := Reachable.add _ ⟨"3", Buy, 200, 1⟩ h2
  have e : (OrderBook.Add goSorter (OrderBook.Add goSorter
      (OrderBook.Add goSorter New ⟨"1", Buy, 100, 1⟩).1 ⟨"2", Buy, F64.nan, 1⟩).1
      ⟨"3", Buy, 200, 1⟩).1 =
      { buyOrders := [⟨"1", Buy, 100, 1⟩, ⟨"2", Buy, F64.nan, 1⟩, ⟨"3", Buy, 200, 1⟩],
        sellOrders := [] } := by decide
  rw [e] at h3
  exact ⟨h3, by decide⟩

/-- C1, amended.  Price-priority invariant: in every book reachable from
`New()` by any finite sequence of `Add`, `Cancel` and `Match` calls,
successful or failing, in which no order passed to `Add` has a NaN price, the
buy collection returned by `Get()` has non-increasing prices and the sell
collection has non-decreasing prices. -/
theorem C1_price_priority (S : SliceSorter) (ob : OrderBook) (h : ReachableNoNaN S ob) :
    ob.Get.1.Pairwise (fun a b => a.Price ≥ b.Price) ∧
      ob.Get.2.Pairwise (fun a b => a.Price ≤ b.Price) :=
  (reachableNoNaN_sorted S ob h).2.2

/-- C1 amended, at a concrete run: three buys and two sells are added, an
`Add` with an unknown type and a `Cancel` of an unknown ID fail, then `Match`
runs. -/
theorem C1_price_priority_witness :
    ReachableNoNaN goSorter
        { buyOrders := [⟨"3", Buy, 150, 1⟩, ⟨"1", Buy, 100, 1⟩],
          sellOrders := [⟨"5", Sell, 300, 2⟩] } ∧
      (OrderBook.Get
        { buyOrders := [⟨"3", Buy, 150, 1⟩, ⟨"1", Buy, 100, 1⟩],
          sellOrders := [⟨"5", Sell, 300, 2⟩] }).1.Pairwise
        (fun a b => a.Price ≥ b.Price) ∧
      (OrderBook.Get
        { buyOrders := [⟨"3", Buy, 150, 1⟩, ⟨"1", Buy, 100, 1⟩],
          sellOrders := [⟨"5", Sell, 300, 2⟩] }).2.Pairwise
        (fun a b => a.Price ≤ b.Price) := by
  have h0 : ReachableNoNaN goSorter New := ReachableNoNaN.new
  have h1 := ReachableNoNaN.add New ⟨"1", Buy, 100, 1⟩ h0 (by decide)
  have h2 := ReachableNoNaN.add _ ⟨"2", Buy, 200, 1⟩ h1 (by decide)
  have h3 := ReachableNoNaN.add _ ⟨"3", Buy, 150, 1⟩ h2 (by decide)
  have h4 := ReachableNoNaN.add _ ⟨"4", Sell, 120, 1⟩ h3 (by decide)
  have h5 := ReachableNoNaN.add _ ⟨"5", Sell, 300, 2⟩ h4 (by decide)
  have h6 := ReachableNoNaN.add _ ⟨"6", "hold", 10, 1⟩ h5 (by decide)
  have h7 := ReachableNoNaN.cancel _ "9" h6
  have e7 : (OrderBook.Cancel (OrderBook.Add goSorter (OrderBook.Add goSorter
      (OrderBook.Add goSorter (OrderBook.Add goSorter (OrderBook.Add goSorter
      (OrderBook.Add goSorter New ⟨"1", Buy, 100, 1⟩).1 ⟨"2", Buy, 200, 1⟩).1
      ⟨"3", Buy, 150, 1⟩).1 ⟨"4", Sell, 120, 1⟩).1 ⟨"5", Sell, 300, 2⟩).1
      ⟨"6", "hold", 10, 1⟩).1 "9").1 =
      { buyOrders := [⟨"2", Buy, 200, 1⟩, ⟨"3", Buy, 150, 1⟩, ⟨"1", Buy, 100, 1⟩],
        sellOrders := [⟨"4", Sell, 120, 1⟩, ⟨"5", Sell, 300, 2⟩] } := by decide
  rw [e7] at h7
  have hm : OrderBook.Match
      { buyOrders := [⟨"2", Buy, 200, 1⟩, ⟨"3", Buy, 150, 1⟩, ⟨"1", Buy, 100, 1⟩],
        sellOrders := [⟨"4", Sell, 120, 1⟩, ⟨"5", Sell, 300, 2⟩] } =
      some { trades := [⟨"2", "4", 120, 1⟩], err := none,
             book := { buyOrders := [⟨"3", Buy, 150, 1⟩, ⟨"1", Buy, 100, 1⟩],
                       sellOrders := [⟨"5", Sell, 300, 2⟩] } } := by decide
  have h8 := ReachableNoNaN.doMatch _ _ h7 hm
  exact ⟨h8, C1_price_priority goSorter _ h8⟩

/-- C2, as stated, fails: `+Inf` is a strictly positive amount.  A buy and a
sell order at price 100, both with amount `+Inf`, are added to a new book;
the first pass of `Match` turns both amounts into NaN (`Inf - Inf`), no head
is ever sliced off, and `Match` does not return. -/
theorem C2_single_pair_match_counterexample :
    ((⟨"1", Buy, 100, F64.inf false⟩ : Order).Price ≥
        (⟨"2", Sell, 100, F64.inf false⟩ : Order).Price) ∧
      ((0 : F64) < F64.inf false) ∧
      ((New.Add goSorter ⟨"1", Buy, 100, F64.inf false⟩).1.Add goSorter
          ⟨"2", Sell, 100, F64.inf false⟩) =
        ({ buyOrders := [⟨"1", Buy, 100, F64.inf false⟩],
           sellOrders := [⟨"2", Sell, 100, F64.inf false⟩] }, none) ∧
      (∀ k, matchLoop k
        { buyOrders := [⟨"1", Buy, 100, F64.inf false⟩],
          sellOrders := [⟨"2", Sell, 100, F64.inf false⟩] } = none) ∧
      OrderBook.Match
        { buyOrders := [⟨"1", Buy, 100, F64.inf false⟩],
          sellOrders := [⟨"2", Sell, 100, F64.inf false⟩] } = none := by
  have hn : ∀ k, matchLoop k
      { buyOrders := [⟨"1", Buy, 100, F64.inf false⟩],
        sellOrders := [⟨"2", Sell, 100, F64.inf false⟩] } = none :=
    matchLoop_none_of_fill ⟨"1", Buy, 100, F64.inf false⟩ []
      ⟨"2", Sell, 100, F64.inf false⟩ [] (by decide)
      (fun k => fill_nan_none k ⟨"1", Buy, 100, F64.inf false⟩ []
        ⟨"2", Sell, 100, F64.inf false⟩ [] (by decide) (by decide) (by decide))
  exact ⟨by decide, by decide, by decide, hn, Match_none _ hn⟩

/-- C2, amended.  Single-pair match: one Buy order `b` and one Sell order `s`
are added (in either order) to a new book, with `b.Price ≥ s.Price` and both
amounts strictly positive and finite.  Both `Add` calls succeed, and `Match`
returns no error and exactly one trade, with the two IDs, the sell price and
the smaller amount; afterwards the order with the smaller amount is gone and
the other one rests with the (rounded) difference; both collections are empty
on equal amounts.  The positivity of the amounts is stated as in the claim;
the proof does not use it. -/
theorem C2_single_pair_match (S : SliceSorter) (b s : Order)
    (hb : b.Typ = Buy) (hs : s.Typ = Sell) (hp : b.Price ≥ s.Price)
    (_hba : (0 : F64) < b.Amount) (_hsa : (0 : F64) < s.Amount)
    (hbf : b.Amount.isFinite = true) (hsf : s.Amount.isFinite = true) :
    (New.Add S b).2 = none ∧ ((New.Add S b).1.Add S s).2 = none ∧
    (New.Add S s).2 = none ∧ ((New.Add S s).1.Add S b).2 = none ∧
    ∀ ob : OrderBook,
      ob = ((New.Add S b).1.Add S s).1 ∨ ob = ((New.Add S s).1.Add S b).1 →
      ob.Match = some
        { trades := [{ BuyOrderID := b.ID, SellOrderID := s.ID, Price := s.Price,
                       Amount := min b.Amount s.Amount }],
          err := none,
          book :=
            { buyOrders :=
                if b.Amount ≤ s.Amount then []
                else [{ b with Amount := b.Amount - s.Amount }],
              sellOrders :=
                if s.Amount ≤ b.Amount then []
                else [{ s with Amount := s.Amount - b.Amount }] } } := by
  have hne : ¬ Sell = Buy := by decide
  have sortOne : ∀ less o, S.sort less ([] ++ [o]) = [o] := fun less o =>
    List.perm_singleton.mp (S.perm less ([] ++ [o]))
  have e1 : New.Add S b = ({ buyOrders := [b], sellOrders := [] }, none) := by
    simp only [OrderBook.Add, hb, if_true, New, sortOne]
  have e2 : New.Add S s = ({ buyOrders := [], sellOrders := [s] }, none) := by
    simp only [OrderBook.Add, hs, hne, if_true, if_false, New, sortOne]
  have e3 : OrderBook.Add S { buyOrders := [b], sellOrders := [] } s =
      ({ buyOrders := [b], sellOrders := [s] }, none) := by
    simp only [OrderBook.Add, hs, hne, if_true, if_false, sortOne]
  have e4 : OrderBook.Add S { buyOrders := [], sellOrders := [s] } b =
      ({ buyOrders := [b], sellOrders := [s] }, none) := by
    simp only [OrderBook.Add, hb, if_true, sortOne]
  rw [e1, e2, e3, e4]
  refine ⟨rfl, rfl, rfl, rfl, ?_⟩
  intro ob hob
  have hob2 : ob = { buyOrders := [b], sellOrders := [s] } := by
    rcases hob with h | h <;> exact h
  subst hob2
  have hnlt : ¬ b.Price < s.Price := by
    rw [F64.lt_def, Bool.not_eq_true]
    exact F64.not_lt_of_le _ _ hp
  unfold OrderBook.Match
  simp only [List.length_cons, List.length_nil]
  rw [matchLoop_cross _ b [] s [] hnlt, fill_finite b [] s [] hbf hsf]
  by_cases h1 : b.Amount ≤ s.Amount
  · simp only [h1, if_true]
    rw [matchLoop_stop_buy]
    rfl
  · rcases le_total_finite b.Amount s.Amount hbf hsf with h2 | h2
    · exact absurd h2 h1
    · simp only [h1, h2, if_true, if_false]
      rw [matchLoop_stop_sell]
      rfl

/-- C2 amended, at the three pairs of the test suite (100@100 against
100@100, 100@100 against 1@100, 1@100 against 100@100) and at a pair where the
difference is rounded: `1e17 - 1` is `1e17` in `float64`. -/
theorem C2_single_pair_match_witness :
    OrderBook.Match
        ((New.Add goSorter ⟨"1", Buy, 100, 100⟩).1.Add goSorter ⟨"2", Sell, 100, 100⟩).1 =
      some { trades := [⟨"1", "2", 100, 100⟩], err := none,
             book := { buyOrders := [], sellOrders := [] } } ∧
    OrderBook.Match
        ((New.Add goSorter ⟨"1", Buy, 100, 100⟩).1.Add goSorter ⟨"2", Sell, 100, 1⟩).1 =
      some { trades := [⟨"1", "2", 100, 1⟩], err := none,
             book := { buyOrders := [⟨"1", Buy, 100, 99⟩], sellOrders := [] } } ∧
    OrderBook.Match
        ((New.Add goSorter ⟨"1", Buy, 100, 1⟩).1.Add goSorter ⟨"2", Sell, 100, 100⟩).1 =
      some { trades := [⟨"1", "2", 100, 1⟩], err := none,
             book := { buyOrders := [], sellOrders := [⟨"2", Sell, 100, 99⟩] } } ∧
    OrderBook.Match
        ((New.Add goSorter ⟨"1", Buy, 100, 100000000000000000⟩).1.Add goSorter
          ⟨"2", Sell, 100, 1⟩).1 =
      some { trades := [⟨"1", "2", 100, 1⟩], err := none,
             book := { buyOrders := [⟨"1", Buy, 100, 100000000000000000⟩],
                       sellOrders := [] } } := by
  have h1 := (C2_single_pair_match goSorter ⟨"1", Buy, 100, 100⟩ ⟨"2", Sell, 100, 100⟩
    rfl rfl (by decide) (by decide) (by decide) (by decide) (by decide)).2.2.2.2 _ (Or.inl rfl)
  have h2 := (C2_single_pair_match goSorter ⟨"1", Buy, 100, 100⟩ ⟨"2", Sell, 100, 1⟩
    rfl rfl (by decide) (by decide) (by decide) (by decide) (by decide)).2.2.2.2 _ (Or.inl rfl)
  have h3 := (C2_single_pair_match goSorter ⟨"1", Buy, 100, 1⟩ ⟨"2", Sell, 100, 100⟩
    rfl rfl (by decide) (by decide) (by decide) (by decide) (by decide)).2.2.2.2 _ (Or.inl rfl)
  have h4 := (C2_single_pair_match goSorter ⟨"1", Buy, 100, 100000000000000000⟩
    ⟨"2", Sell, 100, 1⟩
    rfl rfl (by decide) (by decide) (by decide) (by decide) (by decide)).2.2.2.2 _ (Or.inl rfl)
  refine ⟨h1.trans (by decide), h2.trans (by decide), h3.trans (by decide),
    h4.trans (by decide)⟩

/-- C3, as stated, fails: a buy order whose price is NaN crosses every sell
order (`NaN < 5` is false), the trade is made at the sell price 5, and
`5 ≤ NaN` does not hold. -/
theorem C3_trade_price_rule_counterexample :
    OrderBook.Match
        { buyOrders := [⟨"1", Buy, F64.nan, 1⟩], sellOrders := [⟨"2", Sell, 5, 1⟩] } =
      some { trades := [⟨"1", "2", 5, 1⟩], err := none,
             book := { buyOrders := [], sellOrders := [] } } ∧
    ¬ ∃ b ∈ [(⟨"1", Buy, F64.nan, 1⟩ : Order)], ∃ s ∈ [(⟨"2", Sell, 5, 1⟩ : Order)],
        b.ID = (⟨"1", "2", 5, 1⟩ : Trade).BuyOrderID ∧
        s.ID = (⟨"1", "2", 5, 1⟩ : Trade).SellOrderID ∧
        (⟨"1", "2", 5, 1⟩ : Trade).Price = s.Price ∧
        (⟨"1", "2", 5, 1⟩ : Trade).Price ≤ b.Price := by
  constructor
  · decide
  · decide

/-- C3, amended.  Trade price rule: for every trade `t` in the sequence
returned by `Match` there are a buy order `b` and a sell order `s` resting in
the book before the call with `b.ID = t.BuyOrderID`, `s.ID = t.SellOrderID`
and `t.Price = s.Price`, and `b.Price` is not below `t.Price`; when neither
price is NaN this is `t.Price ≤ b.Price`. -/
theorem C3_trade_price_rule (ob : OrderBook) (r : MatchResult) (h : ob.Match = some r) :
    ∀ t ∈ r.trades, ∃ b ∈ ob.buyOrders, ∃ s ∈ ob.sellOrders,
      b.ID = t.BuyOrderID ∧ s.ID = t.SellOrderID ∧ t.Price = s.Price ∧
        ¬ b.Price < t.Price ∧
        (b.Price.isNaN = false → t.Price.isNaN = false → t.Price ≤ b.Price) := by
  intro t ht
  obtain ⟨b, hb, s, hs, h1, h2, h3, h4⟩ :=
    matchLoop_trade_origin _ ob _ (Match_some ob r h).1 t ht
  refine ⟨b, hb, s, hs, h1, h2, h3, h4, ?_⟩
  intro hbn htn
  rw [F64.lt_def, Bool.not_eq_true] at h4
  exact F64.le_of_not_lt _ _ hbn htn h4

/-- C3 amended, on a book with two crossing pairs: both trades are made at
the sell price 100, below the buy prices 120 and 110. -/
theorem C3_trade_price_rule_witness :
    OrderBook.Match
        { buyOrders := [⟨"1", Buy, 120, 5⟩, ⟨"2", Buy, 110, 1⟩],
          sellOrders := [⟨"3", Sell, 100, 7⟩, ⟨"4", Sell, 130, 1⟩] } =
      some { trades := [⟨"1", "3", 100, 5⟩, ⟨"2", "3", 100, 1⟩], err := none,
             book := { buyOrders := [],
                       sellOrders := [⟨"3", Sell, 100, 1⟩, ⟨"4", Sell, 130, 1⟩] } } ∧
    ∀ t ∈ [(⟨"1", "3", 100, 5⟩ : Trade), ⟨"2", "3", 100, 1⟩],
      ∃ b ∈ [(⟨"1", Buy, 120, 5⟩ : Order), ⟨"2", Buy, 110, 1⟩],
      ∃ s ∈ [(⟨"3", Sell, 100, 7⟩ : Order), ⟨"4", Sell, 130, 1⟩],
        b.ID = t.BuyOrderID ∧ s.ID = t.SellOrderID ∧ t.Price = s.Price ∧
          ¬ b.Price < t.Price ∧
          (b.Price.isNaN = false → t.Price.isNaN = false → t.Price ≤ b.Price) :=
  ⟨by decide,
   C3_trade_price_rule
    { buyOrders := [⟨"1", Buy, 120, 5⟩, ⟨"2", Buy, 110, 1⟩],
      sellOrders := [⟨"3", Sell, 100, 7⟩, ⟨"4", Sell, 130, 1⟩] }
    { trades := [⟨"1", "3", 100, 5⟩, ⟨"2", "3", 100, 1⟩], err := none,
      book := { buyOrders := [],
                sellOrders := [⟨"3", Sell, 100, 1⟩, ⟨"4", Sell, 130, 1⟩] } }
    (by decide)⟩

/-- C4, as stated, fails: the two heads cross (100 against 100) and the buy
order's amount is NaN; `min` and both decrements are NaN, `NaN == 0` is false,
no head is ever sliced off, and `Match` does not return. -/
theorem C4_first_trade_counterexample :
    ((⟨"1", Buy, 100, F64.nan⟩ : Order).Price ≥ (⟨"2", Sell, 100, 1⟩ : Order).Price) ∧
      (∀ k, matchLoop k
        { buyOrders := [⟨"1", Buy, 100, F64.nan⟩],
          sellOrders := [⟨"2", Sell, 100, 1⟩] } = none) ∧
      OrderBook.Match
        { buyOrders := [⟨"1", Buy, 100, F64.nan⟩],
          sellOrders := [⟨"2", Sell, 100, 1⟩] } = none := by
  have hn : ∀ k, matchLoop k
      { buyOrders := [⟨"1", Buy, 100, F64.nan⟩],
        sellOrders := [⟨"2", Sell, 100, 1⟩] } = none :=
    fun k => matchLoop_nan_none k ⟨"1", Buy, 100, F64.nan⟩ [] ⟨"2", Sell, 100, 1⟩ []
      (by decide) (Or.inl rfl)
  exact ⟨by decide, hn, Match_none _ hn⟩

/-- C4, amended.  First trade of a crossing book: both collections are
non-empty and the first buy order's price is at least the first sell order's
price.  Whenever `Match` returns, the trade sequence is non-empty and its
first trade carries the first buy's ID, the first sell's ID, the first sell's
price and the smaller of the two amounts; and `Match` does return when all
resting amounts are finite. -/
theorem C4_first_trade (ob : OrderBook) (b s : Order)
    (hb : ob.buyOrders.head? = some b) (hs : ob.sellOrders.head? = some s)
    (hp : b.Price ≥ s.Price) :
    (∀ r, ob.Match = some r → r.trades ≠ [] ∧
      r.trades.head? = some
        { BuyOrderID := b.ID, SellOrderID := s.ID, Price := s.Price,
          Amount := min b.Amount s.Amount }) ∧
    (AllFinite ob.buyOrders → AllFinite ob.sellOrders → ∃ r, ob.Match = some r) := by
  refine ⟨?_, Match_total_of_finite ob⟩
  intro r hr
  have hl := (Match_some ob r hr).1
  have hnlt : ¬ b.Price < s.Price := by
    rw [F64.lt_def, Bool.not_eq_true]
    exact F64.not_lt_of_le _ _ hp
  obtain ⟨buys, sells⟩ := ob
  cases buys with
  | nil => simp at hb
  | cons b0 bs =>
    cases sells with
    | nil => simp at hs
    | cons s0 ss =>
      simp only [List.head?_cons, Option.some.injEq] at hb hs
      subst hb
      subst hs
      simp only [List.length_cons] at hl
      rw [matchLoop_cross _ b0 bs s0 ss hnlt] at hl
      cases hq : matchLoop (bs.length + 1 + (ss.length + 1)) (fill b0 bs s0 ss) with
      | none => rw [hq] at hl; simp at hl
      | some q =>
        rw [hq] at hl
        simp only [Option.map_some', Option.some.injEq, Prod.mk.injEq] at hl
        rw [← hl.1]
        exact ⟨List.cons_ne_nil _ _, rfl⟩

/-- C4 amended, on a book with two crossing pairs, together with the full
result of `Match` there. -/
theorem C4_first_trade_witness :
    OrderBook.Match
        { buyOrders := [⟨"1", Buy, 120, 5⟩, ⟨"2", Buy, 110, 1⟩],
          sellOrders := [⟨"3", Sell, 100, 7⟩, ⟨"4", Sell, 130, 1⟩] } =
      some { trades := [⟨"1", "3", 100, 5⟩, ⟨"2", "3", 100, 1⟩], err := none,
             book := { buyOrders := [],
                       sellOrders := [⟨"3", Sell, 100, 1⟩, ⟨"4", Sell, 130, 1⟩] } } ∧
    (∃ r, OrderBook.Match
        { buyOrders := [⟨"1", Buy, 120, 5⟩, ⟨"2", Buy, 110, 1⟩],
          sellOrders := [⟨"3", Sell, 100, 7⟩, ⟨"4", Sell, 130, 1⟩] } = some r) ∧
    (∀ r, OrderBook.Match
        { buyOrders := [⟨"1", Buy, 120, 5⟩, ⟨"2", Buy, 110, 1⟩],
          sellOrders := [⟨"3", Sell, 100, 7⟩, ⟨"4", Sell, 130, 1⟩] } = some r →
      r.trades ≠ [] ∧
      r.trades.head? = some
        { BuyOrderID := "1", SellOrderID := "3", Price := 100,
          Amount := min (5 : F64) 7 }) :=
  ⟨by decide,
   (C4_first_trade
    { buyOrders := [⟨"1", Buy, 120, 5⟩, ⟨"2", Buy, 110, 1⟩],
      sellOrders := [⟨"3", Sell, 100, 7⟩, ⟨"4", Sell, 130, 1⟩] }
    ⟨"1", Buy, 120, 5⟩ ⟨"3", Sell, 100, 7⟩ rfl rfl (by decide)).2
      (by unfold AllFinite; decide) (by unfold AllFinite; decide),
   (C4_first_trade
    { buyOrders := [⟨"1", Buy, 120, 5⟩, ⟨"2", Buy, 110, 1⟩],
      sellOrders := [⟨"3", Sell, 100, 7⟩, ⟨"4", Sell, 130, 1⟩] }
    ⟨"1", Buy, 120, 5⟩ ⟨"3", Sell, 100, 7⟩ rfl rfl (by decide)).1⟩

/-- C5. No crossing orders remain after `Match`: on a book whose buy
collection has non-increasing prices and whose sell collection has
non-decreasing prices, after `Match` returns one of the collections is empty
or every remaining buy price is strictly below every remaining sell price.
`Match` does return when all resting amounts are finite. -/
theorem C5_no_cross_left (ob : OrderBook)
    (hb : ob.buyOrders.Pairwise (fun a b => a.Price ≥ b.Price))
    (hs : ob.sellOrders.Pairwise (fun a b => a.Price ≤ b.Price)) :
    (∀ r, ob.Match = some r →
      (r.book.buyOrders = [] ∨ r.book.sellOrders = [] ∨
        ∀ b ∈ r.book.buyOrders, ∀ s ∈ r.book.sellOrders, b.Price < s.Price)) ∧
    (AllFinite ob.buyOrders → AllFinite ob.sellOrders → ∃ r, ob.Match = some r) :=
  ⟨fun r hr => matchLoop_no_cross_left _ ob _ (Match_some ob r hr).1 hb hs,
   Match_total_of_finite ob⟩

/-- C5 on a book with two crossing pairs where both collections keep an
order after `Match`, together with the full result of `Match` there. -/
theorem C5_no_cross_left_witness :
    OrderBook.Match
        { buyOrders := [⟨"1", Buy, 120, 5⟩, ⟨"2", Buy, 110, 4⟩, ⟨"5", Buy, 90, 1⟩],
          sellOrders := [⟨"3", Sell, 100, 7⟩, ⟨"4", Sell, 130, 1⟩] } =
      some { trades := [⟨"1", "3", 100, 5⟩, ⟨"2", "3", 100, 2⟩], err := none,
             book := { buyOrders := [⟨"2", Buy, 110, 2⟩, ⟨"5", Buy, 90, 1⟩],
                       sellOrders := [⟨"4", Sell, 130, 1⟩] } } ∧
    (∀ r, OrderBook.Match
        { buyOrders := [⟨"1", Buy, 120, 5⟩, ⟨"2", Buy, 110, 4⟩, ⟨"5", Buy, 90, 1⟩],
          sellOrders := [⟨"3", Sell, 100, 7⟩, ⟨"4", Sell, 130, 1⟩] } = some r →
      (r.book.buyOrders = [] ∨ r.book.sellOrders = [] ∨
        ∀ b ∈ r.book.buyOrders, ∀ s ∈ r.book.sellOrders, b.Price < s.Price)) :=
  ⟨by decide,
   (C5_no_cross_left
    { buyOrders := [⟨"1", Buy, 120, 5⟩, ⟨"2", Buy, 110, 4⟩, ⟨"5", Buy, 90, 1⟩],
      sellOrders := [⟨"3", Sell, 100, 7⟩, ⟨"4", Sell, 130, 1⟩] }
    (by decide) (by decide)).1⟩

/-- C6. No cross, no effect: when a collection is empty, or the first buy
order's price is strictly below the first sell order's price, `Match` returns
an empty trade sequence and no error and leaves both collections as they
were. -/
theorem C6_no_cross_no_effect (ob : OrderBook)
    (h : ob.buyOrders = [] ∨ ob.sellOrders = [] ∨
      ∃ b s, ob.buyOrders.head? = some b ∧ ob.sellOrders.head? = some s ∧
        b.Price < s.Price) :
    ob.Match = some { trades := [], err := none, book := ob } := by
  obtain ⟨buys, sells⟩ := ob
  unfold OrderBook.Match
  cases buys with
  | nil => simp only [matchLoop_stop_buy]; rfl
  | cons b0 bs =>
    cases sells with
    | nil => simp only [matchLoop_stop_sell]; rfl
    | cons s0 ss =>
      rcases h with h | h | ⟨b, s, hb, hs, hp⟩
      · simp at h
      · simp at h
      · simp only [List.head?_cons, Option.some.injEq] at hb hs
        subst hb
        subst hs
        simp only [matchLoop_break _ _ _ _ _ hp]
        rfl

/-- C6 on a book whose best buy (90) is below its best sell (100). -/
theorem C6_no_cross_no_effect_witness :
    OrderBook.Match
        { buyOrders := [⟨"1", Buy, 90, 5⟩], sellOrders := [⟨"2", Sell, 100, 7⟩] } =
      some { trades := [], err := none,
             book := { buyOrders := [⟨"1", Buy, 90, 5⟩],
                       sellOrders := [⟨"2", Sell, 100, 7⟩] } } :=
  C6_no_cross_no_effect
    { buyOrders := [⟨"1", Buy, 90, 5⟩], sellOrders := [⟨"2", Sell, 100, 7⟩] }
    (Or.inr (Or.inr ⟨⟨"1", Buy, 90, 5⟩, ⟨"2", Sell, 100, 7⟩, rfl, rfl, by decide⟩))

/-- C7, as stated, fails: buy orders priced 100, NaN and 200 (pairwise
distinct: `==` is false on each pair) are added one by one to a new book.  Every `Add` succeeds, but no
comparison with NaN holds, the sort leaves the orders as they came, and the
buy collection is not in strictly descending price. -/
theorem C7_ordering_after_adds_counterexample :
    (∀ o ∈ [(⟨"1", Buy, 100, 1⟩ : Order), ⟨"2", Buy, F64.nan, 1⟩, ⟨"3", Buy, 200, 1⟩],
        o.Typ = Buy) ∧
      [(⟨"1", Buy, 100, 1⟩ : Order), ⟨"2", Buy, F64.nan, 1⟩, ⟨"3", Buy, 200, 1⟩].Pairwise
        (fun a b => F64.eq a.Price b.Price = false) ∧
      addAll goSorter New
          [⟨"1", Buy, 100, 1⟩, ⟨"2", Buy, F64.nan, 1⟩, ⟨"3", Buy, 200, 1⟩] =
        ({ buyOrders := [⟨"1", Buy, 100, 1⟩, ⟨"2", Buy, F64.nan, 1⟩, ⟨"3", Buy, 200, 1⟩],
           sellOrders := [] }, [none, none, none]) ∧
      ¬ (addAll goSorter New
          [⟨"1", Buy, 100, 1⟩, ⟨"2", Buy, F64.nan, 1⟩, ⟨"3", Buy, 200, 1⟩]).1.Get.1.Pairwise
        (fun a b => a.Price > b.Price) := by
  refine ⟨by decide, by decide, by decide, by decide⟩

/-- C7, amended.  Ordering after adds: a finite list of Buy orders whose
prices are not NaN and pairwise different (as `float64` values, so `-0` and
`+0` count as equal) is added one by one to a new book.  Every `Add` succeeds,
`Get()` returns an empty sell collection, and the buy collection is a
rearrangement of the added orders in strictly descending price, which is the
only such rearrangement. -/
theorem C7_ordering_after_adds (S : SliceSorter) (orders : List Order)
    (hbuy : ∀ o ∈ orders, o.Typ = Buy)
    (hn : ∀ o ∈ orders, o.Price.isNaN = false)
    (hd : orders.Pairwise (fun a b => F64.eq a.Price b.Price = false)) :
    (∀ e ∈ (addAll S New orders).2, e = none) ∧
      (addAll S New orders).2.length = orders.length ∧
      (addAll S New orders).1.Get.2 = [] ∧
      (addAll S New orders).1.Get.1.Perm orders ∧
      (addAll S New orders).1.Get.1.Pairwise (fun a b => a.Price > b.Price) ∧
      ∀ l : List Order, l.Perm orders → l.Pairwise (fun a b => a.Price > b.Price) →
        (addAll S New orders).1.Get.1 = l := by
  obtain ⟨h1, h2, h3, h4, h5⟩ := addAll_buys S orders hbuy New
  have h4n : (addAll S New orders).1.buyOrders.Perm orders := by simpa [New] using h4
  have hsorted : BuysSorted (addAll S New orders).1.buyOrders :=
    h5 (fun x hx => by simp [New] at hx) hn List.Pairwise.nil
  have hdist : (addAll S New orders).1.buyOrders.Pairwise
      (fun a b => F64.eq a.Price b.Price = false) :=
    (List.Perm.pairwise_iff
      (fun {a b} (h : F64.eq a.Price b.Price = false) => by
        rw [F64.eq_comm]; exact h) h4n).mpr hd
  have hstrict : (addAll S New orders).1.buyOrders.Pairwise (fun a b => a.Price > b.Price) :=
    (List.Pairwise.and hsorted hdist).imp (fun {a b} h =>
      F64.lt_of_le_of_ne b.Price a.Price h.1 (by rw [F64.eq_comm]; exact h.2))
  refine ⟨h1, h2, h3, h4n, hstrict, ?_⟩
  intro l hl hls
  haveI : IsAntisymm Order (fun a b => a.Price > b.Price) :=
    ⟨fun a b hab hba => by
      have := F64.lt_asymm _ _ hab
      rw [gt_iff_lt, F64.lt_def, this] at hba
      cases hba⟩
  exact List.eq_of_perm_of_sorted (h4n.trans hl.symm) hstrict hls

/-- C7 amended, on the test suite's orders: prices 100, 200, 150 with IDs
"1", "2", "3" come out as "2", "3", "1". -/
theorem C7_ordering_after_adds_witness :
    ((addAll goSorter New
        [⟨"1", Buy, 100, 1⟩, ⟨"2", Buy, 200, 1⟩, ⟨"3", Buy, 150, 1⟩]).1.Get.1.map
          (fun o => o.ID) = ["2", "3", "1"]) ∧
      (addAll goSorter New
        [⟨"1", Buy, 100, 1⟩, ⟨"2", Buy, 200, 1⟩, ⟨"3", Buy, 150, 1⟩]).2 =
          [none, none, none] ∧
      (addAll goSorter New
        [⟨"1", Buy, 100, 1⟩, ⟨"2", Buy, 200, 1⟩, ⟨"3", Buy, 150, 1⟩]).1.Get.2 = [] ∧
      (addAll goSorter New
        [⟨"1", Buy, 100, 1⟩, ⟨"2", Buy, 200, 1⟩, ⟨"3", Buy, 150, 1⟩]).1.Get.1.Pairwise
          (fun a b => a.Price > b.Price) := by
  have h := C7_ordering_after_adds goSorter
    [⟨"1", Buy, 100, 1⟩, ⟨"2", Buy, 200, 1⟩, ⟨"3", Buy, 150, 1⟩]
    (by decide) (by decide) (by decide)
  exact ⟨by decide, by decide, h.2.2.1, h.2.2.2.2.1⟩

/-- C8. `Add` inserts into the right side only: for an order of type Buy,
`Add` returns no error, the new buy collection is a permutation of the old one
with the order appended (so it is longer by exactly one) and the sell
collection is unchanged; symmetrically for an order of type Sell. -/
theorem C8_add_right_side_only (S : SliceSorter) (ob : OrderBook) (o : Order) :
    (o.Typ = Buy →
      (ob.Add S o).2 = none ∧
      (ob.Add S o).1.buyOrders.Perm (ob.buyOrders ++ [o]) ∧
      (ob.Add S o).1.buyOrders.length = ob.buyOrders.length + 1 ∧
      (ob.Add S o).1.sellOrders = ob.sellOrders) ∧
    (o.Typ = Sell →
      (ob.Add S o).2 = none ∧
      (ob.Add S o).1.sellOrders.Perm (ob.sellOrders ++ [o]) ∧
      (ob.Add S o).1.sellOrders.length = ob.sellOrders.length + 1 ∧
      (ob.Add S o).1.buyOrders = ob.buyOrders) := by
  constructor
  · intro h
    rw [Add_buy S ob o h]
    refine ⟨rfl, S.perm _ _, ?_, rfl⟩
    simpa using (S.perm (fun a b => decide (a.Price > b.Price)) (ob.buyOrders ++ [o])).length_eq
  · intro h
    rw [Add_sell S ob o h]
    refine ⟨rfl, S.perm _ _, ?_, rfl⟩
    simpa using (S.perm (fun a b => decide (a.Price < b.Price)) (ob.sellOrders ++ [o])).length_eq

/-- C8 on a book with two buys and one sell, for a Buy order that sorts in
between and for a Sell order that sorts in front. -/
theorem C8_add_right_side_only_witness :
    (OrderBook.Add goSorter
        { buyOrders := [⟨"2", Buy, 200, 1⟩, ⟨"1", Buy, 100, 1⟩],
          sellOrders := [⟨"4", Sell, 300, 2⟩] }
        ⟨"3", Buy, 150, 1⟩ =
      ({ buyOrders := [⟨"2", Buy, 200, 1⟩, ⟨"3", Buy, 150, 1⟩, ⟨"1", Buy, 100, 1⟩],
         sellOrders := [⟨"4", Sell, 300, 2⟩] }, none)) ∧
    (OrderBook.Add goSorter
        { buyOrders := [⟨"2", Buy, 200, 1⟩, ⟨"1", Buy, 100, 1⟩],
          sellOrders := [⟨"4", Sell, 300, 2⟩] }
        ⟨"3", Buy, 150, 1⟩).1.buyOrders.Perm
      ([⟨"2", Buy, 200, 1⟩, ⟨"1", Buy, 100, 1⟩] ++ [⟨"3", Buy, 150, 1⟩]) ∧
    (OrderBook.Add goSorter
        { buyOrders := [⟨"2", Buy, 200, 1⟩, ⟨"1", Buy, 100, 1⟩],
          sellOrders := [⟨"4", Sell, 300, 2⟩] }
        ⟨"5", Sell, 250, 1⟩).1.sellOrders.Perm
      ([⟨"4", Sell, 300, 2⟩] ++ [⟨"5", Sell, 250, 1⟩]) :=
  ⟨by decide,
   ((C8_add_right_side_only goSorter
      { buyOrders := [⟨"2", Buy, 200, 1⟩, ⟨"1", Buy, 100, 1⟩],
        sellOrders := [⟨"4", Sell, 300, 2⟩] } ⟨"3", Buy, 150, 1⟩).1 rfl).2.1,
   ((C8_add_right_side_only goSorter
      { buyOrders := [⟨"2", Buy, 200, 1⟩, ⟨"1", Buy, 100, 1⟩],
        sellOrders := [⟨"4", Sell, 300, 2⟩] } ⟨"5", Sell, 250, 1⟩).2 rfl).2.1⟩

/-- C9. Invalid type rejected atomically: `Add` fails if and only if the
order's type is neither "buy" nor "sell"; when it fails the error carries the
order's ID and the reason "invalid order type: " followed by the type, and
both collections are as before the call. -/
theorem C9_invalid_type_rejected (S : SliceSorter) (ob : OrderBook) (o : Order) :
    ((ob.Add S o).2 ≠ none ↔ (o.Typ ≠ "buy" ∧ o.Typ ≠ "sell")) ∧
    ((ob.Add S o).2 ≠ none →
      (ob.Add S o).2 = some { ID := o.ID, Reason := "invalid order type: " ++ o.Typ } ∧
      (ob.Add S o).1.buyOrders = ob.buyOrders ∧
      (ob.Add S o).1.sellOrders = ob.sellOrders) := by
  by_cases hb : o.Typ = Buy
  · rw [Add_buy S ob o hb]
    exact ⟨⟨fun h => absurd rfl h, fun h => absurd hb h.1⟩, fun h => absurd rfl h⟩
  · by_cases hs : o.Typ = Sell
    · rw [Add_sell S ob o hs]
      exact ⟨⟨fun h => absurd rfl h, fun h => absurd hs h.2⟩, fun h => absurd rfl h⟩
    · rw [Add_invalid S ob o hb hs]
      exact ⟨⟨fun _ => ⟨hb, hs⟩, fun _ => by simp⟩, fun _ => ⟨rfl, rfl, rfl⟩⟩

/-- C9 on an order of type "invalid". -/
theorem C9_invalid_type_rejected_witness :
    (OrderBook.Add goSorter
        { buyOrders := [⟨"1", Buy, 100, 1⟩], sellOrders := [⟨"2", Sell, 300, 2⟩] }
        ⟨"7", "invalid", 10, 1⟩).2 =
      some { ID := "7", Reason := "invalid order type: invalid" } ∧
    (OrderBook.Add goSorter
        { buyOrders := [⟨"1", Buy, 100, 1⟩], sellOrders := [⟨"2", Sell, 300, 2⟩] }
        ⟨"7", "invalid", 10, 1⟩).1.buyOrders = [⟨"1", Buy, 100, 1⟩] ∧
    (OrderBook.Add goSorter
        { buyOrders := [⟨"1", Buy, 100, 1⟩], sellOrders := [⟨"2", Sell, 300, 2⟩] }
        ⟨"7", "invalid", 10, 1⟩).1.sellOrders = [⟨"2", Sell, 300, 2⟩] :=
  (C9_invalid_type_rejected goSorter
    { buyOrders := [⟨"1", Buy, 100, 1⟩], sellOrders := [⟨"2", Sell, 300, 2⟩] }
    ⟨"7", "invalid", 10, 1⟩).2 (by decide)

/-- C10. `Cancel` fails exactly when the ID is absent: it returns an error if
and only if no order of the sell collection and no order of the buy collection
carries the ID; the error then has that ID and the reason "not found", and
both collections are as before the call. -/
theorem C10_cancel_fails_iff_absent (ob : OrderBook) (orderID : String) :
    ((ob.Cancel orderID).2 ≠ none ↔
      ((∀ o ∈ ob.sellOrders, o.ID ≠ orderID) ∧ (∀ o ∈ ob.buyOrders, o.ID ≠ orderID))) ∧
    ((ob.Cancel orderID).2 ≠ none →
      (ob.Cancel orderID).2 = some { ID := orderID, Reason := "not found" } ∧
      (ob.Cancel orderID).1.buyOrders = ob.buyOrders ∧
      (ob.Cancel orderID).1.sellOrders = ob.sellOrders) := by
  cases hs : ob.sellOrders.findIdx? (fun o => o.ID == orderID) with
  | some i =>
    rw [Cancel_found_sell ob orderID i hs]
    refine ⟨⟨fun h => absurd rfl h, fun h => ?_⟩, fun h => absurd rfl h⟩
    have := (findIdx_none_iff ob.sellOrders orderID).mpr h.1
    rw [hs] at this
    cases this
  | none =>
    cases hb : ob.buyOrders.findIdx? (fun o => o.ID == orderID) with
    | some i =>
      rw [Cancel_found_buy ob orderID i hs hb]
      refine ⟨⟨fun h => absurd rfl h, fun h => ?_⟩, fun h => absurd rfl h⟩
      have := (findIdx_none_iff ob.buyOrders orderID).mpr h.2
      rw [hb] at this
      cases this
    | none =>
      rw [Cancel_absent ob orderID hs hb]
      exact ⟨⟨fun _ => ⟨(findIdx_none_iff _ _).mp hs, (findIdx_none_iff _ _).mp hb⟩,
        fun _ => by simp⟩, fun _ => ⟨rfl, rfl, rfl⟩⟩

/-- C10 on the test suite's call: `Cancel("1")` on a new book. -/
theorem C10_cancel_fails_iff_absent_witness :
    (New.Cancel "1").2 = some { ID := "1", Reason := "not found" } ∧
      (New.Cancel "1").1.buyOrders = New.buyOrders ∧
      (New.Cancel "1").1.sellOrders = New.sellOrders :=
  (C10_cancel_fails_iff_absent New "1").2 (by decide)

/-- C11. `Cancel` removes exactly one order, sell side first.  When some
resting order carries the ID, `Cancel` returns no error.  If the sell
collection holds the ID, the sell collection loses its first order with that
ID, the orders before and after it staying as they were and in place, and the
buy collection is unchanged; otherwise the same happens to the buy collection
and the sell collection is unchanged. -/
theorem C11_cancel_removes_one (ob : OrderBook) (orderID : String)
    (h : (∃ x ∈ ob.sellOrders, x.ID = orderID) ∨ (∃ x ∈ ob.buyOrders, x.ID = orderID)) :
    (ob.Cancel orderID).2 = none ∧
    ((∃ x ∈ ob.sellOrders, x.ID = orderID) →
      (∃ l1 x l2, ob.sellOrders = l1 ++ x :: l2 ∧ x.ID = orderID ∧
        (∀ y ∈ l1, y.ID ≠ orderID) ∧ (ob.Cancel orderID).1.sellOrders = l1 ++ l2) ∧
      (ob.Cancel orderID).1.buyOrders = ob.buyOrders) ∧
    ((¬ ∃ x ∈ ob.sellOrders, x.ID = orderID) →
      (∃ l1 x l2, ob.buyOrders = l1 ++ x :: l2 ∧ x.ID = orderID ∧
        (∀ y ∈ l1, y.ID ≠ orderID) ∧ (ob.Cancel orderID).1.buyOrders = l1 ++ l2) ∧
      (ob.Cancel orderID).1.sellOrders = ob.sellOrders) := by
  by_cases hs : ∃ x ∈ ob.sellOrders, x.ID = orderID
  · obtain ⟨l1, x, l2, e1, e2, e3, e4, e5⟩ := findIdx_split ob.sellOrders orderID hs
    rw [Cancel_found_sell ob orderID l1.length e4]
    exact ⟨rfl, fun _ => ⟨⟨l1, x, l2, e1, e2, e3, e5⟩, rfl⟩, fun hn => absurd hs hn⟩
  · have hb : ∃ x ∈ ob.buyOrders, x.ID = orderID := by
      rcases h with h | h
      · exact absurd h hs
      · exact h
    have hsn : ob.sellOrders.findIdx? (fun o => o.ID == orderID) = none := by
      rw [findIdx_none_iff]
      intro o ho e
      exact hs ⟨o, ho, e⟩
    obtain ⟨l1, x, l2, e1, e2, e3, e4, e5⟩ := findIdx_split ob.buyOrders orderID hb
    rw [Cancel_found_buy ob orderID l1.length hsn e4]
    exact ⟨rfl, fun hn => absurd hn hs, fun _ => ⟨⟨l1, x, l2, e1, e2, e3, e5⟩, rfl⟩⟩

/-- C11 on a book where the ID "7" is carried by the second and third sell
orders and by a buy order: the second sell order goes, nothing else moves. -/
theorem C11_cancel_removes_one_witness :
    OrderBook.Cancel
        { buyOrders := [⟨"7", Buy, 90, 1⟩, ⟨"1", Buy, 80, 1⟩],
          sellOrders := [⟨"2", Sell, 100, 1⟩, ⟨"7", Sell, 110, 2⟩, ⟨"7", Sell, 120, 3⟩] }
        "7" =
      ({ buyOrders := [⟨"7", Buy, 90, 1⟩, ⟨"1", Buy, 80, 1⟩],
         sellOrders := [⟨"2", Sell, 100, 1⟩, ⟨"7", Sell, 120, 3⟩] }, none) ∧
    (OrderBook.Cancel
        { buyOrders := [⟨"7", Buy, 90, 1⟩, ⟨"1", Buy, 80, 1⟩],
          sellOrders := [⟨"2", Sell, 100, 1⟩, ⟨"7", Sell, 110, 2⟩, ⟨"7", Sell, 120, 3⟩] }
        "7").2 = none :=
  ⟨by decide,
   (C11_cancel_removes_one
      { buyOrders := [⟨"7", Buy, 90, 1⟩, ⟨"1", Buy, 80, 1⟩],
        sellOrders := [⟨"2", Sell, 100, 1⟩, ⟨"7", Sell, 110, 2⟩, ⟨"7", Sell, 120, 3⟩] }
      "7" (Or.inl ⟨⟨"7", Sell, 110, 2⟩, by decide, rfl⟩)).1⟩

/-- C12. `Add` then `Cancel` undoes the add: for an order of type Buy or Sell
whose ID is carried by no order already in the book, `Add` and the following
`Cancel` of that ID both succeed; afterwards no order with that ID is in
either collection returned by `Get()`, and each collection is a rearrangement
of what it was before the `Add`. -/
theorem C12_add_then_cancel (S : SliceSorter) (ob : OrderBook) (o : Order)
    (ht : o.Typ = Buy ∨ o.Typ = Sell)
    (hb : ∀ x ∈ ob.buyOrders, x.ID ≠ o.ID) (hs : ∀ x ∈ ob.sellOrders, x.ID ≠ o.ID) :
    (ob.Add S o).2 = none ∧ ((ob.Add S o).1.Cancel o.ID).2 = none ∧
    (∀ x ∈ ((ob.Add S o).1.Cancel o.ID).1.Get.1, x.ID ≠ o.ID) ∧
    (∀ x ∈ ((ob.Add S o).1.Cancel o.ID).1.Get.2, x.ID ≠ o.ID) ∧
    ((ob.Add S o).1.Cancel o.ID).1.Get.1.Perm ob.buyOrders ∧
    ((ob.Add S o).1.Cancel o.ID).1.Get.2.Perm ob.sellOrders := by
  rcases ht with ht | ht
  · obtain ⟨i, hi, hperm⟩ :=
      erase_fresh (S.sort (fun a b => decide (a.Price > b.Price)) (ob.buyOrders ++ [o]))
        ob.buyOrders o (S.perm _ _) hb
    have hsn : ob.sellOrders.findIdx? (fun x => x.ID == o.ID) = none :=
      (findIdx_none_iff _ _).mpr hs
    have hc := Cancel_found_buy
      { buyOrders := S.sort (fun a b => decide (a.Price > b.Price)) (ob.buyOrders ++ [o]),
        sellOrders := ob.sellOrders } o.ID i hsn hi
    rw [Add_buy S ob o ht]
    dsimp only
    rw [hc]
    exact ⟨rfl, rfl, fun x hx => hb x (hperm.subset hx), hs, hperm, List.Perm.refl _⟩
  · obtain ⟨i, hi, hperm⟩ :=
      erase_fresh (S.sort (fun a b => decide (a.Price < b.Price)) (ob.sellOrders ++ [o]))
        ob.sellOrders o (S.perm _ _) hs
    have hc := Cancel_found_sell
      { buyOrders := ob.buyOrders,
        sellOrders := S.sort (fun a b => decide (a.Price < b.Price)) (ob.sellOrders ++ [o]) }
      o.ID i hi
    rw [Add_sell S ob o ht]
    dsimp only
    rw [hc]
    exact ⟨rfl, rfl, hb, fun x hx => hs x (hperm.subset hx), List.Perm.refl _, hperm⟩

/-- C12 on the test suite's calls, `Add` of the buy order "1" and
`Cancel("1")` on a new book, and on a book that already holds orders. -/
theorem C12_add_then_cancel_witness :
    ((New.Add goSorter ⟨"1", Buy, 100, 1⟩).1.Cancel "1") = (New, none) ∧
    ((OrderBook.Add goSorter
        { buyOrders := [⟨"2", Buy, 200, 1⟩, ⟨"3", Buy, 100, 1⟩],
          sellOrders := [⟨"4", Sell, 300, 2⟩] }
        ⟨"1", Buy, 150, 1⟩).1.Cancel "1") =
      ({ buyOrders := [⟨"2", Buy, 200, 1⟩, ⟨"3", Buy, 100, 1⟩],
         sellOrders := [⟨"4", Sell, 300, 2⟩] }, none) ∧
    ((New.Add goSorter ⟨"1", Buy, 100, 1⟩).1.Cancel "1").1.Get.1.Perm New.buyOrders :=
  ⟨by decide, by decide,
   (C12_add_then_cancel goSorter New ⟨"1", Buy, 100, 1⟩ (Or.inl rfl)
      (by decide) (by decide)).2.2.2.2.1⟩

/-- C13, as stated, fails: a buy order with amount zero is added to a new
book, then a sell order at a higher price; `Match` finds no cross and the
zero-amount order is still resting afterwards. -/
theorem C13_zero_amount_counterexample :
    OrderBook.Match
        ((New.Add goSorter ⟨"1", Buy, 50, 0⟩).1.Add goSorter ⟨"2", Sell, 100, 1⟩).1 =
      some { trades := [], err := none,
             book := { buyOrders := [⟨"1", Buy, 50, 0⟩],
                       sellOrders := [⟨"2", Sell, 100, 1⟩] } } ∧
    ∃ r, OrderBook.Match
        ((New.Add goSorter ⟨"1", Buy, 50, 0⟩).1.Add goSorter ⟨"2", Sell, 100, 1⟩).1 =
          some r ∧
      ∃ x ∈ r.book.buyOrders, F64.eq x.Amount 0 = true := by
  have hm : OrderBook.Match
      ((New.Add goSorter ⟨"1", Buy, 50, 0⟩).1.Add goSorter ⟨"2", Sell, 100, 1⟩).1 =
      some { trades := [], err := none,
             book := { buyOrders := [⟨"1", Buy, 50, 0⟩],
                       sellOrders := [⟨"2", Sell, 100, 1⟩] } } := by
    decide
  exact ⟨hm, _, hm, ⟨"1", Buy, 50, 0⟩, by simp, by decide⟩

/-- C13, amended.  Whenever `Match` returns, an order whose amount is zero
(`Amount == 0`) remains in a collection only if that very order, with amount
zero, was resting in that collection before the call; so on a book without
zero-amount orders none remains after `Match`.  `Match` does return when all
resting amounts are finite. -/
theorem C13_zero_amount_amended (ob : OrderBook) :
    (∀ r, ob.Match = some r →
      (∀ x ∈ r.book.buyOrders, F64.eq x.Amount 0 = true → x ∈ ob.buyOrders) ∧
      (∀ x ∈ r.book.sellOrders, F64.eq x.Amount 0 = true → x ∈ ob.sellOrders) ∧
      ((∀ x ∈ ob.buyOrders, F64.eq x.Amount 0 = false) →
        (∀ x ∈ ob.sellOrders, F64.eq x.Amount 0 = false) →
          (∀ x ∈ r.book.buyOrders, F64.eq x.Amount 0 = false) ∧
            (∀ x ∈ r.book.sellOrders, F64.eq x.Amount 0 = false))) ∧
    (AllFinite ob.buyOrders → AllFinite ob.sellOrders → ∃ r, ob.Match = some r) := by
  refine ⟨?_, Match_total_of_finite ob⟩
  intro r hr
  have h := matchLoop_zero_origin _ ob _ (Match_some ob r hr).1
  refine ⟨h.1, h.2, fun hb hs => ⟨fun x hx => ?_, fun x hx => ?_⟩⟩
  · cases hz : F64.eq x.Amount 0 with
    | false => rfl
    | true => rw [hb x (h.1 x hx hz)] at hz; cases hz
  · cases hz : F64.eq x.Amount 0 with
    | false => rfl
    | true => rw [hs x (h.2 x hx hz)] at hz; cases hz

/-- C13 amended, on a book without zero-amount orders where `Match` fills one
sell order and one buy order down to zero: both are gone afterwards. -/
theorem C13_zero_amount_amended_witness :
    OrderBook.Match
        { buyOrders := [⟨"1", Buy, 120, 5⟩, ⟨"2", Buy, 110, 4⟩],
          sellOrders := [⟨"3", Sell, 100, 7⟩] } =
      some { trades := [⟨"1", "3", 100, 5⟩, ⟨"2", "3", 100, 2⟩], err := none,
             book := { buyOrders := [⟨"2", Buy, 110, 2⟩], sellOrders := [] } } ∧
    (∀ r, OrderBook.Match
        { buyOrders := [⟨"1", Buy, 120, 5⟩, ⟨"2", Buy, 110, 4⟩],
          sellOrders := [⟨"3", Sell, 100, 7⟩] } = some r →
      (∀ x ∈ r.book.buyOrders, F64.eq x.Amount 0 = false) ∧
      (∀ x ∈ r.book.sellOrders, F64.eq x.Amount 0 = false)) ∧
    ∃ r, OrderBook.Match
        { buyOrders := [⟨"1", Buy, 120, 5⟩, ⟨"2", Buy, 110, 4⟩],
          sellOrders := [⟨"3", Sell, 100, 7⟩] } = some r :=
  ⟨by decide,
   fun r hr => ((C13_zero_amount_amended
      { buyOrders := [⟨"1", Buy, 120, 5⟩, ⟨"2", Buy, 110, 4⟩],
        sellOrders := [⟨"3", Sell, 100, 7⟩] }).1 r hr).2.2 (by decide) (by decide),
   (C13_zero_amount_amended
      { buyOrders := [⟨"1", Buy, 120, 5⟩, ⟨"2", Buy, 110, 4⟩],
        sellOrders := [⟨"3", Sell, 100, 7⟩] }).2
      (by unfold AllFinite; decide) (by unfold AllFinite; decide)⟩

/-- C14. Order identity persists across fills: on a book whose resting
amounts are all non-negative `float64` values (`+Inf` included), whenever
`Match` returns each collection is a suffix of what it was before the call,
every order identical to its earlier self except possibly the first remaining
one, which keeps its ID, type and price and has an amount not above its
earlier amount.  `Match` does return when all resting amounts are finite. -/
theorem C14_identity_persists (ob : OrderBook)
    (hb : ∀ x ∈ ob.buyOrders, x.Amount.Valid ∧ (0 : F64) ≤ x.Amount)
    (hs : ∀ x ∈ ob.sellOrders, x.Amount.Valid ∧ (0 : F64) ≤ x.Amount) :
    (∀ r, ob.Match = some r →
      (∃ n, r.book.buyOrders = ob.buyOrders.drop n ∨
        ∃ x y rest, ob.buyOrders.drop n = x :: rest ∧ r.book.buyOrders = y :: rest ∧
          y.ID = x.ID ∧ y.Typ = x.Typ ∧ y.Price = x.Price ∧ y.Amount ≤ x.Amount) ∧
      (∃ n, r.book.sellOrders = ob.sellOrders.drop n ∨
        ∃ x y rest, ob.sellOrders.drop n = x :: rest ∧ r.book.sellOrders = y :: rest ∧
          y.ID = x.ID ∧ y.Typ = x.Typ ∧ y.Price = x.Price ∧ y.Amount ≤ x.Amount)) ∧
    (AllFinite ob.buyOrders → AllFinite ob.sellOrders → ∃ r, ob.Match = some r) :=
  ⟨fun r hr => matchLoop_filledSuffix _ ob _ (Match_some ob r hr).1 hb hs,
   Match_total_of_finite ob⟩

/-- C14 on a book where the first buy order is used up and the second one is
partly filled, and the only crossing sell order is used up. -/
theorem C14_identity_persists_witness :
    OrderBook.Match
        { buyOrders := [⟨"1", Buy, 120, 5⟩, ⟨"2", Buy, 110, 4⟩, ⟨"5", Buy, 90, 1⟩],
          sellOrders := [⟨"3", Sell, 100, 7⟩, ⟨"4", Sell, 130, 1⟩] } =
      some { trades := [⟨"1", "3", 100, 5⟩, ⟨"2", "3", 100, 2⟩], err := none,
             book := { buyOrders := [⟨"2", Buy, 110, 2⟩, ⟨"5", Buy, 90, 1⟩],
                       sellOrders := [⟨"4", Sell, 130, 1⟩] } } ∧
    (∀ r, OrderBook.Match
        { buyOrders := [⟨"1", Buy, 120, 5⟩, ⟨"2", Buy, 110, 4⟩, ⟨"5", Buy, 90, 1⟩],
          sellOrders := [⟨"3", Sell, 100, 7⟩, ⟨"4", Sell, 130, 1⟩] } = some r →
      FilledSuffix [⟨"1", Buy, 120, 5⟩, ⟨"2", Buy, 110, 4⟩, ⟨"5", Buy, 90, 1⟩]
        r.book.buyOrders ∧
      FilledSuffix [⟨"3", Sell, 100, 7⟩, ⟨"4", Sell, 130, 1⟩] r.book.sellOrders) :=
  ⟨by decide,
   (C14_identity_persists
    { buyOrders := [⟨"1", Buy, 120, 5⟩, ⟨"2", Buy, 110, 4⟩, ⟨"5", Buy, 90, 1⟩],
      sellOrders := [⟨"3", Sell, 100, 7⟩, ⟨"4", Sell, 130, 1⟩] }
    (by decide) (by decide)).1⟩

/-- C15. `Match` never fails: whenever `Match` returns, the error it returns
is `nil`; and it does return, with a `nil` error, on every book whose resting
amounts are all finite. -/
theorem C15_match_never_fails (ob : OrderBook) :
    (∀ r, ob.Match = some r → r.err = none) ∧
    (AllFinite ob.buyOrders → AllFinite ob.sellOrders →
      ∃ r, ob.Match = some r ∧ r.err = none) := by
  refine ⟨fun r hr => (Match_some ob r hr).2, fun hb hs => ?_⟩
  obtain ⟨r, hr⟩ := Match_total_of_finite ob hb hs
  exact ⟨r, hr, (Match_some ob r hr).2⟩

/-- C15 on the book of the test suite's exact match (100 at 100 against 100
at 100). -/
theorem C15_match_never_fails_witness :
    (∀ r, OrderBook.Match
        { buyOrders := [⟨"1", Buy, 100, 100⟩],
          sellOrders := [⟨"2", Sell, 100, 100⟩] } = some r → r.err = none) ∧
    ∃ r, OrderBook.Match
        { buyOrders := [⟨"1", Buy, 100, 100⟩],
          sellOrders := [⟨"2", Sell, 100, 100⟩] } = some r ∧ r.err = none :=
  ⟨(C15_match_never_fails
      { buyOrders := [⟨"1", Buy, 100, 100⟩], sellOrders := [⟨"2", Sell, 100, 100⟩] }).1,
   (C15_match_never_fails
      { buyOrders := [⟨"1", Buy, 100, 100⟩], sellOrders := [⟨"2", Sell, 100, 100⟩] }).2
      (by unfold AllFinite; decide) (by unfold AllFinite; decide)⟩

/-- C16. Error text format: `Error()` renders an `OrderError` as
"Order(id=" followed by the ID, ") " and the reason; so the error of a failed
`Cancel` renders as "Order(id=<id>) not found" and the error of a rejected
`Add` as "Order(id=<ID>) invalid order type: <Type>". -/
theorem C16_error_text (S : SliceSorter) (ob : OrderBook) (o : Order) (orderID : String)
    (e : OrderError) :
    e.Error = "Order(id=" ++ e.ID ++ ") " ++ e.Reason ∧
    ((ob.Cancel orderID).2 = some e → e.Error = "Order(id=" ++ orderID ++ ") not found") ∧
    ((ob.Add S o).2 = some e →
      e.Error = "Order(id=" ++ o.ID ++ ") invalid order type: " ++ o.Typ) := by
  refine ⟨rfl, ?_, ?_⟩
  · intro h
    cases hs : ob.sellOrders.findIdx? (fun x => x.ID == orderID) with
    | some i => rw [Cancel_found_sell ob orderID i hs] at h; cases h
    | none =>
      cases hb : ob.buyOrders.findIdx? (fun x => x.ID == orderID) with
      | some i => rw [Cancel_found_buy ob orderID i hs hb] at h; cases h
      | none =>
        rw [Cancel_absent ob orderID hs hb] at h
        simp only [Option.some.injEq] at h
        subst h
        simp only [OrderError.Error, String.append_assoc]
        rfl
  · intro h
    by_cases hb : o.Typ = Buy
    · rw [Add_buy S ob o hb] at h; cases h
    · by_cases hs : o.Typ = Sell
      · rw [Add_sell S ob o hs] at h; cases h
      · rw [Add_invalid S ob o hb hs] at h
        simp only [Option.some.injEq] at h
        subst h
        simp only [OrderError.Error, String.append_assoc]
        rfl

/-- C16 on the error of `Cancel("1")` on a new book and on the error of an
`Add` with type "invalid". -/
theorem C16_error_text_witness :
    (∀ e, (New.Cancel "1").2 = some e → e.Error = "Order(id=1) not found") ∧
    (∀ e, (New.Add goSorter ⟨"7", "invalid", 10, 1⟩).2 = some e →
      e.Error = "Order(id=7) invalid order type: invalid") ∧
    (New.Cancel "1").2 = some ⟨"1", "not found"⟩ ∧
    (New.Add goSorter ⟨"7", "invalid", 10, 1⟩).2 =
      some ⟨"7", "invalid order type: invalid"⟩ :=
  ⟨fun e h => (C16_error_text goSorter New ⟨"7", "invalid", 10, 1⟩ "1" e).2.1 h,
   fun e h => (C16_error_text goSorter New ⟨"7", "invalid", 10, 1⟩ "1" e).2.2 h,
   by decide, by decide⟩

/-- A run in which a difference is rounded.  The `float64` values nearest to
100.1, 0.3 and 99.8 are `3521955646092083 * 2^-45`, `5404319552844595 * 2^-54`
and `7022800668930867 * 2^-46`.  A buy of amount 100.1 meets sells of amounts
0.3 and 99.8: `100.1 - 0.3` is rounded to 99.8, so the second pass uses up
both orders and both collections end empty. -/
theorem Match_rounded_run :
    OrderBook.Match
        { buyOrders := [⟨"1", Buy, 100, F64.fin false (3521955646092083 * 2 ^ 1029)⟩],
          sellOrders := [⟨"2", Sell, 100, F64.fin false (5404319552844595 * 2 ^ 1020)⟩,
                         ⟨"3", Sell, 100, F64.fin false (7022800668930867 * 2 ^ 1028)⟩] } =
      some { trades := [⟨"1", "2", 100, F64.fin false (5404319552844595 * 2 ^ 1020)⟩,
                        ⟨"1", "3", 100, F64.fin false (7022800668930867 * 2 ^ 1028)⟩],
             err := none,
             book := { buyOrders := [], sellOrders := [] } } := by
  decide

/-- C17, as stated, fails: a buy order of amount 1e17 meets a sell order of
amount 1 at price 100.  `Match` returns one trade of amount 1 and the sell
order is gone, but `1e17 - 1` rounds back to `1e17`, so the buy side has not
changed: the traded amount (1) is not the decrease of the buy side (0). -/
theorem C17_quantity_conservation_counterexample :
    OrderBook.Match
        { buyOrders := [⟨"1", Buy, 100, 100000000000000000⟩],
          sellOrders := [⟨"2", Sell, 100, 1⟩] } =
      some { trades := [⟨"1", "2", 100, 1⟩], err := none,
             book := { buyOrders := [⟨"1", Buy, 100, 100000000000000000⟩],
                       sellOrders := [] } } ∧
    (100000000000000000 : F64).Valid ∧
    sumTrades [⟨"1", "2", 100, 1⟩] ≠
      sumAmounts [⟨"1", Buy, 100, 100000000000000000⟩] -
        sumAmounts [⟨"1", Buy, 100, 100000000000000000⟩] := by
  refine ⟨by decide, by decide, by decide⟩

/-- C17, amended.  Quantity conservation where no difference is rounded: on
a book whose amounts are all non-negative multiples `k * 2^u` of one power of
two with `k < 2^53` (for instance whole numbers below `2^53`), `Match`
returns, and the exact sum of the amounts of the returned trades equals the
exact sum of the buy collection's amounts before the call minus that sum
after the call, and likewise for the sell collection. -/
theorem C17_quantity_conservation (ob : OrderBook) (u : Nat) (hu : u ≤ 2045)
    (hb : ∀ x ∈ ob.buyOrders, OnGrid u x.Amount)
    (hs : ∀ x ∈ ob.sellOrders, OnGrid u x.Amount) :
    ∃ r, ob.Match = some r ∧
      sumTrades r.trades = sumAmounts ob.buyOrders - sumAmounts r.book.buyOrders ∧
      sumTrades r.trades = sumAmounts ob.sellOrders - sumAmounts r.book.sellOrders := by
  have hfin : ∀ l : List Order, (∀ x ∈ l, OnGrid u x.Amount) → AllFinite l := by
    intro l hl x hx
    obtain ⟨k, _, e⟩ := hl x hx
    rw [e]
    rfl
  obtain ⟨r, hr⟩ := Match_total_of_finite ob (hfin _ hb) (hfin _ hs)
  have h := matchLoop_conservation u hu _ ob _ (Match_some ob r hr).1 hb hs
  exact ⟨r, hr, h.1, h.2⟩

/-- C17 amended, on a book with whole amounts and two crossing pairs: the
trades sum to 7, the buy side goes from 10 to 3 and the sell side from 8 to
1. -/
theorem C17_quantity_conservation_witness :
    OrderBook.Match
        { buyOrders := [⟨"1", Buy, 120, 5⟩, ⟨"2", Buy, 110, 4⟩, ⟨"5", Buy, 90, 1⟩],
          sellOrders := [⟨"3", Sell, 100, 7⟩, ⟨"4", Sell, 130, 1⟩] } =
      some { trades := [⟨"1", "3", 100, 5⟩, ⟨"2", "3", 100, 2⟩], err := none,
             book := { buyOrders := [⟨"2", Buy, 110, 2⟩, ⟨"5", Buy, 90, 1⟩],
                       sellOrders := [⟨"4", Sell, 130, 1⟩] } } ∧
    ∃ r, OrderBook.Match
        { buyOrders := [⟨"1", Buy, 120, 5⟩, ⟨"2", Buy, 110, 4⟩, ⟨"5", Buy, 90, 1⟩],
          sellOrders := [⟨"3", Sell, 100, 7⟩, ⟨"4", Sell, 130, 1⟩] } = some r ∧
      sumTrades r.trades =
        sumAmounts [⟨"1", Buy, 120, 5⟩, ⟨"2", Buy, 110, 4⟩, ⟨"5", Buy, 90, 1⟩] -
          sumAmounts r.book.buyOrders ∧
      sumTrades r.trades =
        sumAmounts [⟨"3", Sell, 100, 7⟩, ⟨"4", Sell, 130, 1⟩] -
          sumAmounts r.book.sellOrders :=
  ⟨by decide,
   C17_quantity_conservation
    { buyOrders := [⟨"1", Buy, 120, 5⟩, ⟨"2", Buy, 110, 4⟩, ⟨"5", Buy, 90, 1⟩],
      sellOrders := [⟨"3", Sell, 100, 7⟩, ⟨"4", Sell, 130, 1⟩] }
    1074 (by decide)
    (by
      intro x hx
      simp only [List.mem_cons, List.mem_singleton, List.not_mem_nil, or_false] at hx
      rcases hx with rfl | rfl | rfl
      · exact ⟨5, by decide, by decide⟩
      · exact ⟨4, by decide, by decide⟩
      · exact ⟨1, by decide, by decide⟩)
    (by
      intro x hx
      simp only [List.mem_cons, List.mem_singleton, List.not_mem_nil, or_false] at hx
      rcases hx with rfl | rfl
      · exact ⟨7, by decide, by decide⟩
      · exact ⟨1, by decide, by decide⟩)⟩

/-- C18, as stated, fails, on finite inputs through `Add` and `Match` alone.
With `a = 2^1023` (about 8.99e307): a buy of amount `a` meets a sell of amount
`-a`; the first `Match` returns and leaves the buy with `a - (-a)`, which
overflows to `+Inf`.  A buy of amount `-a` at a better price and a sell of
amount `a` are added.  In the second `Match` the first pass leaves the sell
with `+Inf` too; the next pass, on two heads of amount `+Inf`, emits a trade
and makes both amounts `Inf - Inf = NaN`, slices nothing off, and the loop
never exits. -/
theorem C18_bounded_trades_counterexample :
    (F64.fin false (2 ^ 2097)).Valid ∧ (F64.fin true (2 ^ 2097)).Valid ∧
    OrderBook.Match
        ((New.Add goSorter ⟨"1", Buy, 300, F64.fin false (2 ^ 2097)⟩).1.Add goSorter
          ⟨"2", Sell, 95, F64.fin true (2 ^ 2097)⟩).1 =
      some { trades := [⟨"1", "2", 95, F64.fin true (2 ^ 2097)⟩], err := none,
             book := { buyOrders := [⟨"1", Buy, 300, F64.inf false⟩],
                       sellOrders := [] } } ∧
    ((OrderBook.Add goSorter
        { buyOrders := [⟨"1", Buy, 300, F64.inf false⟩], sellOrders := [] }
        ⟨"3", Buy, 400, F64.fin true (2 ^ 2097)⟩).1.Add goSorter
          ⟨"4", Sell, 95, F64.fin false (2 ^ 2097)⟩).1 =
      { buyOrders := [⟨"3", Buy, 400, F64.fin true (2 ^ 2097)⟩,
                      ⟨"1", Buy, 300, F64.inf false⟩],
        sellOrders := [⟨"4", Sell, 95, F64.fin false (2 ^ 2097)⟩] } ∧
    fill ⟨"3", Buy, 400, F64.fin true (2 ^ 2097)⟩ [⟨"1", Buy, 300, F64.inf false⟩]
        ⟨"4", Sell, 95, F64.fin false (2 ^ 2097)⟩ [] =
      { buyOrders := [⟨"1", Buy, 300, F64.inf false⟩],
        sellOrders := [⟨"4", Sell, 95, F64.inf false⟩] } ∧
    fill ⟨"1", Buy, 300, F64.inf false⟩ [] ⟨"4", Sell, 95, F64.inf false⟩ [] =
      { buyOrders := [⟨"1", Buy, 300, F64.nan⟩],
        sellOrders := [⟨"4", Sell, 95, F64.nan⟩] } ∧
    (∀ k, matchLoop k
      { buyOrders := [⟨"3", Buy, 400, F64.fin true (2 ^ 2097)⟩,
                      ⟨"1", Buy, 300, F64.inf false⟩],
        sellOrders := [⟨"4", Sell, 95, F64.fin false (2 ^ 2097)⟩] } = none) ∧
    OrderBook.Match
      { buyOrders := [⟨"3", Buy, 400, F64.fin true (2 ^ 2097)⟩,
                      ⟨"1", Buy, 300, F64.inf false⟩],
        sellOrders := [⟨"4", Sell, 95, F64.fin false (2 ^ 2097)⟩] } = none := by
  have hf : fill ⟨"3", Buy, 400, F64.fin true (2 ^ 2097)⟩ [⟨"1", Buy, 300, F64.inf false⟩]
        ⟨"4", Sell, 95, F64.fin false (2 ^ 2097)⟩ [] =
      { buyOrders := [⟨"1", Buy, 300, F64.inf false⟩],
        sellOrders := [⟨"4", Sell, 95, F64.inf false⟩] } := by decide
  have h2 : ∀ k, matchLoop k
      { buyOrders := [⟨"1", Buy, 300, F64.inf false⟩],
        sellOrders := [⟨"4", Sell, 95, F64.inf false⟩] } = none :=
    matchLoop_none_of_fill ⟨"1", Buy, 300, F64.inf false⟩ [] ⟨"4", Sell, 95, F64.inf false⟩ []
      (by decide)
      (fun k => fill_nan_none k ⟨"1", Buy, 300, F64.inf false⟩ []
        ⟨"4", Sell, 95, F64.inf false⟩ [] (by decide) rfl rfl)
  have h1 : ∀ k, matchLoop k
      { buyOrders := [⟨"3", Buy, 400, F64.fin true (2 ^ 2097)⟩,
                      ⟨"1", Buy, 300, F64.inf false⟩],
        sellOrders := [⟨"4", Sell, 95, F64.fin false (2 ^ 2097)⟩] } = none :=
    matchLoop_none_of_fill ⟨"3", Buy, 400, F64.fin true (2 ^ 2097)⟩
      [⟨"1", Buy, 300, F64.inf false⟩] ⟨"4", Sell, 95, F64.fin false (2 ^ 2097)⟩ []
      (by decide) (by rw [hf]; exact h2)
  exact ⟨by decide, by decide, by decide, by decide, hf, by decide, h1, Match_none _ h1⟩

/-- C18, amended.  `Match` returns, with a bounded number of trades, on every
book whose amounts are all finite, whatever their signs.  Such a book is
tame (all amounts finite, except possibly one `+Inf`, left by an overflow, at
the head of one collection); every pass of the loop body on a tame book
slices an order off the front of a collection and leaves a tame book; so
`Match` returns: no trade when there are `n = 0` buy orders or `m = 0` sell
orders, and at most `n + m - 1` trades otherwise. -/
theorem C18_bounded_trades (ob : OrderBook)
    (hb : AllFinite ob.buyOrders) (hs : AllFinite ob.sellOrders) :
    Tame ob ∧
    (∀ b bs s ss, Tame { buyOrders := b :: bs, sellOrders := s :: ss } →
      Tame (fill b bs s ss) ∧
        ((fill b bs s ss).buyOrders = bs ∨ (fill b bs s ss).sellOrders = ss)) ∧
    ∃ r, ob.Match = some r ∧
      (ob.buyOrders.length = 0 ∨ ob.sellOrders.length = 0 → r.trades = []) ∧
      (1 ≤ ob.buyOrders.length → 1 ≤ ob.sellOrders.length →
        r.trades.length ≤ ob.buyOrders.length + ob.sellOrders.length - 1) := by
  refine ⟨Or.inl ⟨hb, almostFinite_of_allFinite _ hs⟩, fill_tame, ?_⟩
  obtain ⟨r, hr⟩ := Match_total_of_finite ob hb hs
  have h := matchLoop_trade_bound _ ob _ (Match_some ob r hr).1
  refine ⟨r, hr, ?_, ?_⟩
  · intro he
    apply h.1
    rcases he with he | he
    · exact Or.inl (List.length_eq_zero.mp he)
    · exact Or.inr (List.length_eq_zero.mp he)
  · intro h1 h2
    have hb : ob.buyOrders ≠ [] := by
      intro e; rw [e] at h1; simp at h1
    have hs : ob.sellOrders ≠ [] := by
      intro e; rw [e] at h2; simp at h2
    have := h.2 hb hs
    change r.trades.length + 1 ≤ _ at this
    omega

/-- C18 amended, on a book with a negative amount (written `0 - 100`), where
the bound `n + m - 1 = 3` is reached. -/
theorem C18_bounded_trades_witness :
    OrderBook.Match
        { buyOrders := [⟨"1", Buy, 100, 100⟩, ⟨"2", Buy, 90, 0 - 100⟩],
          sellOrders := [⟨"3", Sell, 80, 1⟩, ⟨"4", Sell, 85, 300⟩] } =
      some { trades := [⟨"1", "3", 80, 1⟩, ⟨"1", "4", 85, 99⟩, ⟨"2", "4", 85, 0 - 100⟩],
             err := none,
             book := { buyOrders := [], sellOrders := [⟨"4", Sell, 85, 301⟩] } } ∧
    ∃ r, OrderBook.Match
        { buyOrders := [⟨"1", Buy, 100, 100⟩, ⟨"2", Buy, 90, 0 - 100⟩],
          sellOrders := [⟨"3", Sell, 80, 1⟩, ⟨"4", Sell, 85, 300⟩] } = some r ∧
      r.trades.length ≤ 2 + 2 - 1 := by
  refine ⟨by decide, ?_⟩
  obtain ⟨r, hr, _, h⟩ := (C18_bounded_trades
    { buyOrders := [⟨"1", Buy, 100, 100⟩, ⟨"2", Buy, 90, 0 - 100⟩],
      sellOrders := [⟨"3", Sell, 80, 1⟩, ⟨"4", Sell, 85, 300⟩] }
    (by unfold AllFinite; decide) (by unfold AllFinite; decide)).2.2
  exact ⟨r, hr, h (by decide) (by decide)⟩

/-- C19. Positive amounts stay positive: on a book in which every resting
order has a strictly positive amount, whenever `Match` returns every returned
trade has a strictly positive amount and every order still resting has a
strictly positive amount.  `Match` does return when all resting amounts are
finite. -/
theorem C19_positive_amounts (ob : OrderBook)
    (hb : ∀ x ∈ ob.buyOrders, (0 : F64) < x.Amount)
    (hs : ∀ x ∈ ob.sellOrders, (0 : F64) < x.Amount) :
    (∀ r, ob.Match = some r →
      (∀ t ∈ r.trades, (0 : F64) < t.Amount) ∧
      (∀ x ∈ r.book.buyOrders, (0 : F64) < x.Amount) ∧
      (∀ x ∈ r.book.sellOrders, (0 : F64) < x.Amount)) ∧
    (AllFinite ob.buyOrders → AllFinite ob.sellOrders → ∃ r, ob.Match = some r) :=
  ⟨fun r hr => matchLoop_positive _ ob _ (Match_some ob r hr).1 hb hs,
   Match_total_of_finite ob⟩

/-- C19 on a book with two crossing pairs and fractional amounts (2.5, 4, 3
and 1, leaving 3.5). -/
theorem C19_positive_amounts_witness :
    OrderBook.Match
        { buyOrders := [⟨"1", Buy, 120, F64.fin false (5 * 2 ^ 1073)⟩, ⟨"2", Buy, 110, 4⟩],
          sellOrders := [⟨"3", Sell, 100, 3⟩, ⟨"4", Sell, 130, 1⟩] } =
      some { trades := [⟨"1", "3", 100, F64.fin false (5 * 2 ^ 1073)⟩,
                        ⟨"2", "3", 100, F64.fin false (2 ^ 1073)⟩], err := none,
             book := { buyOrders := [⟨"2", Buy, 110, F64.fin false (7 * 2 ^ 1073)⟩],
                       sellOrders := [⟨"4", Sell, 130, 1⟩] } } ∧
    (∀ r, OrderBook.Match
        { buyOrders := [⟨"1", Buy, 120, F64.fin false (5 * 2 ^ 1073)⟩, ⟨"2", Buy, 110, 4⟩],
          sellOrders := [⟨"3", Sell, 100, 3⟩, ⟨"4", Sell, 130, 1⟩] } = some r →
      (∀ t ∈ r.trades, (0 : F64) < t.Amount) ∧
      (∀ x ∈ r.book.buyOrders, (0 : F64) < x.Amount) ∧
      (∀ x ∈ r.book.sellOrders, (0 : F64) < x.Amount)) :=
  ⟨by decide,
   (C19_positive_amounts
    { buyOrders := [⟨"1", Buy, 120, F64.fin false (5 * 2 ^ 1073)⟩, ⟨"2", Buy, 110, 4⟩],
      sellOrders := [⟨"3", Sell, 100, 3⟩, ⟨"4", Sell, 130, 1⟩] }
    (by decide) (by decide)).1⟩

/-- C20. `Match` is idempotent: whenever a call of `Match` returns, a second
call right after it returns an empty trade sequence (and no error) and leaves
both collections as the first call left them.  The first call does return when
all resting amounts are finite. -/
theorem C20_match_idempotent (ob : OrderBook) :
    (∀ r, ob.Match = some r →
      r.book.Match = some { trades := [], err := none, book := r.book }) ∧
    (AllFinite ob.buyOrders → AllFinite ob.sellOrders →
      ∃ r, ob.Match = some r ∧
        r.book.Match = some { trades := [], err := none, book := r.book }) := by
  have h : ∀ r, ob.Match = some r →
      r.book.Match = some { trades := [], err := none, book := r.book } :=
    fun r hr => Match_stopped r.book (matchLoop_exit _ ob _ (Match_some ob r hr).1)
  refine ⟨h, fun hb hs => ?_⟩
  obtain ⟨r, hr⟩ := Match_total_of_finite ob hb hs
  exact ⟨r, hr, h r hr⟩

/-- C20 on a book with two crossing pairs where both collections keep an
order after the first call. -/
theorem C20_match_idempotent_witness :
    OrderBook.Match
        { buyOrders := [⟨"1", Buy, 120, 5⟩, ⟨"2", Buy, 110, 4⟩, ⟨"5", Buy, 90, 1⟩],
          sellOrders := [⟨"3", Sell, 100, 7⟩, ⟨"4", Sell, 130, 1⟩] } =
      some { trades := [⟨"1", "3", 100, 5⟩, ⟨"2", "3", 100, 2⟩], err := none,
             book := { buyOrders := [⟨"2", Buy, 110, 2⟩, ⟨"5", Buy, 90, 1⟩],
                       sellOrders := [⟨"4", Sell, 130, 1⟩] } } ∧
    OrderBook.Match
        { buyOrders := [⟨"2", Buy, 110, 2⟩, ⟨"5", Buy, 90, 1⟩],
          sellOrders := [⟨"4", Sell, 130, 1⟩] } =
      some { trades := [], err := none,
             book := { buyOrders := [⟨"2", Buy, 110, 2⟩, ⟨"5", Buy, 90, 1⟩],
                       sellOrders := [⟨"4", Sell, 130, 1⟩] } } :=
  ⟨by decide,
   (C20_match_idempotent
    { buyOrders := [⟨"1", Buy, 120, 5⟩, ⟨"2", Buy, 110, 4⟩, ⟨"5", Buy, 90, 1⟩],
      sellOrders := [⟨"3", Sell, 100, 7⟩, ⟨"4", Sell, 130, 1⟩] }).1
    { trades := [⟨"1", "3", 100, 5⟩, ⟨"2", "3", 100, 2⟩], err := none,
      book := { buyOrders := [⟨"2", Buy, 110, 2⟩, ⟨"5", Buy, 90, 1⟩],
                sellOrders := [⟨"4", Sell, 130, 1⟩] } }
    (by decide)⟩

end Orderbook
